import Mathlib

/-!
Verification of the `cute-nucleotides` nucleotide bit-packing codecs.

The Rust source (src/n_to_bits.rs, src/n_to_bits2.rs) is shallowly embedded:
byte sequences are `List Nat` (each element an octet `< 256`), packed 64-bit
words are `List Nat` (each `< 2^64`), and fallible operations (the `panic!`
length guard, and `get_unchecked` reads whose index can leave the table)
return `Option`.  Machine integers are modelled as `Nat` with explicit
`% 2^w` truncation at the points where the source can overflow.
-/

set_option maxRecDepth 16384

namespace Codec

/-- Concatenate a list of `w`-bit fields, least-significant field first:
`packWord w [v0, v1, ...] = v0 + v1*2^w + v2*2^(2w) + ...`. -/
def packWord (w : Nat) : List Nat → Nat
  | [] => 0
  | v :: vs => v + packWord w vs * 2 ^ w

theorem packWord_nil (w : Nat) : packWord w [] = 0 := rfl

theorem packWord_cons (w v : Nat) (vs : List Nat) :
    packWord w (v :: vs) = v + packWord w vs * 2 ^ w := rfl

theorem packWord_lt (w : Nat) (vs : List Nat) (h : ∀ v ∈ vs, v < 2 ^ w) :
    packWord w vs < 2 ^ (w * vs.length) := by
  induction vs with
  | nil => simp [packWord]
  | cons v vs ih =>
    have hv : v < 2 ^ w := h v (List.mem_cons_self ..)
    have hrest : packWord w vs < 2 ^ (w * vs.length) :=
      ih (fun x hx => h x (List.mem_cons_of_mem _ hx))
    rw [packWord_cons, List.length_cons, Nat.mul_succ, pow_add]
    have h1 : packWord w vs * 2 ^ w ≤ (2 ^ (w * vs.length) - 1) * 2 ^ w :=
      Nat.mul_le_mul_right _ (by omega)
    have h2 : (2 ^ (w * vs.length) - 1) * 2 ^ w = 2 ^ (w * vs.length) * 2 ^ w - 2 ^ w := by
      rw [Nat.sub_mul, Nat.one_mul]
    have h3 : 2 ^ w ≤ 2 ^ (w * vs.length) * 2 ^ w :=
      Nat.le_mul_of_pos_left _ (Nat.pos_pow_of_pos _ (by norm_num))
    omega

theorem packWord_append (w : Nat) (xs ys : List Nat) :
    packWord w (xs ++ ys) = packWord w xs + packWord w ys * 2 ^ (w * xs.length) := by
  induction xs with
  | nil => simp [packWord]
  | cons x xs ih =>
    simp only [List.cons_append, packWord_cons, ih, List.length_cons]
    rw [Nat.mul_succ, pow_add]
    ring

/-- Extracting `t` bits at offset `w*k + r` (with `r + t ≤ w`) from a word
packed out of `w`-bit fields reads bits `[r, r+t)` of field `k`. -/
theorem packWord_extract (w : Nat) (vs : List Nat) (h : ∀ v ∈ vs, v < 2 ^ w)
    (k r t : Nat) (hrt : r + t ≤ w) :
    packWord w vs / 2 ^ (w * k + r) % 2 ^ t = vs.getD k 0 / 2 ^ r % 2 ^ t := by
  induction vs generalizing k with
  | nil =>
    simp [packWord, List.getD, Nat.zero_div, Nat.zero_mod]
  | cons v vs ih =>
    have hv : v < 2 ^ w := h v (List.mem_cons_self ..)
    have hrest : ∀ x ∈ vs, x < 2 ^ w := fun x hx => h x (List.mem_cons_of_mem _ hx)
    cases k with
    | zero =>
      simp only [packWord_cons, Nat.mul_zero, Nat.zero_add, List.getD_cons_zero]
      -- (v + P * 2^w) / 2^r % 2^t = v / 2^r % 2^t
      have hstep1 : packWord w vs * 2 ^ w = (packWord w vs * 2 ^ (w - r)) * 2 ^ r := by
        rw [Nat.mul_assoc, ← pow_add]
        congr 2
        omega
      rw [hstep1, Nat.add_mul_div_right _ _ (Nat.pos_pow_of_pos r (by norm_num))]
      have hstep2 : packWord w vs * 2 ^ (w - r)
          = (packWord w vs * 2 ^ (w - r - t)) * 2 ^ t := by
        rw [Nat.mul_assoc, ← pow_add]
        congr 2
        omega
      rw [hstep2, Nat.add_mul_mod_self_right]
    | succ k =>
      simp only [packWord_cons, List.getD_cons_succ]
      rw [← ih hrest k]
      have hsplit : (2:Nat) ^ (w * (k + 1) + r) = 2 ^ w * 2 ^ (w * k + r) := by
        rw [← pow_add]
        congr 1
        ring
      rw [hsplit, ← Nat.div_div_eq_div_mul]
      congr 2
      rw [Nat.add_mul_div_right _ _ (Nat.pos_pow_of_pos w (by norm_num)),
        Nat.div_eq_of_lt hv, Nat.zero_add]

/-- Rebuilding a number from its `w`-bit fields. -/
theorem packWord_recompose (w n x : Nat) (hx : x < 2 ^ (w * n)) :
    packWord w ((List.range n).map fun k => x / 2 ^ (w * k) % 2 ^ w) = x := by
  induction n generalizing x with
  | zero =>
    simp only [Nat.mul_zero, pow_zero, Nat.lt_one_iff] at hx
    simp [hx, packWord]
  | succ n ih =>
    rw [List.range_succ_eq_map]
    simp only [List.map_cons, Nat.mul_zero, pow_zero, Nat.div_one, List.map_map]
    rw [packWord_cons]
    have hmap : ((List.range n).map ((fun k => x / 2 ^ (w * k) % 2 ^ w) ∘ Nat.succ))
        = (List.range n).map fun k => (x / 2 ^ w) / 2 ^ (w * k) % 2 ^ w := by
      apply List.map_congr_left
      intro k _
      simp only [Function.comp_apply]
      rw [Nat.div_div_eq_div_mul, ← pow_add]
      congr 2
      rw [Nat.succ_eq_add_one]
      ring
    have hdiv : x / 2 ^ w < 2 ^ (w * n) := by
      rw [Nat.div_lt_iff_lt_mul (Nat.pos_pow_of_pos w (by norm_num)), ← pow_add]
      have : w * n + w = w * (n + 1) := by ring
      rw [this]
      exact hx
    rw [hmap, ih _ hdiv]
    exact Nat.mod_add_div' x (2 ^ w)

theorem lor_of_lt {a : Nat} (b t : Nat) (h : a < 2 ^ t) :
    a ||| b * 2 ^ t = a + b * 2 ^ t := by
  calc a ||| b * 2 ^ t = b * 2 ^ t ||| a := Nat.lor_comm ..
    _ = 2 ^ t * b ||| a := by rw [Nat.mul_comm b]
    _ = 2 ^ t * b + a := (Nat.mul_add_lt_is_or h b).symm
    _ = a + b * 2 ^ t := by ring

theorem testBit_add_mul_two_pow (a b t i : Nat) (h : a < 2 ^ t) :
    Nat.testBit (a + b * 2 ^ t) i = if i < t then a.testBit i else b.testBit (i - t) := by
  rw [← lor_of_lt b t h, Nat.testBit_or, ← Nat.shiftLeft_eq, Nat.testBit_shiftLeft]
  by_cases hi : i < t
  · have : ¬ i ≥ t := by omega
    simp [hi, this]
  · have hge : i ≥ t := by omega
    have hlt : a < 2 ^ i := lt_of_lt_of_le h (Nat.pow_le_pow_right (by norm_num) hge)
    simp [hi, hge, Nat.testBit_lt_two_pow hlt]

/-- XOR distributes over a `2^t`-aligned split when the low parts fit. -/
theorem xor_split (a₁ a₂ b₁ b₂ t : Nat) (h₁ : a₁ < 2 ^ t) (h₂ : a₂ < 2 ^ t) :
    (a₁ + b₁ * 2 ^ t) ^^^ (a₂ + b₂ * 2 ^ t) = (a₁ ^^^ a₂) + (b₁ ^^^ b₂) * 2 ^ t := by
  have hxor : a₁ ^^^ a₂ < 2 ^ t := Nat.xor_lt_two_pow h₁ h₂
  apply Nat.eq_of_testBit_eq
  intro i
  rw [Nat.testBit_xor, testBit_add_mul_two_pow _ _ _ _ h₁, testBit_add_mul_two_pow _ _ _ _ h₂,
    testBit_add_mul_two_pow _ _ _ _ hxor]
  by_cases hi : i < t <;> simp [hi, Nat.testBit_xor]

/-- The positions (ascending) of the set bits of `m` (`m < 2^64`). -/
def maskBitsF : Nat → Nat → List Nat
  | 0, _ => []
  | fuel+1, m =>
    if m = 0 then [] else
    (if m % 2 = 1 then [0] else []) ++ (maskBitsF fuel (m / 2)).map (· + 1)

def maskBits (m : Nat) : List Nat := maskBitsF 64 m

/-- Gather the bits of `x` at the listed positions into contiguous low bits
(first listed position becomes bit 0). -/
def bitsGather (x : Nat) : List Nat → Nat
  | [] => 0
  | p :: ps => x / 2 ^ p % 2 + 2 * bitsGather x ps

/-- Scatter the low bits of `x` to the listed positions (bit 0 goes to the
first listed position). -/
def bitsScatter (x : Nat) : List Nat → Nat
  | [] => 0
  | p :: ps => x % 2 * 2 ^ p + bitsScatter (x / 2) ps

/-- `_pext_u64`: gather the bits of `x` selected by `mask` into the low bits. -/
def pext (x m : Nat) : Nat := bitsGather x (maskBits m)

/-- `_pdep_u64`: scatter the low bits of `x` to the set positions of `mask`. -/
def pdep (x m : Nat) : Nat := bitsScatter x (maskBits m)

/-- Carry-less (XOR) product of `a` by the set bits of `m`. -/
def clmulXor (a : Nat) : List Nat → Nat
  | [] => 0
  | p :: ps => a * 2 ^ p ^^^ clmulXor a ps

/-- Carry-less multiplication (`pclmulqdq` on one 64-bit operand pair). -/
def clmul (a m : Nat) : Nat := clmulXor a (maskBits m)

theorem bitsGather_append (x : Nat) (ps qs : List Nat) :
    bitsGather x (ps ++ qs) = bitsGather x ps + bitsGather x qs * 2 ^ ps.length := by
  induction ps with
  | nil => simp [bitsGather]
  | cons p ps ih =>
    simp only [List.cons_append, bitsGather, List.append_eq, ih, List.length_cons]
    rw [pow_succ]
    ring

theorem bitsGather_range' (x s t : Nat) :
    bitsGather x (List.range' s t) = x / 2 ^ s % 2 ^ t := by
  induction t generalizing s with
  | zero => simp [bitsGather, Nat.mod_one]
  | succ t ih =>
    rw [List.range'_succ]
    simp only [bitsGather]
    rw [ih]
    have h1 : x / 2 ^ (s+1) = x / 2 ^ s / 2 := by
      rw [Nat.div_div_eq_div_mul, ← pow_succ]
    rw [h1]
    have hm : x / 2 ^ s % (2 * 2 ^ t) = x / 2 ^ s % 2 + 2 * (x / 2 ^ s / 2 % 2 ^ t) :=
      Nat.mod_mul
    rw [pow_succ']
    omega

theorem bitsGather_lt (x : Nat) (ps : List Nat) : bitsGather x ps < 2 ^ ps.length := by
  induction ps with
  | nil => simp [bitsGather]
  | cons p ps ih =>
    simp only [bitsGather, List.length_cons]
    have h2 : x / 2 ^ p % 2 < 2 := Nat.mod_lt _ (by norm_num)
    rw [pow_succ]
    omega

theorem bitsScatter_append (x : Nat) (ps qs : List Nat) :
    bitsScatter x (ps ++ qs) = bitsScatter x ps + bitsScatter (x / 2 ^ ps.length) qs := by
  induction ps generalizing x with
  | nil => simp [bitsScatter]
  | cons p ps ih =>
    simp only [List.cons_append, bitsScatter, List.append_eq, ih, List.length_cons]
    have h1 : x / 2 / 2 ^ ps.length = x / 2 ^ (ps.length + 1) := by
      rw [Nat.div_div_eq_div_mul, ← pow_succ']
    rw [h1]
    ring

theorem bitsScatter_range' (x s t : Nat) :
    bitsScatter x (List.range' s t) = x % 2 ^ t * 2 ^ s := by
  induction t generalizing s x with
  | zero => simp [bitsScatter, Nat.mod_one]
  | succ t ih =>
    rw [List.range'_succ]
    simp only [bitsScatter]
    rw [ih]
    have hm : x % (2 * 2 ^ t) = x % 2 + 2 * (x / 2 % 2 ^ t) := Nat.mod_mul
    rw [pow_succ' 2 t, hm, Nat.add_mul, pow_succ' 2 s]
    ring

theorem pext_0606 (x : Nat) :
    pext x 0x0606060606060606 =
      x / 2 ^ 1 % 4 + x / 2 ^ 9 % 4 * 4 + x / 2 ^ 17 % 4 * 16 + x / 2 ^ 25 % 4 * 64 +
      x / 2 ^ 33 % 4 * 256 + x / 2 ^ 41 % 4 * 1024 + x / 2 ^ 49 % 4 * 4096 +
      x / 2 ^ 57 % 4 * 16384 := by
  have hm : maskBits 0x0606060606060606 =
      List.range' 1 2 ++ (List.range' 9 2 ++ (List.range' 17 2 ++ (List.range' 25 2 ++
      (List.range' 33 2 ++ (List.range' 41 2 ++ (List.range' 49 2 ++ List.range' 57 2)))))) := by
    decide
  rw [pext, hm, bitsGather_append, bitsGather_append, bitsGather_append, bitsGather_append,
    bitsGather_append, bitsGather_append, bitsGather_append]
  simp only [bitsGather_range', List.length_range', List.length_append]
  norm_num
  ring

theorem pdep_0303 (x : Nat) :
    pdep x 0x0303030303030303 =
      x % 4 + x / 4 % 4 * 2 ^ 8 + x / 16 % 4 * 2 ^ 16 + x / 64 % 4 * 2 ^ 24 +
      x / 256 % 4 * 2 ^ 32 + x / 1024 % 4 * 2 ^ 40 + x / 4096 % 4 * 2 ^ 48 +
      x / 16384 % 4 * 2 ^ 56 := by
  have hm : maskBits 0x0303030303030303 =
      List.range' 0 2 ++ (List.range' 8 2 ++ (List.range' 16 2 ++ (List.range' 24 2 ++
      (List.range' 32 2 ++ (List.range' 40 2 ++ (List.range' 48 2 ++ List.range' 56 2)))))) := by
    decide
  rw [pdep, hm, bitsScatter_append, bitsScatter_append, bitsScatter_append, bitsScatter_append,
    bitsScatter_append, bitsScatter_append, bitsScatter_append]
  simp only [bitsScatter_range', List.length_range', List.length_append]
  norm_num [Nat.div_div_eq_div_mul]
  ring

theorem pdep_7F (x : Nat) :
    pdep x 0x7F7F7F7F7F7F7F7F =
      x % 128 + x / 2 ^ 7 % 128 * 2 ^ 8 + x / 2 ^ 14 % 128 * 2 ^ 16 + x / 2 ^ 21 % 128 * 2 ^ 24 +
      x / 2 ^ 28 % 128 * 2 ^ 32 + x / 2 ^ 35 % 128 * 2 ^ 40 + x / 2 ^ 42 % 128 * 2 ^ 48 +
      x / 2 ^ 49 % 128 * 2 ^ 56 := by
  have hm : maskBits 0x7F7F7F7F7F7F7F7F =
      List.range' 0 7 ++ (List.range' 8 7 ++ (List.range' 16 7 ++ (List.range' 24 7 ++
      (List.range' 32 7 ++ (List.range' 40 7 ++ (List.range' 48 7 ++ List.range' 56 7)))))) := by
    decide
  rw [pdep, hm, bitsScatter_append, bitsScatter_append, bitsScatter_append, bitsScatter_append,
    bitsScatter_append, bitsScatter_append, bitsScatter_append]
  simp only [bitsScatter_range', List.length_range', List.length_append]
  norm_num [Nat.div_div_eq_div_mul]
  ring

theorem pext_007F (x : Nat) :
    pext x 0x007F007F007F007F =
      x % 128 + x / 2 ^ 16 % 128 * 2 ^ 7 + x / 2 ^ 32 % 128 * 2 ^ 14 +
      x / 2 ^ 48 % 128 * 2 ^ 21 := by
  have hm : maskBits 0x007F007F007F007F =
      List.range' 0 7 ++ (List.range' 16 7 ++ (List.range' 32 7 ++ List.range' 48 7)) := by
    decide
  rw [pext, hm, bitsGather_append, bitsGather_append, bitsGather_append]
  simp only [bitsGather_range', List.length_range', List.length_append]
  norm_num
  ring

end Codec

namespace NToBits

/-!  Embedding of `src/n_to_bits.rs` (Codec-4: alphabet {A,C,G,T}). -/

open Codec

/-- `static BYTE_LUT: [u8; 128]`, built exactly as in the source: a
zero-initialized 128-entry table with the eight alphabet slots assigned. -/
def BYTE_LUT : List Nat :=
  ((((((((List.replicate 128 0).set 97 0b00).set 116 0b10).set 99 0b01).set 103
    0b11).set 65 0b00).set 84 0b10).set 67 0b01).set 71 0b11

/-- `static BITS_LUT: [u8; 4]`: code -> ASCII byte. -/
def BITS_LUT : List Nat :=
  ((((List.replicate 4 0).set 0b00 65).set 0b10 84).set 0b01 67).set 0b11 71

/-- The value stored in `BYTE_LUT` at index `b < 128` (0 for unassigned slots). -/
def byteLutEntry (b : Nat) : Nat :=
  if b = 97 ∨ b = 65 then 0b00
  else if b = 116 ∨ b = 84 then 0b10
  else if b = 99 ∨ b = 67 then 0b01
  else if b = 103 ∨ b = 71 then 0b11
  else 0

theorem BYTE_LUT_get (b : Nat) :
    BYTE_LUT[b]? = if b < 128 then some (byteLutEntry b) else none := by
  by_cases h : b < 128
  · simp only [h, if_true]
    revert h
    revert b
    decide
  · have hlen : BYTE_LUT.length = 128 := by decide
    simp only [h, if_false]
    apply List.getElem?_eq_none
    omega

/-- `pub fn n_to_bits_lut`: the scalar reference Codec-4 encoder.  The result
buffer starts as `(len >> 5) + (len & 31 == 0 ? 0 : 1)` zero words; byte `i`'s
2-bit code is ORed into word `i >> 5` at bit offset `(i & 31) << 1`.
`BYTE_LUT.get_unchecked(byte)` with `byte ≥ 128` reads out of bounds
(undefined behavior), modelled as `none`. -/
def n_to_bits_lut (n : List Nat) : Option (List Nat) :=
  (List.range n.length).foldlM (fun res i => do
      let offset := i >>> 5
      let shift := (i &&& 31) <<< 1
      let b ← n[i]?
      let code ← BYTE_LUT[b]?
      let cur ← res[offset]?
      pure (res.set offset (cur ||| code <<< shift)))
    (List.replicate ((n.length >>> 5) + if n.length &&& 31 = 0 then 0 else 1) 0)

/-- `pub fn bits_to_n_lut`: the scalar reference Codec-4 decoder.  Panics
(modelled `none`) when `len > bits.len() << 5`; otherwise byte `i` is
`BITS_LUT[(bits[i >> 5] >> ((i & 31) << 1)) & 0b11]`. -/
def bits_to_n_lut (bits : List Nat) (len : Nat) : Option (List Nat) :=
  if len > bits.length <<< 5 then none
  else (List.range len).mapM fun i => do
    let offset := i >>> 5
    let shift := (i &&& 31) <<< 1
    let curr ← bits[offset]?
    BITS_LUT[(curr >>> shift &&& 0b11)]?

/-- The capacity argument of `Vec::from_raw_parts` in `bits_to_n_lut`. -/
def bits_to_n_lut_cap (bits : List Nat) (len : Nat) : Nat := len

end NToBits

namespace Codec

theorem shiftRight5 (x : Nat) : x >>> 5 = x / 32 := by
  rw [Nat.shiftRight_eq_div_pow]

theorem and31 (x : Nat) : x &&& 31 = x % 32 := by
  have h := Nat.and_pow_two_sub_one_eq_mod x 5
  norm_num at h
  exact h

theorem and3 (x : Nat) : x &&& 3 = x % 4 := by
  have h := Nat.and_pow_two_sub_one_eq_mod x 2
  norm_num at h
  exact h

theorem and127 (x : Nat) : x &&& 127 = x % 128 := by
  have h := Nat.and_pow_two_sub_one_eq_mod x 7
  norm_num at h
  exact h

theorem and255 (x : Nat) : x &&& 255 = x % 256 := by
  have h := Nat.and_pow_two_sub_one_eq_mod x 8
  norm_num at h
  exact h

theorem and65535 (x : Nat) : x &&& 65535 = x % 65536 := by
  have h := Nat.and_pow_two_sub_one_eq_mod x 16
  norm_num at h
  exact h

theorem shiftLeft5 (x : Nat) : x <<< 5 = 32 * x := by
  rw [Nat.shiftLeft_eq]
  ring

theorem shiftLeft1 (x : Nat) : x <<< 1 = 2 * x := by
  rw [Nat.shiftLeft_eq]
  ring

theorem getD_replicate_zero (m j : Nat) : (List.replicate m (0:Nat)).getD j 0 = 0 := by
  rcases lt_or_ge j m with h | h
  · rw [List.getD_eq_getElem _ _ (by simpa using h), List.getElem_replicate]
  · rw [List.getD_eq_default]
    simpa using h

theorem eq_of_getD {l₁ l₂ : List Nat} (hl : l₁.length = l₂.length)
    (h : ∀ j, l₁.getD j 0 = l₂.getD j 0) : l₁ = l₂ := by
  apply List.ext_getElem hl
  intro i h₁ h₂
  rw [← List.getD_eq_getElem l₁ 0 h₁, ← List.getD_eq_getElem l₂ 0 h₂]
  exact h i

theorem mapM_eq_some_map {α β : Type} (l : List α) (f : α → Option β) (g : α → β)
    (h : ∀ a ∈ l, f a = some (g a)) : l.mapM f = some (l.map g) := by
  induction l with
  | nil => rfl
  | cons a l ih =>
    rw [List.mapM_cons, h a (List.mem_cons_self ..),
      ih (fun x hx => h x (List.mem_cons_of_mem _ hx))]
    rfl

/-- `getD` into a `drop`-`take` slice reads the underlying list. -/
theorem getD_take_drop (l : List Nat) (a b m : Nat) (hm : m < b) :
    ((l.drop a).take b).getD m 0 = if a + m < l.length then l.getD (a + m) 0 else 0 := by
  by_cases h : a + m < l.length
  · have hdl : m < (l.drop a).length := by
      rw [List.length_drop]
      omega
    have htl : m < ((l.drop a).take b).length := by
      rw [List.length_take]
      omega
    rw [if_pos h, List.getD_eq_getElem _ _ htl, List.getElem_take, List.getElem_drop,
      List.getD_eq_getElem _ _ h]
  · have : ((l.drop a).take b).length ≤ m := by
      rw [List.length_take, List.length_drop]
      omega
    rw [if_neg h, List.getD_eq_default _ _ this]

end Codec

namespace NToBits

open Codec

/-- The per-byte 2-bit codes of a byte string. -/
def codes4 (n : List Nat) : List Nat := n.map byteLutEntry

/-- Closed form of the Codec-4 scalar encoder: word `j` packs the 2-bit codes
of bytes `32j..32j+31`. -/
def enc4words (n : List Nat) : List Nat :=
  (List.range ((n.length + 31) / 32)).map fun j =>
    packWord 2 (((codes4 n).drop (32 * j)).take 32)

/-- Value of output word `j` after the first `k` loop iterations. -/
def enc4acc (n : List Nat) (j : Nat) : Nat → Nat
  | 0 => 0
  | k + 1 =>
    if k >>> 5 = j then
      enc4acc n j k ||| byteLutEntry (n.getD k 0) <<< ((k &&& 31) <<< 1)
    else enc4acc n j k

theorem byteLutEntry_lt (b : Nat) : byteLutEntry b < 4 := by
  unfold byteLutEntry
  repeat' split
  all_goals norm_num

theorem codes4_lt (n : List Nat) : ∀ c ∈ codes4 n, c < 2 ^ 2 := by
  intro c hc
  rcases List.mem_map.mp hc with ⟨b, _, rfl⟩
  exact byteLutEntry_lt b

/-- The encoder loop, characterized: it never fails on in-range bytes and its
state is `enc4acc` pointwise. -/
theorem n_to_bits_lut_loop (n : List Nat) (h : ∀ b ∈ n, b < 128) (k : Nat)
    (hk : k ≤ n.length) :
    ∃ r, (List.range k).foldlM (fun res i => do
        let offset := i >>> 5
        let shift := (i &&& 31) <<< 1
        let b ← n[i]?
        let code ← BYTE_LUT[b]?
        let cur ← res[offset]?
        pure (res.set offset (cur ||| code <<< shift)))
      (List.replicate ((n.length >>> 5) + if n.length &&& 31 = 0 then 0 else 1) 0) = some r ∧
      r.length = (n.length >>> 5) + (if n.length &&& 31 = 0 then 0 else 1) ∧
      ∀ j, r.getD j 0 = enc4acc n j k := by
  induction k with
  | zero =>
    refine ⟨_, rfl, List.length_replicate .., ?_⟩
    intro j
    rw [getD_replicate_zero]
    rfl
  | succ k ih =>
    obtain ⟨r, hr, hlen, hpt⟩ := ih (by omega)
    have hklt : k < n.length := by omega
    have hoff : k >>> 5 < r.length := by
      rw [hlen, shiftRight5, shiftRight5, and31]
      by_cases h32 : n.length % 32 = 0 <;> simp [h32] <;> omega
    refine ⟨r.set (k >>> 5) (r.getD (k >>> 5) 0 ||| byteLutEntry (n.getD k 0) <<< ((k &&& 31) <<< 1)), ?_, ?_, ?_⟩
    · rw [List.range_succ, List.foldlM_append, hr]
      have hb : n[k]? = some (n.getD k 0) := by
        rw [List.getElem?_eq_getElem hklt, List.getD_eq_getElem _ _ hklt]
      have hlut : BYTE_LUT[(n.getD k 0)]? = some (byteLutEntry (n.getD k 0)) := by
        rw [BYTE_LUT_get, if_pos]
        apply h
        rw [List.getD_eq_getElem _ _ hklt]
        exact List.getElem_mem _
      have hcur : r[(k >>> 5)]? = some (r.getD (k >>> 5) 0) := by
        rw [List.getElem?_eq_getElem hoff, List.getD_eq_getElem _ _ hoff]
      simp only [List.foldlM_cons, List.foldlM_nil, hb, hlut, hcur, Option.bind_eq_bind,
        Option.some_bind, Option.pure_def]
    · rw [List.length_set, hlen]
    · intro j
      by_cases hj : k >>> 5 = j
      · subst hj
        have h1 : (r.set (k >>> 5)
              (r.getD (k >>> 5) 0 ||| byteLutEntry (n.getD k 0) <<< ((k &&& 31) <<< 1))).getD
              (k >>> 5) 0
            = r.getD (k >>> 5) 0 ||| byteLutEntry (n.getD k 0) <<< ((k &&& 31) <<< 1) := by
          rw [List.getD, List.get?_eq_getElem?, List.getElem?_set]
          simp [hoff]
        rw [h1, hpt]
        simp [enc4acc]
      · have h1 : (r.set (k >>> 5)
              (r.getD (k >>> 5) 0 ||| byteLutEntry (n.getD k 0) <<< ((k &&& 31) <<< 1))).getD
              j 0 = r.getD j 0 := by
          rw [List.getD, List.get?_eq_getElem?, List.getElem?_set, if_neg hj,
            ← List.get?_eq_getElem?, ← List.getD]
        rw [h1, hpt]
        simp [enc4acc, hj]

theorem enc4acc_eq (n : List Nat) (j k : Nat) (hk : k ≤ n.length) :
    enc4acc n j k = packWord 2 (((codes4 (n.take k)).drop (32 * j)).take 32) := by
  induction k with
  | zero => simp [enc4acc, codes4, packWord]
  | succ k ih =>
    have hk' : k ≤ n.length := by omega
    have hklt : k < n.length := by omega
    have htake : n.take (k+1) = n.take k ++ [n.getD k 0] := by
      rw [List.take_succ, List.getElem?_eq_getElem hklt, List.getD_eq_getElem _ _ hklt]
      rfl
    have hcodes : codes4 (n.take (k+1)) = codes4 (n.take k) ++ [byteLutEntry (n.getD k 0)] := by
      rw [codes4, htake, List.map_append]
      rfl
    have hlenC : (codes4 (n.take k)).length = k := by
      rw [codes4, List.length_map, List.length_take]
      omega
    simp only [enc4acc]
    by_cases hj : k >>> 5 = j
    · rw [if_pos hj, ih hk', hcodes]
      rw [shiftRight5] at hj
      have h32j : 32 * j ≤ k := by omega
      have hsub : k - 32 * j ≤ 31 := by omega
      have hdrop : ((codes4 (n.take k) ++ [byteLutEntry (n.getD k 0)]).drop (32 * j))
          = (codes4 (n.take k)).drop (32 * j) ++ [byteLutEntry (n.getD k 0)] :=
        List.drop_append_of_le_length (by omega)
      have hlenD : ((codes4 (n.take k)).drop (32 * j)).length = k - 32 * j := by
        rw [List.length_drop]
        omega
      have e1 : ((codes4 (n.take k)).drop (32 * j)).take 32
          = (codes4 (n.take k)).drop (32 * j) := List.take_of_length_le (by omega)
      have e2 : ((codes4 (n.take k)).drop (32 * j) ++ [byteLutEntry (n.getD k 0)]).take 32
          = (codes4 (n.take k)).drop (32 * j) ++ [byteLutEntry (n.getD k 0)] :=
        List.take_of_length_le (by rw [List.length_append, hlenD, List.length_singleton]; omega)
      rw [hdrop, e1, e2, packWord_append]
      have hcd : ∀ v ∈ (codes4 (n.take k)).drop (32 * j), v < 2 ^ 2 :=
        fun v hv => codes4_lt _ v (List.mem_of_mem_drop hv)
      have hlt : packWord 2 ((codes4 (n.take k)).drop (32 * j)) < 2 ^ (2 * (k - 32 * j)) := by
        have := packWord_lt 2 _ hcd
        rwa [hlenD] at this
      have hmod : (k &&& 31) <<< 1 = 2 * (k - 32 * j) := by
        rw [and31, shiftLeft1]
        omega
      rw [hmod, Nat.shiftLeft_eq, hlenD]
      rw [lor_of_lt _ _ hlt]
      simp [packWord]
    · rw [if_neg hj, ih hk', hcodes]
      rw [shiftRight5] at hj
      rcases Nat.lt_or_ge k (32 * j) with hlt | hge
      · have h1 : ((codes4 (n.take k)).drop (32 * j)) = [] :=
          List.drop_eq_nil_of_le (by omega)
        have h2 : ((codes4 (n.take k) ++ [byteLutEntry (n.getD k 0)]).drop (32 * j)) = [] :=
          List.drop_eq_nil_of_le (by rw [List.length_append, hlenC, List.length_singleton]; omega)
        rw [h1, h2]
      · have h32 : 32 * j + 32 ≤ k := by omega
        rw [List.drop_append_of_le_length (by omega)]
        rw [List.take_append_of_le_length (by rw [List.length_drop, hlenC]; omega)]

/-- The Codec-4 scalar encoder, in closed form: it succeeds iff every byte is
below 128, and then produces `enc4words`. -/
theorem n_to_bits_lut_eq (n : List Nat) (h : ∀ b ∈ n, b < 128) :
    n_to_bits_lut n = some (enc4words n) := by
  obtain ⟨r, hr, hlen, hpt⟩ := n_to_bits_lut_loop n h n.length le_rfl
  rw [n_to_bits_lut, hr]
  congr 1
  apply eq_of_getD
  · rw [hlen, enc4words, List.length_map, List.length_range, shiftRight5, and31]
    by_cases h32 : n.length % 32 = 0 <;> simp [h32] <;> omega
  · intro j
    rw [hpt j, enc4acc_eq n j n.length le_rfl, List.take_length]
    by_cases hj : j < (n.length + 31) / 32
    · rw [enc4words, List.getD_eq_getElem _ _ (by rw [List.length_map, List.length_range]; exact hj)]
      rw [List.getElem_map, List.getElem_range]
    · have hempty : (codes4 n).drop (32 * j) = [] := by
        apply List.drop_eq_nil_of_le
        rw [codes4, List.length_map]
        omega
      rw [hempty, List.getD_eq_default]
      · rfl
      · rw [enc4words, List.length_map, List.length_range]
        omega

theorem BITS_LUT_some : ∀ c < 4, BITS_LUT[c]? = some (BITS_LUT.getD c 0) := by decide

/-- Closed form of the Codec-4 scalar decoder's output bytes. -/
def dec4 (bits : List Nat) (len : Nat) : List Nat :=
  (List.range len).map fun i =>
    BITS_LUT.getD (bits.getD (i >>> 5) 0 >>> ((i &&& 31) <<< 1) &&& 0b11) 0

theorem bits_to_n_lut_eq (bits : List Nat) (len : Nat) (h : len ≤ bits.length <<< 5) :
    bits_to_n_lut bits len = some (dec4 bits len) := by
  rw [bits_to_n_lut, if_neg (by omega)]
  apply mapM_eq_some_map
  intro i hi
  have hi' : i < len := List.mem_range.mp hi
  have hoff : i >>> 5 < bits.length := by
    rw [shiftRight5]
    rw [shiftLeft5] at h
    omega
  have hcurr : bits[(i >>> 5)]? = some (bits.getD (i >>> 5) 0) := by
    rw [List.getElem?_eq_getElem hoff, List.getD_eq_getElem _ _ hoff]
  simp only [hcurr, Option.bind_eq_bind, Option.some_bind]
  exact BITS_LUT_some _ (by rw [and3]; omega)

theorem bits_to_n_lut_none_iff (bits : List Nat) (len : Nat) :
    bits_to_n_lut bits len = none ↔ len > bits.length <<< 5 := by
  constructor
  · intro hn
    by_contra hc
    rw [bits_to_n_lut_eq bits len (by omega)] at hn
    exact Option.noConfusion hn
  · intro hgt
    rw [bits_to_n_lut, if_pos hgt]

def isAlpha4 (b : Nat) : Prop :=
  b = 65 ∨ b = 67 ∨ b = 71 ∨ b = 84 ∨ b = 97 ∨ b = 99 ∨ b = 103 ∨ b = 116

instance (b : Nat) : Decidable (isAlpha4 b) := by unfold isAlpha4; infer_instance

/-- Canonical upper-casing of an ASCII letter byte. -/
def upcase (b : Nat) : Nat := if 97 ≤ b ∧ b ≤ 122 then b - 32 else b

theorem alpha4_lt {b : Nat} (hb : isAlpha4 b) : b < 128 := by
  unfold isAlpha4 at hb
  omega

theorem decode_encode_byte4 (b : Nat) (hb : isAlpha4 b) :
    BITS_LUT.getD (byteLutEntry b) 0 = upcase b := by
  unfold isAlpha4 at hb
  rcases hb with rfl | rfl | rfl | rfl | rfl | rfl | rfl | rfl <;> decide

/-- Round trip for the scalar Codec-4 pair. -/
theorem roundtrip4 (n : List Nat) (h : ∀ b ∈ n, isAlpha4 b) :
    bits_to_n_lut (enc4words n) n.length = some (n.map upcase) := by
  have h128 : ∀ b ∈ n, b < 128 := fun b hb => alpha4_lt (h b hb)
  have hcount : (enc4words n).length = (n.length + 31) / 32 := by
    rw [enc4words, List.length_map, List.length_range]
  have hcap : n.length ≤ (enc4words n).length <<< 5 := by
    rw [shiftLeft5, hcount]
    omega
  rw [bits_to_n_lut_eq _ _ hcap]
  congr 1
  apply eq_of_getD
  · rw [dec4, List.length_map, List.length_range, List.length_map]
  · intro i
    by_cases hi : i < n.length
    · have hj : i >>> 5 < (n.length + 31) / 32 := by
        rw [shiftRight5]
        omega
      have hword : (enc4words n).getD (i >>> 5) 0
          = packWord 2 (((codes4 n).drop (32 * (i >>> 5))).take 32) := by
        rw [enc4words, List.getD_eq_getElem _ _ (by rw [List.length_map, List.length_range]; exact hj),
          List.getElem_map, List.getElem_range]
      have hdecD : (dec4 (enc4words n) n.length).getD i 0
          = BITS_LUT.getD ((enc4words n).getD (i >>> 5) 0 >>> ((i &&& 31) <<< 1) &&& 0b11) 0 := by
        rw [dec4, List.getD_eq_getElem _ _ (by rw [List.length_map, List.length_range]; exact hi),
          List.getElem_map, List.getElem_range]
      have hextract : (enc4words n).getD (i >>> 5) 0 >>> ((i &&& 31) <<< 1) &&& 0b11
          = byteLutEntry (n.getD i 0) := by
        rw [hword, and31, shiftLeft1, Nat.shiftRight_eq_div_pow, and3]
        have h2 : (2:Nat) ^ (2 * (i % 32)) = 2 ^ (2 * (i % 32) + 0) := by rw [Nat.add_zero]
        have h4 : (4:Nat) = 2 ^ 2 := by norm_num
        rw [h2, h4, packWord_extract 2 _ (fun v hv => codes4_lt _ v
          (List.mem_of_mem_drop (List.mem_of_mem_take hv))) (i % 32) 0 2 (by omega)]
        rw [getD_take_drop _ _ _ _ (by omega)]
        have hidx : 32 * (i >>> 5) + i % 32 = i := by
          rw [shiftRight5]
          omega
        rw [hidx, if_pos (by rw [codes4, List.length_map]; omega)]
        have hcodesD : (codes4 n).getD i 0 = byteLutEntry (n.getD i 0) := by
          rw [codes4, List.getD_eq_getElem _ _ (by rw [List.length_map]; omega), List.getElem_map,
            List.getD_eq_getElem _ _ hi]
        rw [hcodesD]
        simp [Nat.mod_eq_of_lt (byteLutEntry_lt _)]
      rw [hdecD, hextract, decode_encode_byte4 _ (by
        apply h
        rw [List.getD_eq_getElem _ _ hi]
        exact List.getElem_mem _)]
      rw [List.getD_eq_getElem n 0 hi,
        List.getD_eq_getElem (List.map upcase n) 0 (by rw [List.length_map]; exact hi),
        List.getElem_map]
    · rw [List.getD_eq_default _ _ (by rw [dec4, List.length_map, List.length_range]; omega),
        List.getD_eq_default _ _ (by rw [List.length_map]; omega)]

end NToBits

-- the source's own unit tests, replayed against the embedding
example : NToBits.n_to_bits_lut ((List.replicate 8 [65, 84, 67, 71]).flatten) =
    some [0b1101100011011000110110001101100011011000110110001101100011011000] := by decide

example : NToBits.n_to_bits_lut [65, 84, 67, 71] = some [0b11011000] := by decide

example : NToBits.bits_to_n_lut [0b1101100011011000110110001101100011011000110110001101100011011000] 32 =
    some ((List.replicate 8 [65, 84, 67, 71]).flatten) := by decide

namespace NToBits2

/-!  Embedding of `src/n_to_bits2.rs` (Codec-5: alphabet {A,C,G,T,N}). -/

open Codec

/-- `static BYTE_LUT: [u8; 128]` of `n_to_bits2.rs`, built exactly as in the
source. -/
def BYTE_LUT : List Nat :=
  ((((((((((List.replicate 128 0).set 97 0b000).set 99 0b001).set 116 0b010).set 103
    0b011).set 110 0b100).set 65 0b000).set 67 0b001).set 84 0b010).set 71
    0b011).set 78 0b100

/-- `static BITS_LUT: [u8; 5]` of `n_to_bits2.rs`: code -> ASCII byte. -/
def BITS_LUT : List Nat :=
  (((((List.replicate 5 0).set 0b000 65).set 0b001 67).set 0b010 84).set 0b011 71).set 0b100 78

/-- The value stored in this `BYTE_LUT` at index `b < 128`. -/
def byteLutEntry (b : Nat) : Nat :=
  if b = 97 ∨ b = 65 then 0b000
  else if b = 99 ∨ b = 67 then 0b001
  else if b = 116 ∨ b = 84 then 0b010
  else if b = 103 ∨ b = 71 then 0b011
  else if b = 110 ∨ b = 78 then 0b100
  else 0

theorem BYTE_LUT2_get (b : Nat) :
    BYTE_LUT[b]? = if b < 128 then some (byteLutEntry b) else none := by
  by_cases h : b < 128
  · simp only [h, if_true]
    revert h
    revert b
    decide
  · have hlen : BYTE_LUT.length = 128 := by decide
    simp only [h, if_false]
    apply List.getElem?_eq_none
    omega

theorem byteLutEntry2_le (b : Nat) : byteLutEntry b ≤ 4 := by
  unfold byteLutEntry
  repeat' split
  all_goals norm_num

/-- One iteration of the main loop of `n_to_bits2_lut`: triplet `i`'s value
`a + 5b + 25c` is ORed into word `i / 9` at bit offset `(i % 9) * 7`. -/
def encStep2 (n : List Nat) (res : List Nat) (i : Nat) : Option (List Nat) := do
  let idx := i * 3
  let res_offset := i / 9
  let res_shift := i % 9 * 7
  let b0 ← n[idx]?
  let a ← BYTE_LUT[b0]?
  let b1 ← n[idx + 1]?
  let b ← (BYTE_LUT[b1]?).map (· * 5)
  let b2 ← n[idx + 2]?
  let c ← (BYTE_LUT[b2]?).map (· * 25)
  let encoding := a + b + c
  let cur ← res[res_offset]?
  pure (res.set res_offset (cur ||| encoding <<< res_shift))

/-- `pub fn n_to_bits2_lut`: the scalar reference Codec-5 encoder.  The result
buffer starts as `(len / 27) + (len % 27 == 0 ? 0 : 1)` zero words; a trailing
partial triplet is encoded with its missing codes as 0. -/
def n_to_bits2_lut (n : List Nat) : Option (List Nat) := do
  let len := n.length / 3
  let res ← (List.range len).foldlM (encStep2 n)
    (List.replicate ((n.length / 27) + if n.length % 27 = 0 then 0 else 1) 0)
  let leftover := n.length % 3
  if leftover > 0 then do
    let idx := len * 3
    let res_offset := len / 9
    let res_shift := len % 9 * 7
    let b0 ← n[idx]?
    let a ← BYTE_LUT[b0]?
    let b ← if leftover ≥ 2 then do
        let b1 ← n[idx + 1]?
        (BYTE_LUT[b1]?).map (· * 5)
      else pure 0
    let encoding := a + b
    let cur ← res[res_offset]?
    pure (res.set res_offset (cur ||| encoding <<< res_shift))
  else pure res

/-- The base-5 value of triplet `k`, reading absent bytes as 0 (whose code
is 0, matching the source's partial-triplet handling). -/
def trip (n : List Nat) (k : Nat) : Nat :=
  byteLutEntry (n.getD (3 * k) 0) + byteLutEntry (n.getD (3 * k + 1) 0) * 5 +
    byteLutEntry (n.getD (3 * k + 2) 0) * 25

/-- All triplet values of a byte string, including a final partial triplet. -/
def tv2 : List Nat → List Nat
  | [] => []
  | [b0] => [byteLutEntry b0]
  | [b0, b1] => [byteLutEntry b0 + byteLutEntry b1 * 5]
  | b0 :: b1 :: b2 :: rest =>
      (byteLutEntry b0 + byteLutEntry b1 * 5 + byteLutEntry b2 * 25) :: tv2 rest

theorem tv2_length (n : List Nat) : (tv2 n).length = (n.length + 2) / 3 := by
  induction n using tv2.induct with
  | case1 => simp [tv2]
  | case2 b0 => simp [tv2]
  | case3 b0 b1 => simp [tv2]
  | case4 b0 b1 b2 rest ih =>
    simp only [tv2, List.length_cons, ih]
    omega

theorem getD_cons_add3 (a b c : Nat) (l : List Nat) (m : Nat) :
    (a :: b :: c :: l).getD (m + 3) 0 = l.getD m 0 := by
  rw [show m + 3 = m + 2 + 1 by ring, List.getD_cons_succ,
    show m + 2 = m + 1 + 1 by ring, List.getD_cons_succ, List.getD_cons_succ]

theorem trip_oob (n : List Nat) (t : Nat) (h : n.length ≤ 3 * t) : trip n t = 0 := by
  unfold trip
  rw [List.getD_eq_default _ _ (by omega), List.getD_eq_default _ _ (by omega),
    List.getD_eq_default _ _ (by omega)]
  rfl

theorem tv2_getD (n : List Nat) (t : Nat) : (tv2 n).getD t 0 = trip n t := by
  induction n using tv2.induct generalizing t with
  | case1 =>
    rw [trip_oob _ _ (by simp)]
    simp [tv2]
  | case2 b0 =>
    cases t with
    | zero => simp [tv2, trip, byteLutEntry]
    | succ s =>
      rw [trip_oob _ _ (by simp; omega)]
      simp [tv2]
  | case3 b0 b1 =>
    cases t with
    | zero => simp [tv2, trip, byteLutEntry]
    | succ s =>
      rw [trip_oob _ _ (by simp; omega)]
      simp [tv2]
  | case4 b0 b1 b2 rest ih =>
    cases t with
    | zero => simp [tv2, trip]
    | succ s =>
      simp only [tv2, List.getD_cons_succ, ih]
      simp only [trip]
      rw [show 3 * (s + 1) + 2 = 3 * s + 2 + 3 by ring,
        show 3 * (s + 1) + 1 = 3 * s + 1 + 3 by ring,
        show 3 * (s + 1) = 3 * s + 3 by ring,
        getD_cons_add3, getD_cons_add3, getD_cons_add3]

theorem trip_lt (n : List Nat) (k : Nat) : trip n k < 2 ^ 7 := by
  have h0 := byteLutEntry2_le (n.getD (3 * k) 0)
  have h1 := byteLutEntry2_le (n.getD (3 * k + 1) 0)
  have h2 := byteLutEntry2_le (n.getD (3 * k + 2) 0)
  unfold trip
  omega

theorem tv2_lt (n : List Nat) : ∀ v ∈ tv2 n, v < 2 ^ 7 := by
  intro v hv
  obtain ⟨t, ht, rfl⟩ := List.getElem_of_mem hv
  rw [← List.getD_eq_getElem _ 0 ht, tv2_getD]
  exact trip_lt n t

/-- Closed form of the Codec-5 scalar encoder: word `j` packs the 7-bit
triplet fields `9j..9j+8`. -/
def enc5words (n : List Nat) : List Nat :=
  (List.range ((n.length + 26) / 27)).map fun j =>
    packWord 7 (((tv2 n).drop (9 * j)).take 9)

/-- Value of output word `j` after the first `k` triplets are ORed in. -/
def enc5acc (n : List Nat) (j : Nat) : Nat → Nat
  | 0 => 0
  | k + 1 =>
    if k / 9 = j then enc5acc n j k ||| trip n k <<< (k % 9 * 7)
    else enc5acc n j k

theorem enc5acc_eq (n : List Nat) (j k : Nat) (hk : k ≤ (tv2 n).length) :
    enc5acc n j k = packWord 7 ((((tv2 n).take k).drop (9 * j)).take 9) := by
  induction k with
  | zero => simp [enc5acc, packWord]
  | succ k ih =>
    have hk' : k ≤ (tv2 n).length := by omega
    have hklt : k < (tv2 n).length := by omega
    have htake : (tv2 n).take (k+1) = (tv2 n).take k ++ [trip n k] := by
      rw [List.take_succ, List.getElem?_eq_getElem hklt, ← List.getD_eq_getElem _ 0 hklt,
        tv2_getD]
      rfl
    have hlenC : ((tv2 n).take k).length = k := by
      rw [List.length_take]
      omega
    simp only [enc5acc]
    by_cases hj : k / 9 = j
    · rw [if_pos hj, ih hk', htake]
      have h9j : 9 * j ≤ k := by omega
      have hsub : k - 9 * j ≤ 8 := by omega
      have hdrop : (((tv2 n).take k ++ [trip n k]).drop (9 * j))
          = ((tv2 n).take k).drop (9 * j) ++ [trip n k] :=
        List.drop_append_of_le_length (by omega)
      have hlenD : (((tv2 n).take k).drop (9 * j)).length = k - 9 * j := by
        rw [List.length_drop]
        omega
      have e1 : (((tv2 n).take k).drop (9 * j)).take 9
          = ((tv2 n).take k).drop (9 * j) := List.take_of_length_le (by omega)
      have e2 : (((tv2 n).take k).drop (9 * j) ++ [trip n k]).take 9
          = ((tv2 n).take k).drop (9 * j) ++ [trip n k] :=
        List.take_of_length_le (by rw [List.length_append, hlenD, List.length_singleton]; omega)
      rw [hdrop, e1, e2, packWord_append]
      have hcd : ∀ v ∈ ((tv2 n).take k).drop (9 * j), v < 2 ^ 7 :=
        fun v hv => tv2_lt n v (List.mem_of_mem_take (List.mem_of_mem_drop hv))
      have hlt : packWord 7 (((tv2 n).take k).drop (9 * j)) < 2 ^ (7 * (k - 9 * j)) := by
        have := packWord_lt 7 _ hcd
        rwa [hlenD] at this
      have hmod : k % 9 * 7 = 7 * (k - 9 * j) := by omega
      rw [hmod, Nat.shiftLeft_eq, hlenD]
      rw [lor_of_lt _ _ hlt]
      simp [packWord]
    · rw [if_neg hj, ih hk', htake]
      rcases Nat.lt_or_ge k (9 * j) with hlt | hge
      · have h1 : (((tv2 n).take k).drop (9 * j)) = [] :=
          List.drop_eq_nil_of_le (by omega)
        have h2 : (((tv2 n).take k ++ [trip n k]).drop (9 * j)) = [] :=
          List.drop_eq_nil_of_le (by rw [List.length_append, hlenC, List.length_singleton]; omega)
        rw [h1, h2]
      · have h9 : 9 * j + 9 ≤ k := by omega
        rw [List.drop_append_of_le_length (by omega)]
        rw [List.take_append_of_le_length (by rw [List.length_drop, hlenC]; omega)]

theorem n_to_bits2_lut_loop (n : List Nat) (h : ∀ b ∈ n, b < 128) (k : Nat)
    (hk : k ≤ n.length / 3) :
    ∃ r, (List.range k).foldlM (encStep2 n)
      (List.replicate ((n.length / 27) + if n.length % 27 = 0 then 0 else 1) 0) = some r ∧
      r.length = (n.length / 27) + (if n.length % 27 = 0 then 0 else 1) ∧
      ∀ j, r.getD j 0 = enc5acc n j k := by
  have hmem : ∀ i, i < n.length → n.getD i 0 ∈ n := by
    intro i hi
    rw [List.getD_eq_getElem _ _ hi]
    exact List.getElem_mem _
  induction k with
  | zero =>
    refine ⟨_, rfl, List.length_replicate .., ?_⟩
    intro j
    rw [getD_replicate_zero]
    rfl
  | succ k ih =>
    obtain ⟨r, hr, hlen, hpt⟩ := ih (by omega)
    have hk3 : k * 3 + 2 < n.length := by omega
    have hoff : k / 9 < r.length := by
      rw [hlen]
      by_cases h27 : n.length % 27 = 0 <;> simp [h27] <;> omega
    have hx0 : n[(k * 3)]? = some (n.getD (k * 3) 0) := by
      rw [List.getElem?_eq_getElem (by omega), List.getD_eq_getElem _ _ (by omega)]
    have hl0 : BYTE_LUT[(n.getD (k * 3) 0)]? = some (byteLutEntry (n.getD (k * 3) 0)) := by
      rw [BYTE_LUT2_get, if_pos (h _ (hmem _ (by omega)))]
    have hx1 : n[(k * 3 + 1)]? = some (n.getD (k * 3 + 1) 0) := by
      rw [List.getElem?_eq_getElem (by omega), List.getD_eq_getElem _ _ (by omega)]
    have hl1 : BYTE_LUT[(n.getD (k * 3 + 1) 0)]? = some (byteLutEntry (n.getD (k * 3 + 1) 0)) := by
      rw [BYTE_LUT2_get, if_pos (h _ (hmem _ (by omega)))]
    have hx2 : n[(k * 3 + 2)]? = some (n.getD (k * 3 + 2) 0) := by
      rw [List.getElem?_eq_getElem (by omega), List.getD_eq_getElem _ _ (by omega)]
    have hl2 : BYTE_LUT[(n.getD (k * 3 + 2) 0)]? = some (byteLutEntry (n.getD (k * 3 + 2) 0)) := by
      rw [BYTE_LUT2_get, if_pos (h _ (hmem _ (by omega)))]
    have hcur : r[(k / 9)]? = some (r.getD (k / 9) 0) := by
      rw [List.getElem?_eq_getElem hoff, List.getD_eq_getElem _ _ hoff]
    refine ⟨r.set (k / 9) (r.getD (k / 9) 0 |||
        (byteLutEntry (n.getD (k * 3) 0) + byteLutEntry (n.getD (k * 3 + 1) 0) * 5 +
          byteLutEntry (n.getD (k * 3 + 2) 0) * 25) <<< (k % 9 * 7)), ?_, ?_, ?_⟩
    · rw [List.range_succ, List.foldlM_append, hr]
      simp only [List.foldlM_cons, List.foldlM_nil, encStep2, hx0, hl0, hx1, hl1, hx2, hl2, hcur,
        Option.bind_eq_bind, Option.some_bind, Option.map_some', Option.pure_def]
    · rw [List.length_set, hlen]
    · intro j
      have htrip : trip n k = byteLutEntry (n.getD (k * 3) 0) +
          byteLutEntry (n.getD (k * 3 + 1) 0) * 5 + byteLutEntry (n.getD (k * 3 + 2) 0) * 25 := by
        unfold trip
        rw [Nat.mul_comm 3 k]
      by_cases hj : k / 9 = j
      · subst hj
        have h1 : (r.set (k / 9)
              (r.getD (k / 9) 0 ||| (byteLutEntry (n.getD (k * 3) 0) +
                byteLutEntry (n.getD (k * 3 + 1) 0) * 5 +
                byteLutEntry (n.getD (k * 3 + 2) 0) * 25) <<< (k % 9 * 7))).getD (k / 9) 0
            = r.getD (k / 9) 0 ||| (byteLutEntry (n.getD (k * 3) 0) +
                byteLutEntry (n.getD (k * 3 + 1) 0) * 5 +
                byteLutEntry (n.getD (k * 3 + 2) 0) * 25) <<< (k % 9 * 7) := by
          rw [List.getD, List.get?_eq_getElem?, List.getElem?_set]
          simp [hoff]
        rw [h1, hpt]
        simp [enc5acc, htrip]
      · have h1 : (r.set (k / 9)
              (r.getD (k / 9) 0 ||| (byteLutEntry (n.getD (k * 3) 0) +
                byteLutEntry (n.getD (k * 3 + 1) 0) * 5 +
                byteLutEntry (n.getD (k * 3 + 2) 0) * 25) <<< (k % 9 * 7))).getD j 0
            = r.getD j 0 := by
          rw [List.getD, List.get?_eq_getElem?, List.getElem?_set, if_neg hj,
            ← List.get?_eq_getElem?, ← List.getD]
        rw [h1, hpt]
        simp [enc5acc, hj]

theorem enc5final (n : List Nat) (j : Nat) :
    enc5acc n j (tv2 n).length = (enc5words n).getD j 0 := by
  rw [enc5acc_eq _ _ _ le_rfl, List.take_length]
  by_cases hj : j < (n.length + 26) / 27
  · rw [enc5words, List.getD_eq_getElem _ _ (by rw [List.length_map, List.length_range]; exact hj),
      List.getElem_map, List.getElem_range]
  · have hempty : (tv2 n).drop (9 * j) = [] := by
      apply List.drop_eq_nil_of_le
      rw [tv2_length]
      omega
    rw [hempty, List.getD_eq_default]
    · rfl
    · rw [enc5words, List.length_map, List.length_range]
      omega

/-- The Codec-5 scalar encoder, in closed form. -/
theorem n_to_bits2_lut_eq (n : List Nat) (h : ∀ b ∈ n, b < 128) :
    n_to_bits2_lut n = some (enc5words n) := by
  have hmem : ∀ i, i < n.length → n.getD i 0 ∈ n := by
    intro i hi
    rw [List.getD_eq_getElem _ _ hi]
    exact List.getElem_mem _
  obtain ⟨r, hr, hlen, hpt⟩ := n_to_bits2_lut_loop n h (n.length / 3) le_rfl
  have hwlen : (enc5words n).length = (n.length + 26) / 27 := by
    rw [enc5words, List.length_map, List.length_range]
  rw [n_to_bits2_lut]
  simp only [hr, Option.bind_eq_bind, Option.some_bind]
  by_cases hlo : n.length % 3 > 0
  · rw [if_pos hlo]
    have hidx : n.length / 3 * 3 < n.length := by omega
    have hoffL : n.length / 3 / 9 < r.length := by
      rw [hlen]
      have : n.length % 27 ≠ 0 := by omega
      simp [this]
      omega
    have hx0 : n[(n.length / 3 * 3)]? = some (n.getD (n.length / 3 * 3) 0) := by
      rw [List.getElem?_eq_getElem hidx, List.getD_eq_getElem _ _ hidx]
    have hl0 : BYTE_LUT[(n.getD (n.length / 3 * 3) 0)]?
        = some (byteLutEntry (n.getD (n.length / 3 * 3) 0)) := by
      rw [BYTE_LUT2_get, if_pos (h _ (hmem _ hidx))]
    have hcur : r[(n.length / 3 / 9)]? = some (r.getD (n.length / 3 / 9) 0) := by
      rw [List.getElem?_eq_getElem hoffL, List.getD_eq_getElem _ _ hoffL]
    have hT : (tv2 n).length = n.length / 3 + 1 := by
      rw [tv2_length]
      omega
    -- the value ORed in by the leftover step equals `trip n (n.length / 3)`
    by_cases hlo2 : n.length % 3 ≥ 2
    · have hidx1 : n.length / 3 * 3 + 1 < n.length := by omega
      have hx1 : n[(n.length / 3 * 3 + 1)]? = some (n.getD (n.length / 3 * 3 + 1) 0) := by
        rw [List.getElem?_eq_getElem hidx1, List.getD_eq_getElem _ _ hidx1]
      have hl1 : BYTE_LUT[(n.getD (n.length / 3 * 3 + 1) 0)]?
          = some (byteLutEntry (n.getD (n.length / 3 * 3 + 1) 0)) := by
        rw [BYTE_LUT2_get, if_pos (h _ (hmem _ hidx1))]
      have htrip : trip n (n.length / 3) = byteLutEntry (n.getD (n.length / 3 * 3) 0) +
          byteLutEntry (n.getD (n.length / 3 * 3 + 1) 0) * 5 := by
        unfold trip
        rw [Nat.mul_comm 3 (n.length / 3)]
        have hgd2 : n.getD (n.length / 3 * 3 + 2) 0 = 0 := List.getD_eq_default _ _ (by omega)
        rw [hgd2]
        have : byteLutEntry 0 = 0 := rfl
        rw [this]
        ring
      simp only [hx0, hl0, hx1, hl1, hcur, if_pos hlo2, Option.bind_eq_bind, Option.some_bind,
        Option.map_some', Option.pure_def]
      congr 1
      apply eq_of_getD
      · have h27 : ¬ n.length % 27 = 0 := by omega
        rw [List.length_set, hlen, hwlen, if_neg h27]
        omega
      · intro j
        by_cases hj : n.length / 3 / 9 = j
        · subst hj
          rw [List.getD, List.get?_eq_getElem?, List.getElem?_set]
          simp only [if_pos rfl, if_pos hoffL, Option.getD_some]
          rw [hpt, ← enc5final n, hT]
          simp [enc5acc, htrip]
        · rw [List.getD, List.get?_eq_getElem?, List.getElem?_set, if_neg hj,
            ← List.get?_eq_getElem?, ← List.getD, hpt, ← enc5final n, hT]
          simp [enc5acc, hj]
    · have htrip : trip n (n.length / 3) = byteLutEntry (n.getD (n.length / 3 * 3) 0) := by
        unfold trip
        rw [Nat.mul_comm 3 (n.length / 3)]
        have hgd1 : n.getD (n.length / 3 * 3 + 1) 0 = 0 := List.getD_eq_default _ _ (by omega)
        have hgd2 : n.getD (n.length / 3 * 3 + 2) 0 = 0 := List.getD_eq_default _ _ (by omega)
        rw [hgd1, hgd2]
        have : byteLutEntry 0 = 0 := rfl
        rw [this]
        ring
      simp only [hx0, hl0, hcur, if_neg hlo2, Option.bind_eq_bind, Option.some_bind,
        Option.map_some', Option.pure_def]
      congr 1
      apply eq_of_getD
      · have h27 : ¬ n.length % 27 = 0 := by omega
        rw [List.length_set, hlen, hwlen, if_neg h27]
        omega
      · intro j
        by_cases hj : n.length / 3 / 9 = j
        · subst hj
          rw [List.getD, List.get?_eq_getElem?, List.getElem?_set]
          simp only [if_pos rfl, if_pos hoffL, Option.getD_some]
          rw [hpt, ← enc5final n, hT]
          simp [enc5acc, htrip]
        · rw [List.getD, List.get?_eq_getElem?, List.getElem?_set, if_neg hj,
            ← List.get?_eq_getElem?, ← List.getD, hpt, ← enc5final n, hT]
          simp [enc5acc, hj]
  · rw [if_neg hlo]
    have hT : (tv2 n).length = n.length / 3 := by
      rw [tv2_length]
      omega
    congr 1
    apply eq_of_getD
    · rw [hlen, hwlen]
      by_cases h27 : n.length % 27 = 0 <;> simp [h27] <;> omega
    · intro j
      rw [hpt, ← enc5final n, hT]

end NToBits2

-- the source's own Codec-5 unit tests, replayed against the embedding
example : NToBits2.n_to_bits2_lut ((List.replicate 7 [65, 84, 67, 71, 78]).flatten) =
    some [0b11011010100100010111010001111101000110110101001000101110100011,
      0b1011101000111110100] := by decide

example : NToBits2.n_to_bits2_lut [65, 84, 67, 71, 78] = some [0b101110100011] := by decide

namespace NToBits2

open Codec

/-- One triplet of `bits_to_n2_lut`: extract 7-bit field `i` and decode its
three base-5 digits through `BITS_LUT`.  The `c` lookup index `curr / 25` can
reach 5 (out of bounds for the 5-entry table, undefined behavior in the
source) when the field value exceeds 124; this is modelled as `none`. -/
def decTriplet2 (bits : List Nat) (i : Nat) : Option (List Nat) := do
  let offset := i / 9
  let shift := i % 9 * 7
  let w ← bits[offset]?
  let curr := w >>> shift &&& 0b01111111
  let a ← BITS_LUT[(curr % 5)]?
  let b ← BITS_LUT[(curr / 5 % 5)]?
  let c ← BITS_LUT[(curr / 25)]?
  pure [a, b, c]

/-- `pub fn bits_to_n2_lut`: the scalar reference Codec-5 decoder.  Panics
(modelled `none`) when `len > bits.len() * 27`; otherwise each triplet `i`
writes bytes `3i..3i+2` of a `bits.len()*27`-byte buffer and the first
`len` bytes are returned. -/
def bits_to_n2_lut (bits : List Nat) (len : Nat) : Option (List Nat) :=
  if len > bits.length * 27 then none
  else do
    let triplets := len / 3 + if len % 3 = 0 then 0 else 1
    let chunks ← (List.range triplets).mapM (decTriplet2 bits)
    pure (chunks.flatten.take len)

/-- The capacity argument of `Vec::from_raw_parts` in `bits_to_n2_lut`. -/
def bits_to_n2_lut_cap (bits : List Nat) (len : Nat) : Nat := bits.length * 27

/-- The 7-bit field holding triplet `i`. -/
def fieldVal (bits : List Nat) (i : Nat) : Nat :=
  bits.getD (i / 9) 0 >>> (i % 9 * 7) &&& 0b01111111

/-- Closed form of the Codec-5 scalar decoder output. -/
def dec5 (bits : List Nat) (len : Nat) : List Nat :=
  (((List.range (len / 3 + if len % 3 = 0 then 0 else 1)).map fun i =>
    [BITS_LUT.getD (fieldVal bits i % 5) 0, BITS_LUT.getD (fieldVal bits i / 5 % 5) 0,
      BITS_LUT.getD (fieldVal bits i / 25) 0]).flatten).take len

theorem BITS_LUT2_some : ∀ c < 5, BITS_LUT[c]? = some (BITS_LUT.getD c 0) := by decide

theorem fieldVal_lt (bits : List Nat) (i : Nat) : fieldVal bits i < 128 := by
  rw [fieldVal, and127]
  omega

theorem decTriplet2_eq (bits : List Nat) (i : Nat) (hoff : i / 9 < bits.length)
    (hfield : fieldVal bits i < 125) :
    decTriplet2 bits i = some [BITS_LUT.getD (fieldVal bits i % 5) 0,
      BITS_LUT.getD (fieldVal bits i / 5 % 5) 0, BITS_LUT.getD (fieldVal bits i / 25) 0] := by
  have hw : bits[(i / 9)]? = some (bits.getD (i / 9) 0) := by
    rw [List.getElem?_eq_getElem hoff, List.getD_eq_getElem _ _ hoff]
  have hf : fieldVal bits i = bits.getD (i / 9) 0 >>> (i % 9 * 7) &&& 0b01111111 := rfl
  rw [decTriplet2]
  simp only [hw, Option.bind_eq_bind, Option.some_bind, ← hf]
  rw [BITS_LUT2_some _ (by omega), BITS_LUT2_some _ (by omega), BITS_LUT2_some _ (by omega)]
  simp

theorem decTriplet2_none (bits : List Nat) (i : Nat) (hoff : i / 9 < bits.length)
    (hfield : 125 ≤ fieldVal bits i) : decTriplet2 bits i = none := by
  have hw : bits[(i / 9)]? = some (bits.getD (i / 9) 0) := by
    rw [List.getElem?_eq_getElem hoff, List.getD_eq_getElem _ _ hoff]
  have hf : fieldVal bits i = bits.getD (i / 9) 0 >>> (i % 9 * 7) &&& 0b01111111 := rfl
  have h5 : fieldVal bits i / 25 = 5 := by
    have := fieldVal_lt bits i
    omega
  have hc : BITS_LUT[(fieldVal bits i / 25)]? = none := by
    rw [h5]
    decide
  rw [decTriplet2]
  simp only [hw, Option.bind_eq_bind, Option.some_bind, ← hf]
  rw [BITS_LUT2_some _ (by omega), BITS_LUT2_some _ (by omega)]
  simp [hc]

theorem mapM_eq_none {α β : Type} (l : List α) (f : α → Option β) (a : α) (ha : a ∈ l)
    (hfa : f a = none) : l.mapM f = none := by
  induction l with
  | nil => cases ha
  | cons b l ih =>
    rw [List.mapM_cons]
    rcases List.mem_cons.mp ha with rfl | hmem
    · rw [hfa]
      rfl
    · cases hfb : f b with
      | none => rfl
      | some x =>
        simp only [Option.bind_eq_bind, Option.some_bind, ih hmem]
        rfl

theorem triplets_le (bits : List Nat) (len : Nat) (hlen : len ≤ bits.length * 27) :
    len / 3 + (if len % 3 = 0 then 0 else 1) ≤ 9 * bits.length := by
  by_cases h3 : len % 3 = 0 <;> simp [h3] <;> omega

theorem bits_to_n2_lut_eq (bits : List Nat) (len : Nat) (hlen : len ≤ bits.length * 27)
    (hfields : ∀ i < len / 3 + (if len % 3 = 0 then 0 else 1), fieldVal bits i < 125) :
    bits_to_n2_lut bits len = some (dec5 bits len) := by
  rw [bits_to_n2_lut, if_neg (by omega)]
  have htr := triplets_le bits len hlen
  have hmap : (List.range (len / 3 + if len % 3 = 0 then 0 else 1)).mapM (decTriplet2 bits)
      = some ((List.range (len / 3 + if len % 3 = 0 then 0 else 1)).map fun i =>
        [BITS_LUT.getD (fieldVal bits i % 5) 0, BITS_LUT.getD (fieldVal bits i / 5 % 5) 0,
          BITS_LUT.getD (fieldVal bits i / 25) 0]) := by
    apply mapM_eq_some_map
    intro i hi
    have hi' : i < len / 3 + (if len % 3 = 0 then 0 else 1) := List.mem_range.mp hi
    exact decTriplet2_eq bits i (by omega) (hfields i hi')
  simp only [hmap, Option.bind_eq_bind, Option.some_bind, Option.pure_def]
  rfl

theorem bits_to_n2_lut_none_iff (bits : List Nat) (len : Nat) :
    bits_to_n2_lut bits len = none ↔ (len > bits.length * 27 ∨
      ∃ i, i < len / 3 + (if len % 3 = 0 then 0 else 1) ∧ 125 ≤ fieldVal bits i) := by
  constructor
  · intro hn
    by_cases hlen : len > bits.length * 27
    · exact Or.inl hlen
    · right
      by_contra hc
      push_neg at hc
      rw [bits_to_n2_lut_eq bits len (by omega) (fun i hi => by
        have := hc i hi
        omega)] at hn
      exact Option.noConfusion hn
  · intro h
    rcases h with hlen | ⟨i, hi, hbig⟩
    · rw [bits_to_n2_lut, if_pos hlen]
    · by_cases hlen : len > bits.length * 27
      · rw [bits_to_n2_lut, if_pos hlen]
      · rw [bits_to_n2_lut, if_neg hlen]
        have htr := triplets_le bits len (by omega)
        have hnone : (List.range (len / 3 + if len % 3 = 0 then 0 else 1)).mapM
            (decTriplet2 bits) = none :=
          mapM_eq_none _ _ i (List.mem_range.mpr hi)
            (decTriplet2_none bits i (by omega) hbig)
        simp only [hnone, Option.bind_eq_bind, Option.none_bind]

end NToBits2

namespace NToBits2

open Codec

theorem trip_le124 (n : List Nat) (k : Nat) : trip n k ≤ 124 := by
  have h0 := byteLutEntry2_le (n.getD (3 * k) 0)
  have h1 := byteLutEntry2_le (n.getD (3 * k + 1) 0)
  have h2 := byteLutEntry2_le (n.getD (3 * k + 2) 0)
  unfold trip
  omega

/-- The 7-bit fields of the scalar encoder's output are exactly the triplet
values. -/
theorem fieldVal_enc5 (n : List Nat) (i : Nat) : fieldVal (enc5words n) i = trip n i := by
  have hwlen : (enc5words n).length = (n.length + 26) / 27 := by
    rw [enc5words, List.length_map, List.length_range]
  rw [fieldVal, and127, Nat.shiftRight_eq_div_pow]
  by_cases hi : i / 9 < (n.length + 26) / 27
  · have hword : (enc5words n).getD (i / 9) 0
        = packWord 7 (((tv2 n).drop (9 * (i / 9))).take 9) := by
      rw [enc5words, List.getD_eq_getElem _ _ (by rw [List.length_map, List.length_range]; exact hi),
        List.getElem_map, List.getElem_range]
    rw [hword]
    have h128 : (128:Nat) = 2 ^ 7 := by norm_num
    have hexp : i % 9 * 7 = 7 * (i % 9) + 0 := by omega
    rw [h128, hexp, packWord_extract 7 _ (fun v hv => tv2_lt n v
      (List.mem_of_mem_drop (List.mem_of_mem_take hv))) (i % 9) 0 7 (by omega)]
    rw [getD_take_drop _ _ _ _ (by omega)]
    have hidx : 9 * (i / 9) + i % 9 = i := by omega
    rw [hidx]
    by_cases hin : i < (tv2 n).length
    · rw [if_pos hin, tv2_getD]
      simp only [pow_zero, Nat.div_one]
      exact Nat.mod_eq_of_lt (trip_lt n i)
    · rw [if_neg hin]
      rw [tv2_length] at hin
      rw [trip_oob _ _ (by omega)]
      simp
  · have hzero : (enc5words n).getD (i / 9) 0 = 0 :=
      List.getD_eq_default _ _ (by omega)
    rw [hzero]
    have h3i : n.length ≤ 3 * i := by omega
    rw [trip_oob _ _ h3i]
    simp

theorem flatten3_length (f : Nat → List Nat) (hf : ∀ i, (f i).length = 3) (m : Nat) :
    (((List.range m).map f).flatten).length = 3 * m := by
  induction m with
  | zero => rfl
  | succ m ih =>
    rw [List.range_succ, List.map_append, List.flatten_append, List.length_append, ih]
    simp [hf]
    omega

theorem flatten3_getD (f : Nat → List Nat) (hf : ∀ i, (f i).length = 3) (m p : Nat)
    (hp : p < 3 * m) :
    (((List.range m).map f).flatten).getD p 0 = (f (p / 3)).getD (p % 3) 0 := by
  induction m with
  | zero => omega
  | succ m ih =>
    rw [List.range_succ, List.map_append, List.flatten_append]
    by_cases hpm : p < 3 * m
    · rw [List.getD_append _ _ _ _ (by rw [flatten3_length f hf]; exact hpm)]
      exact ih hpm
    · rw [List.getD_append_right _ _ _ _ (by rw [flatten3_length f hf]; omega)]
      rw [flatten3_length f hf]
      simp only [List.map_cons, List.map_nil, List.flatten_cons, List.flatten_nil,
        List.append_nil]
      have hdiv : p / 3 = m := by omega
      have hmod : p % 3 = p - 3 * m := by omega
      rw [hdiv, hmod]

def isAlpha5 (b : Nat) : Prop :=
  b = 65 ∨ b = 67 ∨ b = 71 ∨ b = 78 ∨ b = 84 ∨ b = 97 ∨ b = 99 ∨ b = 103 ∨ b = 110 ∨ b = 116

instance (b : Nat) : Decidable (isAlpha5 b) := by unfold isAlpha5; infer_instance

theorem alpha5_lt {b : Nat} (hb : isAlpha5 b) : b < 128 := by
  unfold isAlpha5 at hb
  omega

theorem decode_encode_byte5 (b : Nat) (hb : isAlpha5 b) :
    BITS_LUT.getD (byteLutEntry b) 0 = NToBits.upcase b := by
  unfold isAlpha5 at hb
  rcases hb with rfl | rfl | rfl | rfl | rfl | rfl | rfl | rfl | rfl | rfl <;> decide

/-- Round trip for the scalar Codec-5 pair. -/
theorem roundtrip5 (n : List Nat) (h : ∀ b ∈ n, isAlpha5 b) :
    bits_to_n2_lut (enc5words n) n.length = some (n.map NToBits.upcase) := by
  have h128 : ∀ b ∈ n, b < 128 := fun b hb => alpha5_lt (h b hb)
  have hwlen : (enc5words n).length = (n.length + 26) / 27 := by
    rw [enc5words, List.length_map, List.length_range]
  have hcap : n.length ≤ (enc5words n).length * 27 := by
    rw [hwlen]
    omega
  have hfields : ∀ i < n.length / 3 + (if n.length % 3 = 0 then 0 else 1),
      fieldVal (enc5words n) i < 125 := by
    intro i _
    rw [fieldVal_enc5]
    have := trip_le124 n i
    omega
  rw [bits_to_n2_lut_eq _ _ hcap hfields]
  congr 1
  set T := n.length / 3 + (if n.length % 3 = 0 then 0 else 1) with hT
  have hT3 : n.length ≤ 3 * T := by
    rw [hT]
    by_cases h3 : n.length % 3 = 0 <;> simp [h3] <;> omega
  have hf3 : ∀ i, ([BITS_LUT.getD (fieldVal (enc5words n) i % 5) 0,
      BITS_LUT.getD (fieldVal (enc5words n) i / 5 % 5) 0,
      BITS_LUT.getD (fieldVal (enc5words n) i / 25) 0] : List Nat).length = 3 := fun i => rfl
  have hflen : (((List.range T).map fun i =>
      [BITS_LUT.getD (fieldVal (enc5words n) i % 5) 0,
        BITS_LUT.getD (fieldVal (enc5words n) i / 5 % 5) 0,
        BITS_LUT.getD (fieldVal (enc5words n) i / 25) 0]).flatten).length = 3 * T :=
    flatten3_length _ hf3 T
  apply eq_of_getD
  · rw [dec5, List.length_take, hflen, List.length_map]
    omega
  · intro p
    by_cases hp : p < n.length
    · have hptake : (dec5 (enc5words n) n.length).getD p 0
          = (((List.range T).map fun i =>
            [BITS_LUT.getD (fieldVal (enc5words n) i % 5) 0,
              BITS_LUT.getD (fieldVal (enc5words n) i / 5 % 5) 0,
              BITS_LUT.getD (fieldVal (enc5words n) i / 25) 0]).flatten).getD p 0 := by
        rw [dec5]
        have hlt : p < ((((List.range T).map fun i =>
            [BITS_LUT.getD (fieldVal (enc5words n) i % 5) 0,
              BITS_LUT.getD (fieldVal (enc5words n) i / 5 % 5) 0,
              BITS_LUT.getD (fieldVal (enc5words n) i / 25) 0]).flatten).take n.length).length := by
          rw [List.length_take, hflen]
          omega
        rw [List.getD_eq_getElem _ _ hlt, List.getElem_take,
          List.getD_eq_getElem _ _ (by rw [hflen]; omega)]
      rw [hptake, flatten3_getD _ hf3 _ _ (by omega)]
      -- digits of the field
      have e0 := byteLutEntry2_le (n.getD (3 * (p / 3)) 0)
      have e1 := byteLutEntry2_le (n.getD (3 * (p / 3) + 1) 0)
      have e2 := byteLutEntry2_le (n.getD (3 * (p / 3) + 2) 0)
      have hfv : fieldVal (enc5words n) (p / 3) = trip n (p / 3) := fieldVal_enc5 n (p / 3)
      have hd0 : fieldVal (enc5words n) (p / 3) % 5 = byteLutEntry (n.getD (3 * (p / 3)) 0) := by
        rw [hfv]
        unfold trip
        omega
      have hd1 : fieldVal (enc5words n) (p / 3) / 5 % 5
          = byteLutEntry (n.getD (3 * (p / 3) + 1) 0) := by
        rw [hfv]
        unfold trip
        omega
      have hd2 : fieldVal (enc5words n) (p / 3) / 25
          = byteLutEntry (n.getD (3 * (p / 3) + 2) 0) := by
        rw [hfv]
        unfold trip
        omega
      have hmem : ∀ q, q < n.length → isAlpha5 (n.getD q 0) := by
        intro q hq
        apply h
        rw [List.getD_eq_getElem _ _ hq]
        exact List.getElem_mem _
      have hup : (n.map NToBits.upcase).getD p 0 = NToBits.upcase (n.getD p 0) := by
        rw [List.getD_eq_getElem (List.map NToBits.upcase n) 0 (by rw [List.length_map]; omega),
          List.getElem_map, List.getD_eq_getElem _ _ hp]
      have hcase : p % 3 = 0 ∨ p % 3 = 1 ∨ p % 3 = 2 := by omega
      rcases hcase with h3 | h3 | h3
      · have hpidx : 3 * (p / 3) = p := by omega
        rw [h3]
        simp only [List.getD_cons_zero]
        rw [hd0, hpidx, decode_encode_byte5 _ (hmem p hp), hup]
      · have hpidx : 3 * (p / 3) + 1 = p := by omega
        rw [h3]
        simp only [List.getD_cons_succ, List.getD_cons_zero]
        rw [hd1, hpidx, decode_encode_byte5 _ (hmem p hp), hup]
      · have hpidx : 3 * (p / 3) + 2 = p := by omega
        rw [h3]
        simp only [List.getD_cons_succ, List.getD_cons_zero]
        rw [hd2, hpidx, decode_encode_byte5 _ (hmem p hp), hup]
    · rw [List.getD_eq_default _ _ (by rw [dec5, List.length_take, hflen]; omega),
        List.getD_eq_default _ _ (by rw [List.length_map]; omega)]

end NToBits2

namespace NToBits

open Codec

/-- Bit extraction from the Codec-4 encoder output, in `div`/`mod` form. -/
theorem enc4words_extract (s : List Nat) (i : Nat) (hi : i < s.length) :
    (enc4words s).getD (i / 32) 0 / 2 ^ (2 * (i % 32)) % 4 = byteLutEntry (s.getD i 0) := by
  have hj : i / 32 < (s.length + 31) / 32 := by omega
  have hword : (enc4words s).getD (i / 32) 0
      = packWord 2 (((codes4 s).drop (32 * (i / 32))).take 32) := by
    rw [enc4words, List.getD_eq_getElem _ _ (by rw [List.length_map, List.length_range]; exact hj),
      List.getElem_map, List.getElem_range]
  rw [hword]
  have h4 : (4:Nat) = 2 ^ 2 := by norm_num
  have hexp : 2 * (i % 32) = 2 * (i % 32) + 0 := by omega
  rw [h4, hexp, packWord_extract 2 _ (fun v hv => codes4_lt _ v
    (List.mem_of_mem_drop (List.mem_of_mem_take hv))) (i % 32) 0 2 (by omega)]
  rw [getD_take_drop _ _ _ _ (by omega)]
  have hidx : 32 * (i / 32) + i % 32 = i := by omega
  rw [hidx, if_pos (by rw [codes4, List.length_map]; omega)]
  have hcodesD : (codes4 s).getD i 0 = byteLutEntry (s.getD i 0) := by
    rw [codes4, List.getD_eq_getElem _ _ (by rw [List.length_map]; omega), List.getElem_map,
      List.getD_eq_getElem _ _ hi]
  rw [hcodesD]
  simp [Nat.mod_eq_of_lt (byteLutEntry_lt _)]

/-- The unused high bits of the last Codec-4 word are zero. -/
theorem enc4words_last_lt (s : List Nat) (h32 : s.length % 32 ≠ 0) :
    (enc4words s).getD (s.length / 32) 0 < 2 ^ (2 * (s.length % 32)) := by
  have hj : s.length / 32 < (s.length + 31) / 32 := by omega
  have hword : (enc4words s).getD (s.length / 32) 0
      = packWord 2 (((codes4 s).drop (32 * (s.length / 32))).take 32) := by
    rw [enc4words, List.getD_eq_getElem _ _ (by rw [List.length_map, List.length_range]; exact hj),
      List.getElem_map, List.getElem_range]
  have hlen : (((codes4 s).drop (32 * (s.length / 32))).take 32).length = s.length % 32 := by
    rw [List.length_take, List.length_drop, codes4, List.length_map]
    omega
  rw [hword]
  have := packWord_lt 2 (((codes4 s).drop (32 * (s.length / 32))).take 32)
    (fun v hv => codes4_lt _ v (List.mem_of_mem_drop (List.mem_of_mem_take hv)))
  rwa [hlen] at this

end NToBits

/-- C5: the Codec-4 scalar encoder produces `ceil(len/32)` words; symbol `i`'s
2-bit code (A=00, C=01, T=10, G=11, case-insensitive) occupies bits
`[2*(i mod 32), 2*(i mod 32)+1]` of word `i div 32`, and all bit positions
beyond `2*len` in the last word are zero. -/
theorem claim_C5 (s : List Nat) (h : ∀ b ∈ s, NToBits.isAlpha4 b) :
    ∃ w, NToBits.n_to_bits_lut s = some w ∧
      w.length = (s.length + 31) / 32 ∧
      (∀ i, i < s.length →
        w.getD (i / 32) 0 / 2 ^ (2 * (i % 32)) % 4 = NToBits.byteLutEntry (s.getD i 0)) ∧
      (NToBits.byteLutEntry 65 = 0b00 ∧ NToBits.byteLutEntry 67 = 0b01 ∧
        NToBits.byteLutEntry 84 = 0b10 ∧ NToBits.byteLutEntry 71 = 0b11 ∧
        NToBits.byteLutEntry 97 = 0b00 ∧ NToBits.byteLutEntry 99 = 0b01 ∧
        NToBits.byteLutEntry 116 = 0b10 ∧ NToBits.byteLutEntry 103 = 0b11) ∧
      (s.length % 32 ≠ 0 → w.getD (s.length / 32) 0 < 2 ^ (2 * (s.length % 32))) := by
  refine ⟨NToBits.enc4words s,
    NToBits.n_to_bits_lut_eq s (fun b hb => NToBits.alpha4_lt (h b hb)), ?_, ?_, ?_, ?_⟩
  · rw [NToBits.enc4words, List.length_map, List.length_range]
  · intro i hi
    exact NToBits.enc4words_extract s i hi
  · exact ⟨rfl, rfl, rfl, rfl, rfl, rfl, rfl, rfl⟩
  · exact NToBits.enc4words_last_lt s

theorem claim_C5_witness :
    ∃ w, NToBits.n_to_bits_lut [65, 84, 99, 71, 116] = some w ∧
      w.length = (([65, 84, 99, 71, 116] : List Nat).length + 31) / 32 ∧
      (∀ i, i < ([65, 84, 99, 71, 116] : List Nat).length →
        w.getD (i / 32) 0 / 2 ^ (2 * (i % 32)) % 4
          = NToBits.byteLutEntry (([65, 84, 99, 71, 116] : List Nat).getD i 0)) ∧
      (NToBits.byteLutEntry 65 = 0b00 ∧ NToBits.byteLutEntry 67 = 0b01 ∧
        NToBits.byteLutEntry 84 = 0b10 ∧ NToBits.byteLutEntry 71 = 0b11 ∧
        NToBits.byteLutEntry 97 = 0b00 ∧ NToBits.byteLutEntry 99 = 0b01 ∧
        NToBits.byteLutEntry 116 = 0b10 ∧ NToBits.byteLutEntry 103 = 0b11) ∧
      (([65, 84, 99, 71, 116] : List Nat).length % 32 ≠ 0 →
        w.getD (([65, 84, 99, 71, 116] : List Nat).length / 32) 0
          < 2 ^ (2 * (([65, 84, 99, 71, 116] : List Nat).length % 32))) :=
  claim_C5 [65, 84, 99, 71, 116] (by decide)

namespace NToBits2

open Codec

/-- Field extraction from the Codec-5 encoder output, in `div`/`mod` form. -/
theorem enc5words_extract (s : List Nat) (t : Nat) :
    (enc5words s).getD (t / 9) 0 / 2 ^ (7 * (t % 9)) % 128 = trip s t := by
  have h := fieldVal_enc5 s t
  rw [fieldVal, and127, Nat.shiftRight_eq_div_pow] at h
  rwa [Nat.mul_comm 7 (t % 9)]

end NToBits2

/-- C6: the Codec-5 scalar encoder produces `ceil(len/27)` words; triplet `t`'s
base-5 value `code0 + 5*code1 + 25*code2` (A=0, C=1, T=2, G=3, N=4,
case-insensitive) occupies the 7-bit field at bit offset `7*(t mod 9)` of word
`t div 9`, and a trailing partial triplet is encoded in the next sequential
field with its missing codes read as 0 (out-of-range bytes default to 0,
whose code is 0). -/
theorem claim_C6 (s : List Nat) (h : ∀ b ∈ s, NToBits2.isAlpha5 b) :
    ∃ w, NToBits2.n_to_bits2_lut s = some w ∧
      w.length = (s.length + 26) / 27 ∧
      (∀ t, 3 * t < s.length →
        w.getD (t / 9) 0 / 2 ^ (7 * (t % 9)) % 128
          = NToBits2.byteLutEntry (s.getD (3 * t) 0) +
            5 * NToBits2.byteLutEntry (s.getD (3 * t + 1) 0) +
            25 * NToBits2.byteLutEntry (s.getD (3 * t + 2) 0)) ∧
      (NToBits2.byteLutEntry 65 = 0 ∧ NToBits2.byteLutEntry 67 = 1 ∧
        NToBits2.byteLutEntry 84 = 2 ∧ NToBits2.byteLutEntry 71 = 3 ∧
        NToBits2.byteLutEntry 78 = 4 ∧ NToBits2.byteLutEntry 97 = 0 ∧
        NToBits2.byteLutEntry 99 = 1 ∧ NToBits2.byteLutEntry 116 = 2 ∧
        NToBits2.byteLutEntry 103 = 3 ∧ NToBits2.byteLutEntry 110 = 4) := by
  refine ⟨NToBits2.enc5words s,
    NToBits2.n_to_bits2_lut_eq s (fun b hb => NToBits2.alpha5_lt (h b hb)), ?_, ?_, ?_⟩
  · rw [NToBits2.enc5words, List.length_map, List.length_range]
  · intro t _
    rw [NToBits2.enc5words_extract]
    unfold NToBits2.trip
    ring
  · exact ⟨rfl, rfl, rfl, rfl, rfl, rfl, rfl, rfl, rfl, rfl⟩

theorem claim_C6_witness :
    ∃ w, NToBits2.n_to_bits2_lut [65, 84, 99, 71, 110] = some w ∧
      w.length = (([65, 84, 99, 71, 110] : List Nat).length + 26) / 27 ∧
      (∀ t, 3 * t < ([65, 84, 99, 71, 110] : List Nat).length →
        w.getD (t / 9) 0 / 2 ^ (7 * (t % 9)) % 128
          = NToBits2.byteLutEntry (([65, 84, 99, 71, 110] : List Nat).getD (3 * t) 0) +
            5 * NToBits2.byteLutEntry (([65, 84, 99, 71, 110] : List Nat).getD (3 * t + 1) 0) +
            25 * NToBits2.byteLutEntry (([65, 84, 99, 71, 110] : List Nat).getD (3 * t + 2) 0)) ∧
      (NToBits2.byteLutEntry 65 = 0 ∧ NToBits2.byteLutEntry 67 = 1 ∧
        NToBits2.byteLutEntry 84 = 2 ∧ NToBits2.byteLutEntry 71 = 3 ∧
        NToBits2.byteLutEntry 78 = 4 ∧ NToBits2.byteLutEntry 97 = 0 ∧
        NToBits2.byteLutEntry 99 = 1 ∧ NToBits2.byteLutEntry 116 = 2 ∧
        NToBits2.byteLutEntry 103 = 3 ∧ NToBits2.byteLutEntry 110 = 4) :=
  claim_C6 [65, 84, 99, 71, 110] (by decide)

/-- C3: round trip for both scalar codecs — decoding the encoding of an
alphabet sequence at its original length returns the upper-cased original,
for every length including 0. -/
theorem claim_C3 (s4 s5 : List Nat) (h4 : ∀ b ∈ s4, NToBits.isAlpha4 b)
    (h5 : ∀ b ∈ s5, NToBits2.isAlpha5 b) :
    (NToBits.n_to_bits_lut s4).bind (fun w => NToBits.bits_to_n_lut w s4.length)
      = some (s4.map NToBits.upcase) ∧
    (NToBits2.n_to_bits2_lut s5).bind (fun w => NToBits2.bits_to_n2_lut w s5.length)
      = some (s5.map NToBits.upcase) := by
  constructor
  · rw [NToBits.n_to_bits_lut_eq s4 (fun b hb => NToBits.alpha4_lt (h4 b hb)),
      Option.some_bind]
    exact NToBits.roundtrip4 s4 h4
  · rw [NToBits2.n_to_bits2_lut_eq s5 (fun b hb => NToBits2.alpha5_lt (h5 b hb)),
      Option.some_bind]
    exact NToBits2.roundtrip5 s5 h5

theorem claim_C3_witness :
    ((NToBits.n_to_bits_lut [97, 84, 67, 103]).bind
        (fun w => NToBits.bits_to_n_lut w ([97, 84, 67, 103] : List Nat).length)
      = some (([97, 84, 67, 103] : List Nat).map NToBits.upcase) ∧
    (NToBits2.n_to_bits2_lut [65, 116, 99, 71, 78]).bind
        (fun w => NToBits2.bits_to_n2_lut w ([65, 116, 99, 71, 78] : List Nat).length)
      = some (([65, 116, 99, 71, 78] : List Nat).map NToBits.upcase)) :=
  claim_C3 [97, 84, 67, 103] [65, 116, 99, 71, 78] (by decide) (by decide)

namespace NToBits

open Codec

theorem byteLutEntry_subst : ∀ b < 128,
    byteLutEntry b = byteLutEntry (if isAlpha4 b then b else 65) := by decide

theorem enc4words_subst (n : List Nat) (h : ∀ b ∈ n, b < 128) :
    enc4words (n.map fun b => if isAlpha4 b then b else 65) = enc4words n := by
  have hcodes : codes4 (n.map fun b => if isAlpha4 b then b else 65) = codes4 n := by
    rw [codes4, codes4, List.map_map]
    apply List.map_congr_left
    intro b hb
    simp only [Function.comp_apply]
    exact (byteLutEntry_subst b (h b hb)).symm
  rw [enc4words, enc4words, hcodes, List.length_map]

end NToBits

namespace NToBits2

open Codec

theorem byteLutEntry2_subst : ∀ b < 128,
    byteLutEntry b = byteLutEntry (if isAlpha5 b then b else 65) := by decide

theorem tv2_subst (n : List Nat) (h : ∀ b ∈ n, b < 128) :
    tv2 (n.map fun b => if isAlpha5 b then b else 65) = tv2 n := by
  induction n using tv2.induct with
  | case1 => rfl
  | case2 b0 =>
    have h0 := byteLutEntry2_subst b0 (h b0 (by simp))
    simp [tv2, h0.symm]
  | case3 b0 b1 =>
    have h0 := byteLutEntry2_subst b0 (h b0 (by simp))
    have h1 := byteLutEntry2_subst b1 (h b1 (by simp))
    simp [tv2, h0.symm, h1.symm]
  | case4 b0 b1 b2 rest ih =>
    have h0 := byteLutEntry2_subst b0 (h b0 (by simp))
    have h1 := byteLutEntry2_subst b1 (h b1 (by simp))
    have h2 := byteLutEntry2_subst b2 (h b2 (by simp))
    have hrest : ∀ b ∈ rest, b < 128 := fun b hb => h b (by simp [hb])
    simp only [List.map_cons, tv2, ih hrest, h0.symm, h1.symm, h2.symm]

theorem enc5words_subst (n : List Nat) (h : ∀ b ∈ n, b < 128) :
    enc5words (n.map fun b => if isAlpha5 b then b else 65) = enc5words n := by
  rw [enc5words, enc5words, tv2_subst n h, List.length_map]

end NToBits2

/-- C9 counterexample: the claim fails for a byte ≥ 128.  The byte 200 is not
an alphabet symbol, yet `n_to_bits_lut [200]` is not the encoding of `[65]`
(`'A'`): the table read `BYTE_LUT[200]` leaves the 128-entry table (undefined
behavior in the source, `none` in the embedding) instead of producing code 0. -/
theorem claim_C9_counterexample :
    ¬ (NToBits.n_to_bits_lut [200] = NToBits.n_to_bits_lut [65] ∧
       NToBits2.n_to_bits2_lut [200, 200, 200] = NToBits2.n_to_bits2_lut [65, 65, 65]) := by
  decide

/-- C9 (amended): for input bytes below 128, an unrecognized byte reads a
zero-initialized table slot, so both scalar encoders behave as if every
non-alphabet byte were replaced by `'A'`; bytes at 128 or above instead index
out of the 128-entry table's bounds. -/
theorem claim_C9_amended (n4 n5 : List Nat) (h4 : ∀ b ∈ n4, b < 128)
    (h5 : ∀ b ∈ n5, b < 128) :
    NToBits.n_to_bits_lut n4
      = NToBits.n_to_bits_lut (n4.map fun b => if NToBits.isAlpha4 b then b else 65) ∧
    NToBits2.n_to_bits2_lut n5
      = NToBits2.n_to_bits2_lut (n5.map fun b => if NToBits2.isAlpha5 b then b else 65) := by
  have h4' : ∀ b ∈ (n4.map fun b => if NToBits.isAlpha4 b then b else 65), b < 128 := by
    intro b hb
    rcases List.mem_map.mp hb with ⟨a, ha, rfl⟩
    split
    · exact h4 a ha
    · norm_num
  have h5' : ∀ b ∈ (n5.map fun b => if NToBits2.isAlpha5 b then b else 65), b < 128 := by
    intro b hb
    rcases List.mem_map.mp hb with ⟨a, ha, rfl⟩
    split
    · exact h5 a ha
    · norm_num
  constructor
  · rw [NToBits.n_to_bits_lut_eq n4 h4, NToBits.n_to_bits_lut_eq _ h4',
      NToBits.enc4words_subst n4 h4]
  · rw [NToBits2.n_to_bits2_lut_eq n5 h5, NToBits2.n_to_bits2_lut_eq _ h5',
      NToBits2.enc5words_subst n5 h5]

theorem claim_C9_amended_witness :
    NToBits.n_to_bits_lut [88, 65]
      = NToBits.n_to_bits_lut (([88, 65] : List Nat).map fun b =>
          if NToBits.isAlpha4 b then b else 65) ∧
    NToBits2.n_to_bits2_lut [88, 65, 46]
      = NToBits2.n_to_bits2_lut (([88, 65, 46] : List Nat).map fun b =>
          if NToBits2.isAlpha5 b then b else 65) :=
  claim_C9_amended [88, 65] [88, 65, 46] (by decide) (by decide)

/-- C10: the Codec-5 scalar decoder's inverse-table lookups are in bounds only
when every read 7-bit field is at most 124: a field of 125 or more makes
`curr / 25` reach index 5, out of bounds for the 5-entry `BITS_LUT` (`none`);
and on any output of `n_to_bits2_lut` over the alphabet, every field is at
most 124, so decoding at any in-capacity length succeeds. -/
theorem claim_C10 :
    (∀ bits len, len ≤ bits.length * 27 →
      ∀ i, i < len / 3 + (if len % 3 = 0 then 0 else 1) → 125 ≤ NToBits2.fieldVal bits i →
        NToBits2.bits_to_n2_lut bits len = none) ∧
    (∀ s w, (∀ b ∈ s, NToBits2.isAlpha5 b) → NToBits2.n_to_bits2_lut s = some w →
      (∀ i, NToBits2.fieldVal w i ≤ 124) ∧
      ∀ len, len ≤ w.length * 27 → ∃ out, NToBits2.bits_to_n2_lut w len = some out) := by
  constructor
  · intro bits len hlen i hi hbig
    exact (NToBits2.bits_to_n2_lut_none_iff bits len).mpr (Or.inr ⟨i, hi, hbig⟩)
  · intro s w h hw
    rw [NToBits2.n_to_bits2_lut_eq s (fun b hb => NToBits2.alpha5_lt (h b hb))] at hw
    injection hw with hw
    subst hw
    constructor
    · intro i
      rw [NToBits2.fieldVal_enc5]
      exact NToBits2.trip_le124 s i
    · intro len hlen
      exact ⟨_, NToBits2.bits_to_n2_lut_eq _ len hlen (fun i _ => by
        rw [NToBits2.fieldVal_enc5]
        have := NToBits2.trip_le124 s i
        omega)⟩

theorem claim_C10_witness :
    (NToBits2.bits_to_n2_lut [125] 3 = none) ∧
    ((∀ i, NToBits2.fieldVal [0b101110100011] i ≤ 124) ∧
      ∀ len, len ≤ ([0b101110100011] : List Nat).length * 27 →
        ∃ out, NToBits2.bits_to_n2_lut [0b101110100011] len = some out) :=
  ⟨claim_C10.1 [125] 3 (by norm_num) 0 (by norm_num) (by decide),
    claim_C10.2 [65, 84, 67, 71, 78] [0b101110100011] (by decide) (by decide)⟩

namespace NToBits2

/-- `((1u32 << 16) / 5 + 1)`: the fixed-point reciprocal of 5 used by
`bits_to_n2_pdep` (`div5`). -/
def div5const : Nat := (1 <<< 16) / 5 + 1

/-- `((1u32 << 16) / 25 + 1)`: the fixed-point reciprocal of 25 used by
`bits_to_n2_pdep` (`div25`). -/
def div25const : Nat := (1 <<< 16) / 25 + 1

/-- `_mm256_mulhi_epu16` on one 16-bit lane: the high half of the 32-bit
product. -/
def mulhi16 (a b : Nat) : Nat := a * b / 2 ^ 16

/-- `_mm256_sub_epi16` on one 16-bit lane: wrapping subtraction. -/
def sub16 (a b : Nat) : Nat := (2 ^ 16 + a - b) % 2 ^ 16

end NToBits2

/-- C8: the fixed-point reciprocal constants emulate base-5 digit extraction
exactly on every 7-bit field value: multiply-high by `div5const`/`div25const`
computes `v / 5` and `v / 25`, and the subtract-multiples-of-5 sequence of
`bits_to_n2_pdep` recovers exactly the digits `v % 5`, `(v / 5) % 5`, `v / 25`
that `bits_to_n2_lut` computes by division and modulo. -/
theorem claim_C8 (v : Nat) (hv : v < 128) :
    NToBits2.div5const = 13108 ∧ NToBits2.div25const = 2622 ∧
    NToBits2.mulhi16 v NToBits2.div5const = v / 5 ∧
    NToBits2.mulhi16 v NToBits2.div25const = v / 25 ∧
    NToBits2.sub16 v (5 * NToBits2.mulhi16 v NToBits2.div5const % 2 ^ 16) = v % 5 ∧
    NToBits2.sub16 (NToBits2.mulhi16 v NToBits2.div5const)
      (5 * NToBits2.mulhi16 v NToBits2.div25const % 2 ^ 16) = v / 5 % 5 := by
  revert hv
  revert v
  decide

theorem claim_C8_witness :
    NToBits2.div5const = 13108 ∧ NToBits2.div25const = 2622 ∧
    NToBits2.mulhi16 124 NToBits2.div5const = 124 / 5 ∧
    NToBits2.mulhi16 124 NToBits2.div25const = 124 / 25 ∧
    NToBits2.sub16 124 (5 * NToBits2.mulhi16 124 NToBits2.div5const % 2 ^ 16) = 124 % 5 ∧
    NToBits2.sub16 (NToBits2.mulhi16 124 NToBits2.div5const)
      (5 * NToBits2.mulhi16 124 NToBits2.div25const % 2 ^ 16) = 124 / 5 % 5 :=
  claim_C8 124 (by norm_num)

namespace Codec

/-!  Byte-level models of the x86 vector operations used by the accelerated
implementations.  A `__m256i` register is a list of 32 octets (lowest memory
byte first); a `__m128i` is a list of 16 octets. -/

/-- The `k` low-order little-endian bytes of `x`. -/
def bytesOfN (k x : Nat) : List Nat := (List.range k).map fun j => x / 2 ^ (8 * j) % 256

/-- 64-bit element `j` of a byte vector (the `AlignedArray` union's `.a[j]`). -/
def u64At (v : List Nat) (j : Nat) : Nat := packWord 8 ((v.drop (8 * j)).take 8)

/-- `_mm_shuffle_epi8` / one 128-bit lane of `_mm256_shuffle_epi8`: an index
byte with its high bit set selects 0, otherwise its low 4 bits select a byte
of `a`. -/
def pshufb (a idx : List Nat) : List Nat :=
  idx.map fun i => if 128 ≤ i % 256 then 0 else a.getD (i % 16) 0

def mm256_shuffle_epi8 (a b : List Nat) : List Nat :=
  pshufb (a.take 16) (b.take 16) ++ pshufb (a.drop 16) (b.drop 16)

def vand (a b : List Nat) : List Nat := List.zipWith (· &&& ·) a b

def vor (a b : List Nat) : List Nat := List.zipWith (· ||| ·) a b

/-- Group a byte list into 16-bit lanes (little-endian). -/
def toU16 : List Nat → List Nat
  | b0 :: b1 :: rest => (b0 + 256 * b1) :: toU16 rest
  | _ => []

/-- Serialize 16-bit lanes back to bytes. -/
def ofU16 (ws : List Nat) : List Nat := (ws.map fun w => [w % 256, w / 256 % 256]).flatten

/-- Group a byte list into 32-bit lanes (little-endian). -/
def toU32 : List Nat → List Nat
  | b0 :: b1 :: b2 :: b3 :: rest =>
      (b0 + 256 * b1 + 65536 * b2 + 16777216 * b3) :: toU32 rest
  | _ => []

/-- Serialize 32-bit lanes back to bytes. -/
def ofU32 (ws : List Nat) : List Nat :=
  (ws.map fun w => [w % 256, w / 256 % 256, w / 65536 % 256, w / 16777216 % 256]).flatten

def mullo32 (a b : List Nat) : List Nat :=
  ofU32 (List.zipWith (fun x y => x * y % 2 ^ 32) (toU32 a) (toU32 b))

def mullo16 (a b : List Nat) : List Nat :=
  ofU16 (List.zipWith (fun x y => x * y % 2 ^ 16) (toU16 a) (toU16 b))

def mulhi16v (a b : List Nat) : List Nat :=
  ofU16 (List.zipWith (fun x y => x * y / 2 ^ 16) (toU16 a) (toU16 b))

def add16 (a b : List Nat) : List Nat :=
  ofU16 (List.zipWith (fun x y => (x + y) % 2 ^ 16) (toU16 a) (toU16 b))

def sub16v (a b : List Nat) : List Nat :=
  ofU16 (List.zipWith (fun x y => (2 ^ 16 + x - y) % 2 ^ 16) (toU16 a) (toU16 b))

def srli16 (a : List Nat) (k : Nat) : List Nat := ofU16 ((toU16 a).map fun x => x / 2 ^ k)

def slli16 (a : List Nat) (k : Nat) : List Nat := ofU16 ((toU16 a).map fun x => x * 2 ^ k % 2 ^ 16)

/-- `_mm256_blend_epi16`: 16-bit lane `k` comes from `b` iff bit `k mod 8` of
the immediate is set. -/
def blend16 (a b : List Nat) (imm : Nat) : List Nat :=
  ofU16 ((List.range 16).map fun k =>
    if imm / 2 ^ (k % 8) % 2 = 1 then (toU16 b).getD k 0 else (toU16 a).getD k 0)

/-- `_mm256_permutevar8x32_epi32`: full-width 32-bit element gather. -/
def permutevar8x32 (a idx : List Nat) : List Nat :=
  ofU32 ((toU32 idx).map fun s => (toU32 a).getD (s % 8) 0)

def mm256_set1_epi8 (x : Nat) : List Nat := List.replicate 32 (x % 256)

def mm256_set1_epi16 (x : Nat) : List Nat := ofU16 (List.replicate 16 (x % 2 ^ 16))

def mm256_set1_epi32 (x : Nat) : List Nat := ofU32 (List.replicate 8 (x % 2 ^ 32))

def mm256_set1_epi64x (x : Nat) : List Nat :=
  bytesOfN 8 (x % 2 ^ 64) ++ bytesOfN 8 (x % 2 ^ 64) ++ bytesOfN 8 (x % 2 ^ 64) ++
    bytesOfN 8 (x % 2 ^ 64)

def mm256_set_epi64x (e3 e2 e1 e0 : Nat) : List Nat :=
  bytesOfN 8 (e0 % 2 ^ 64) ++ bytesOfN 8 (e1 % 2 ^ 64) ++ bytesOfN 8 (e2 % 2 ^ 64) ++
    bytesOfN 8 (e3 % 2 ^ 64)

def mm256_set_epi32 (e7 e6 e5 e4 e3 e2 e1 e0 : Nat) : List Nat :=
  ofU32 [e0 % 2 ^ 32, e1 % 2 ^ 32, e2 % 2 ^ 32, e3 % 2 ^ 32, e4 % 2 ^ 32, e5 % 2 ^ 32,
    e6 % 2 ^ 32, e7 % 2 ^ 32]

def mm256_set_epi16 (e15 e14 e13 e12 e11 e10 e9 e8 e7 e6 e5 e4 e3 e2 e1 e0 : Nat) : List Nat :=
  ofU16 [e0 % 2 ^ 16, e1 % 2 ^ 16, e2 % 2 ^ 16, e3 % 2 ^ 16, e4 % 2 ^ 16, e5 % 2 ^ 16,
    e6 % 2 ^ 16, e7 % 2 ^ 16, e8 % 2 ^ 16, e9 % 2 ^ 16, e10 % 2 ^ 16, e11 % 2 ^ 16,
    e12 % 2 ^ 16, e13 % 2 ^ 16, e14 % 2 ^ 16, e15 % 2 ^ 16]

def mm_set_epi32 (e3 e2 e1 e0 : Nat) : List Nat :=
  ofU32 [e0 % 2 ^ 32, e1 % 2 ^ 32, e2 % 2 ^ 32, e3 % 2 ^ 32]

def mm_set1_epi32 (x : Nat) : List Nat := ofU32 (List.replicate 4 (x % 2 ^ 32))

def mm_set_epi64x (e1 e0 : Nat) : List Nat := bytesOfN 8 (e0 % 2 ^ 64) ++ bytesOfN 8 (e1 % 2 ^ 64)

def mm_set1_epi64x (x : Nat) : List Nat := bytesOfN 8 (x % 2 ^ 64) ++ bytesOfN 8 (x % 2 ^ 64)

def mm_set1_epi8 (x : Nat) : List Nat := List.replicate 16 (x % 256)

/-- `_mm_clmulepi64_si128`: imm bit 0 picks the 64-bit half of `a`, imm bit 4
the half of `b`; the 128-bit carry-less product is returned as 16 bytes. -/
def mm_clmul (a b : List Nat) (imm : Nat) : List Nat :=
  bytesOfN 16 (clmul (u64At a (imm % 2)) (u64At b (imm / 16 % 2)))

/-- `_mm_movelh_ps` (on bit-cast data): low 8 bytes of each operand. -/
def mm_movelh (a b : List Nat) : List Nat := a.take 8 ++ b.take 8

end Codec

namespace NToBits

open Codec

/-- One 32-byte block of `n_to_bits_pext`: four `_pext_u64` gathers with the
ASCII mask `0x0606060606060606`, combined 16 bits at a time. -/
def pextBlock (block : List Nat) : Nat :=
  let a := pext (u64At block 0) 0x0606060606060606
  let b := pext (u64At block 1) 0x0606060606060606
  let c := pext (u64At block 2) 0x0606060606060606
  let d := pext (u64At block 3) 0x0606060606060606
  a ||| b <<< 16 ||| c <<< 32 ||| d <<< 48

/-- `pub fn n_to_bits_pext`: full 32-byte blocks through `pextBlock`, the
leftover tail (when `len & 31 > 0`) through `n_to_bits_lut`, whose single
word is appended. -/
def n_to_bits_pext (n : List Nat) : Option (List Nat) :=
  let end_idx := n.length >>> 5
  let main := (List.range end_idx).map fun i => pextBlock ((n.drop (32 * i)).take 32)
  if n.length &&& 31 > 0 then do
    let tail ← n_to_bits_lut (n.drop (end_idx <<< 5))
    let w ← tail[0]?
    pure (main ++ [w])
  else pure main

theorem alpha4_code (b : Nat) (hb : isAlpha4 b) : b / 2 % 4 = byteLutEntry b := by
  unfold isAlpha4 at hb
  rcases hb with rfl | rfl | rfl | rfl | rfl | rfl | rfl | rfl <;> decide

theorem pext_lane4 (b0 b1 b2 b3 b4 b5 b6 b7 : Nat)
    (h : ∀ b ∈ [b0, b1, b2, b3, b4, b5, b6, b7], isAlpha4 b) :
    pext (packWord 8 [b0, b1, b2, b3, b4, b5, b6, b7]) 0x0606060606060606
      = packWord 2 [byteLutEntry b0, byteLutEntry b1, byteLutEntry b2, byteLutEntry b3,
          byteLutEntry b4, byteLutEntry b5, byteLutEntry b6, byteLutEntry b7] := by
  have hlt : ∀ b ∈ [b0, b1, b2, b3, b4, b5, b6, b7], b < 2 ^ 8 :=
    fun b hb => lt_trans (alpha4_lt (h b hb)) (by norm_num)
  rw [pext_0606]
  have e0 : packWord 8 [b0, b1, b2, b3, b4, b5, b6, b7] / 2 ^ 1 % 4 = b0 / 2 % 4 := by
    have h' := packWord_extract 8 [b0, b1, b2, b3, b4, b5, b6, b7] hlt 0 1 2 (by omega)
    norm_num [List.getD_cons_zero] at h'
    exact h'
  have e1 : packWord 8 [b0, b1, b2, b3, b4, b5, b6, b7] / 2 ^ 9 % 4 = b1 / 2 % 4 := by
    have h' := packWord_extract 8 [b0, b1, b2, b3, b4, b5, b6, b7] hlt 1 1 2 (by omega)
    norm_num [List.getD_cons_succ, List.getD_cons_zero] at h'
    exact h'
  have e2 : packWord 8 [b0, b1, b2, b3, b4, b5, b6, b7] / 2 ^ 17 % 4 = b2 / 2 % 4 := by
    have h' := packWord_extract 8 [b0, b1, b2, b3, b4, b5, b6, b7] hlt 2 1 2 (by omega)
    norm_num [List.getD_cons_succ, List.getD_cons_zero] at h'
    exact h'
  have e3 : packWord 8 [b0, b1, b2, b3, b4, b5, b6, b7] / 2 ^ 25 % 4 = b3 / 2 % 4 := by
    have h' := packWord_extract 8 [b0, b1, b2, b3, b4, b5, b6, b7] hlt 3 1 2 (by omega)
    norm_num [List.getD_cons_succ, List.getD_cons_zero] at h'
    exact h'
  have e4 : packWord 8 [b0, b1, b2, b3, b4, b5, b6, b7] / 2 ^ 33 % 4 = b4 / 2 % 4 := by
    have h' := packWord_extract 8 [b0, b1, b2, b3, b4, b5, b6, b7] hlt 4 1 2 (by omega)
    norm_num [List.getD_cons_succ, List.getD_cons_zero] at h'
    exact h'
  have e5 : packWord 8 [b0, b1, b2, b3, b4, b5, b6, b7] / 2 ^ 41 % 4 = b5 / 2 % 4 := by
    have h' := packWord_extract 8 [b0, b1, b2, b3, b4, b5, b6, b7] hlt 5 1 2 (by omega)
    norm_num [List.getD_cons_succ, List.getD_cons_zero] at h'
    exact h'
  have e6 : packWord 8 [b0, b1, b2, b3, b4, b5, b6, b7] / 2 ^ 49 % 4 = b6 / 2 % 4 := by
    have h' := packWord_extract 8 [b0, b1, b2, b3, b4, b5, b6, b7] hlt 6 1 2 (by omega)
    norm_num [List.getD_cons_succ, List.getD_cons_zero] at h'
    exact h'
  have e7 : packWord 8 [b0, b1, b2, b3, b4, b5, b6, b7] / 2 ^ 57 % 4 = b7 / 2 % 4 := by
    have h' := packWord_extract 8 [b0, b1, b2, b3, b4, b5, b6, b7] hlt 7 1 2 (by omega)
    norm_num [List.getD_cons_succ, List.getD_cons_zero] at h'
    exact h'
  rw [e0, e1, e2, e3, e4, e5, e6, e7]
  rw [alpha4_code b0 (h b0 (by simp)), alpha4_code b1 (h b1 (by simp)),
    alpha4_code b2 (h b2 (by simp)), alpha4_code b3 (h b3 (by simp)),
    alpha4_code b4 (h b4 (by simp)), alpha4_code b5 (h b5 (by simp)),
    alpha4_code b6 (h b6 (by simp)), alpha4_code b7 (h b7 (by simp))]
  simp [packWord]
  ring

theorem pext_lane4_list (bs : List Nat) (hlen : bs.length = 8) (h : ∀ b ∈ bs, isAlpha4 b) :
    pext (packWord 8 bs) 0x0606060606060606 = packWord 2 (bs.map byteLutEntry) := by
  rcases bs with _ | ⟨b0, bs⟩
  · simp at hlen
  rcases bs with _ | ⟨b1, bs⟩
  · simp at hlen
  rcases bs with _ | ⟨b2, bs⟩
  · simp at hlen
  rcases bs with _ | ⟨b3, bs⟩
  · simp at hlen
  rcases bs with _ | ⟨b4, bs⟩
  · simp at hlen
  rcases bs with _ | ⟨b5, bs⟩
  · simp at hlen
  rcases bs with _ | ⟨b6, bs⟩
  · simp at hlen
  rcases bs with _ | ⟨b7, bs⟩
  · simp at hlen
  rcases bs with _ | ⟨b8, bs⟩
  · exact pext_lane4 b0 b1 b2 b3 b4 b5 b6 b7 h
  · simp at hlen

end NToBits

namespace NToBits

open Codec

theorem pext_lt16 (x : Nat) : pext x 0x0606060606060606 < 2 ^ 16 := by
  have hm : (maskBits 0x0606060606060606).length = 16 := by decide
  have := bitsGather_lt x (maskBits 0x0606060606060606)
  rwa [hm] at this

theorem block_split (block : List Nat) (hlen : block.length = 32) :
    block = block.take 8 ++ ((block.drop 8).take 8 ++
      ((block.drop 16).take 8 ++ (block.drop 24).take 8)) := by
  have h24 : (block.drop 24).take 8 = block.drop 24 :=
    List.take_of_length_le (by rw [List.length_drop]; omega)
  have s3 : block.drop 16 = (block.drop 16).take 8 ++ (block.drop 24).take 8 := by
    rw [h24]
    have h := (List.take_append_drop 8 (block.drop 16)).symm
    rw [List.drop_drop] at h
    norm_num at h
    exact h
  have s2 : block.drop 8 = (block.drop 8).take 8 ++
      ((block.drop 16).take 8 ++ (block.drop 24).take 8) := by
    rw [← s3]
    have h := (List.take_append_drop 8 (block.drop 8)).symm
    rw [List.drop_drop] at h
    norm_num at h
    exact h
  have s1 : block = block.take 8 ++ block.drop 8 := (List.take_append_drop 8 block).symm
  conv_lhs => rw [s1, s2]

/-- Fold a 4-way OR of 16-bit-shifted values into a sum. -/
theorem or_concat4 (A B C D : Nat) (hA : A < 2 ^ 16) (hB : B < 2 ^ 16) (hC : C < 2 ^ 16) :
    A ||| B <<< 16 ||| C <<< 32 ||| D <<< 48
      = A + B * 2 ^ 16 + C * 2 ^ 32 + D * 2 ^ 48 := by
  rw [Nat.shiftLeft_eq, Nat.shiftLeft_eq, Nat.shiftLeft_eq]
  rw [lor_of_lt B 16 hA]
  have hAB : A + B * 2 ^ 16 < 2 ^ 32 := by omega
  rw [lor_of_lt C 32 hAB]
  have hABC : A + B * 2 ^ 16 + C * 2 ^ 32 < 2 ^ 48 := by omega
  rw [lor_of_lt D 48 hABC]

theorem packWord2_concat4 (m0 m1 m2 m3 : List Nat) (h0 : m0.length = 8) (h1 : m1.length = 8)
    (h2 : m2.length = 8) :
    packWord 2 (m0 ++ (m1 ++ (m2 ++ m3)))
      = packWord 2 m0 + packWord 2 m1 * 2 ^ 16 + packWord 2 m2 * 2 ^ 32 +
        packWord 2 m3 * 2 ^ 48 := by
  rw [packWord_append, packWord_append, packWord_append, h0, h1, h2]
  norm_num
  ring

theorem pextBlock_eq (block : List Nat) (hlen : block.length = 32)
    (h : ∀ b ∈ block, isAlpha4 b) :
    pextBlock block = packWord 2 (codes4 block) := by
  have hlen8 : ∀ j < 4, ((block.drop (8 * j)).take 8).length = 8 := by
    intro j hj
    rw [List.length_take, List.length_drop]
    omega
  have hmemlane : ∀ j, ∀ b ∈ (block.drop (8 * j)).take 8, isAlpha4 b :=
    fun j b hb => h b (List.mem_of_mem_drop (List.mem_of_mem_take hb))
  have hu : ∀ j < 4, pext (u64At block j) 0x0606060606060606
      = packWord 2 (((block.drop (8 * j)).take 8).map byteLutEntry) := by
    intro j hj
    rw [u64At, pext_lane4_list _ (hlen8 j hj) (hmemlane j)]
  rw [pextBlock]
  rw [or_concat4 _ _ _ _ (pext_lt16 _) (pext_lt16 _) (pext_lt16 _)]
  rw [hu 0 (by norm_num), hu 1 (by norm_num), hu 2 (by norm_num), hu 3 (by norm_num)]
  rw [codes4]
  conv_rhs => rw [block_split block hlen]
  rw [List.map_append, List.map_append, List.map_append,
    packWord2_concat4 _ _ _ _ (by rw [List.length_map, List.length_take]; omega)
      (by rw [List.length_map, List.length_take, List.length_drop]; omega)
      (by rw [List.length_map, List.length_take, List.length_drop]; omega)]
  norm_num [List.drop_zero]

/-- `n_to_bits_pext` agrees with the scalar reference on alphabet input. -/
theorem n_to_bits_pext_eq (n : List Nat) (h : ∀ b ∈ n, isAlpha4 b) :
    n_to_bits_pext n = n_to_bits_lut n := by
  have h128 : ∀ b ∈ n, b < 128 := fun b hb => alpha4_lt (h b hb)
  rw [n_to_bits_lut_eq n h128, n_to_bits_pext]
  have hmain : ∀ i ∈ List.range (n.length >>> 5),
      pextBlock ((n.drop (32 * i)).take 32) = packWord 2 (((codes4 n).drop (32 * i)).take 32) := by
    intro i hi
    have hi' : i < n.length / 32 := by
      have := List.mem_range.mp hi
      rwa [shiftRight5] at this
    have hblen : ((n.drop (32 * i)).take 32).length = 32 := by
      rw [List.length_take, List.length_drop]
      omega
    rw [pextBlock_eq _ hblen (fun b hb => h b (List.mem_of_mem_drop (List.mem_of_mem_take hb)))]
    congr 1
    rw [codes4, codes4, List.map_take, List.map_drop]
  have hmapmain : (List.range (n.length >>> 5)).map (fun i => pextBlock ((n.drop (32 * i)).take 32))
      = (List.range (n.length / 32)).map
          (fun j => packWord 2 (((codes4 n).drop (32 * j)).take 32)) := by
    rw [shiftRight5] at hmain ⊢
    exact List.map_congr_left hmain
  by_cases h31 : n.length &&& 31 > 0
  · rw [if_pos h31]
    rw [and31] at h31
    have htail : n_to_bits_lut (n.drop (n.length >>> 5 <<< 5))
        = some (enc4words (n.drop (n.length >>> 5 <<< 5))) :=
      n_to_bits_lut_eq _ (fun b hb => alpha4_lt (h b (List.mem_of_mem_drop hb)))
    rw [htail]
    have hdlen : (n.drop (n.length >>> 5 <<< 5)).length = n.length % 32 := by
      rw [List.length_drop, shiftRight5, shiftLeft5]
      omega
    have htlen : (enc4words (n.drop (n.length >>> 5 <<< 5))).length = 1 := by
      rw [enc4words, List.length_map, List.length_range, hdlen]
      omega
    have h0 : (enc4words (n.drop (n.length >>> 5 <<< 5)))[0]?
        = some ((enc4words (n.drop (n.length >>> 5 <<< 5))).getD 0 0) := by
      rw [List.getElem?_eq_getElem (by omega), List.getD_eq_getElem _ _ (by omega)]
    simp only [Option.bind_eq_bind, Option.some_bind, h0, Option.pure_def]
    congr 1
    have hcount : (n.length + 31) / 32 = n.length / 32 + 1 := by omega
    have hlast : (enc4words (n.drop (n.length >>> 5 <<< 5))).getD 0 0
        = packWord 2 ((codes4 (n.drop (n.length >>> 5 <<< 5))).take 32) := by
      rw [enc4words, List.getD_eq_getElem _ _ (by rw [List.length_map, List.length_range, hdlen]; omega),
        List.getElem_map, List.getElem_range]
      norm_num
    have hdropc : codes4 (n.drop (n.length >>> 5 <<< 5)) = (codes4 n).drop (32 * (n.length / 32)) := by
      rw [codes4, codes4, List.map_drop, shiftRight5, shiftLeft5, Nat.mul_comm]
    rw [hlast, hdropc]
    conv_rhs => rw [enc4words, hcount, List.range_succ, List.map_append]
    rw [hmapmain, List.map_cons, List.map_nil]
  · rw [if_neg h31]
    rw [and31] at h31
    simp only [Option.pure_def]
    congr 1
    have hcount : (n.length + 31) / 32 = n.length / 32 := by omega
    rw [enc4words, hcount, hmapmain]

end NToBits


namespace NToBits

open Codec

/-- One 32-byte block of `n_to_bits_mul`: mask the two significant bits of
each ASCII byte, multiply each 32-bit group by the magic constant so the four
codes collect in its top byte, shuffle those bytes to the lane bottoms, and
combine the two lanes' low 32 bits. -/
def mulBlock (block : List Nat) : Nat :=
  let ascii_mask := mm256_set1_epi8 0b00000110
  let mul_mask := mm256_set1_epi32
    ((1 <<< (32 - 8 + 0 - 1)) ||| (1 <<< (32 - 16 + 2 - 1)) ||| (1 <<< (32 - 24 + 4 - 1)) |||
      (1 <<< (32 - 32 + 6 - 1)))
  let shuffle_mask := mm256_set_epi32 0xFFFFFFFF 0xFFFFFFFF 0xFFFFFFFF 0x0F0B0703
    0xFFFFFFFF 0xFFFFFFFF 0xFFFFFFFF 0x0F0B0703
  let v := vand block ascii_mask
  let v := mullo32 v mul_mask
  let arr := mm256_shuffle_epi8 v shuffle_mask
  u64At arr 0 ||| u64At arr 2 <<< 32

/-- `pub fn n_to_bits_mul`: full 32-byte blocks through `mulBlock`, the
leftover tail through `n_to_bits_lut`. -/
def n_to_bits_mul (n : List Nat) : Option (List Nat) :=
  let end_idx := n.length >>> 5
  let main := (List.range end_idx).map fun i => mulBlock ((n.drop (32 * i)).take 32)
  if n.length &&& 31 > 0 then do
    let tail ← n_to_bits_lut (n.drop (end_idx <<< 5))
    let w ← tail[0]?
    pure (main ++ [w])
  else pure main

theorem alpha4_and6 (b : Nat) (hb : isAlpha4 b) : b &&& 6 = 2 * byteLutEntry b := by
  unfold isAlpha4 at hb
  rcases hb with rfl | rfl | rfl | rfl | rfl | rfl | rfl | rfl <;> decide


theorem mulGroup_digit : ∀ x0 < 4, ∀ x1 < 4, ∀ x2 < 4, ∀ x3 < 4,
    (2 * x0 + 256 * (2 * x1) + 65536 * (2 * x2) + 16777216 * (2 * x3))
      * 8521760 % 4294967296 / 16777216 % 256 = x0 + 4 * x1 + 16 * x2 + 64 * x3 := by
  decide

set_option maxRecDepth 65536 in
theorem mulBlock_eq (block : List Nat) (hlen : block.length = 32)
    (h : ∀ b ∈ block, isAlpha4 b) :
    mulBlock block = packWord 2 (codes4 block) := by
  rcases block with _ | ⟨b0, block⟩
  · simp at hlen
  rcases block with _ | ⟨b1, block⟩
  · simp at hlen
  rcases block with _ | ⟨b2, block⟩
  · simp at hlen
  rcases block with _ | ⟨b3, block⟩
  · simp at hlen
  rcases block with _ | ⟨b4, block⟩
  · simp at hlen
  rcases block with _ | ⟨b5, block⟩
  · simp at hlen
  rcases block with _ | ⟨b6, block⟩
  · simp at hlen
  rcases block with _ | ⟨b7, block⟩
  · simp at hlen
  rcases block with _ | ⟨b8, block⟩
  · simp at hlen
  rcases block with _ | ⟨b9, block⟩
  · simp at hlen
  rcases block with _ | ⟨b10, block⟩
  · simp at hlen
  rcases block with _ | ⟨b11, block⟩
  · simp at hlen
  rcases block with _ | ⟨b12, block⟩
  · simp at hlen
  rcases block with _ | ⟨b13, block⟩
  · simp at hlen
  rcases block with _ | ⟨b14, block⟩
  · simp at hlen
  rcases block with _ | ⟨b15, block⟩
  · simp at hlen
  rcases block with _ | ⟨b16, block⟩
  · simp at hlen
  rcases block with _ | ⟨b17, block⟩
  · simp at hlen
  rcases block with _ | ⟨b18, block⟩
  · simp at hlen
  rcases block with _ | ⟨b19, block⟩
  · simp at hlen
  rcases block with _ | ⟨b20, block⟩
  · simp at hlen
  rcases block with _ | ⟨b21, block⟩
  · simp at hlen
  rcases block with _ | ⟨b22, block⟩
  · simp at hlen
  rcases block with _ | ⟨b23, block⟩
  · simp at hlen
  rcases block with _ | ⟨b24, block⟩
  · simp at hlen
  rcases block with _ | ⟨b25, block⟩
  · simp at hlen
  rcases block with _ | ⟨b26, block⟩
  · simp at hlen
  rcases block with _ | ⟨b27, block⟩
  · simp at hlen
  rcases block with _ | ⟨b28, block⟩
  · simp at hlen
  rcases block with _ | ⟨b29, block⟩
  · simp at hlen
  rcases block with _ | ⟨b30, block⟩
  · simp at hlen
  rcases block with _ | ⟨b31, block⟩
  · simp at hlen
  rcases block with _ | ⟨b32, block⟩
  swap
  · simp at hlen
  have h0 : isAlpha4 b0 := h b0 (by simp)
  have h1 : isAlpha4 b1 := h b1 (by simp)
  have h2 : isAlpha4 b2 := h b2 (by simp)
  have h3 : isAlpha4 b3 := h b3 (by simp)
  have h4 : isAlpha4 b4 := h b4 (by simp)
  have h5 : isAlpha4 b5 := h b5 (by simp)
  have h6 : isAlpha4 b6 := h b6 (by simp)
  have h7 : isAlpha4 b7 := h b7 (by simp)
  have h8 : isAlpha4 b8 := h b8 (by simp)
  have h9 : isAlpha4 b9 := h b9 (by simp)
  have h10 : isAlpha4 b10 := h b10 (by simp)
  have h11 : isAlpha4 b11 := h b11 (by simp)
  have h12 : isAlpha4 b12 := h b12 (by simp)
  have h13 : isAlpha4 b13 := h b13 (by simp)
  have h14 : isAlpha4 b14 := h b14 (by simp)
  have h15 : isAlpha4 b15 := h b15 (by simp)
  have h16 : isAlpha4 b16 := h b16 (by simp)
  have h17 : isAlpha4 b17 := h b17 (by simp)
  have h18 : isAlpha4 b18 := h b18 (by simp)
  have h19 : isAlpha4 b19 := h b19 (by simp)
  have h20 : isAlpha4 b20 := h b20 (by simp)
  have h21 : isAlpha4 b21 := h b21 (by simp)
  have h22 : isAlpha4 b22 := h b22 (by simp)
  have h23 : isAlpha4 b23 := h b23 (by simp)
  have h24 : isAlpha4 b24 := h b24 (by simp)
  have h25 : isAlpha4 b25 := h b25 (by simp)
  have h26 : isAlpha4 b26 := h b26 (by simp)
  have h27 : isAlpha4 b27 := h b27 (by simp)
  have h28 : isAlpha4 b28 := h b28 (by simp)
  have h29 : isAlpha4 b29 := h b29 (by simp)
  have h30 : isAlpha4 b30 := h b30 (by simp)
  have h31 : isAlpha4 b31 := h b31 (by simp)
  have he0 : byteLutEntry b0 < 4 := byteLutEntry_lt b0
  have he1 : byteLutEntry b1 < 4 := byteLutEntry_lt b1
  have he2 : byteLutEntry b2 < 4 := byteLutEntry_lt b2
  have he3 : byteLutEntry b3 < 4 := byteLutEntry_lt b3
  have he4 : byteLutEntry b4 < 4 := byteLutEntry_lt b4
  have he5 : byteLutEntry b5 < 4 := byteLutEntry_lt b5
  have he6 : byteLutEntry b6 < 4 := byteLutEntry_lt b6
  have he7 : byteLutEntry b7 < 4 := byteLutEntry_lt b7
  have he8 : byteLutEntry b8 < 4 := byteLutEntry_lt b8
  have he9 : byteLutEntry b9 < 4 := byteLutEntry_lt b9
  have he10 : byteLutEntry b10 < 4 := byteLutEntry_lt b10
  have he11 : byteLutEntry b11 < 4 := byteLutEntry_lt b11
  have he12 : byteLutEntry b12 < 4 := byteLutEntry_lt b12
  have he13 : byteLutEntry b13 < 4 := byteLutEntry_lt b13
  have he14 : byteLutEntry b14 < 4 := byteLutEntry_lt b14
  have he15 : byteLutEntry b15 < 4 := byteLutEntry_lt b15
  have he16 : byteLutEntry b16 < 4 := byteLutEntry_lt b16
  have he17 : byteLutEntry b17 < 4 := byteLutEntry_lt b17
  have he18 : byteLutEntry b18 < 4 := byteLutEntry_lt b18
  have he19 : byteLutEntry b19 < 4 := byteLutEntry_lt b19
  have he20 : byteLutEntry b20 < 4 := byteLutEntry_lt b20
  have he21 : byteLutEntry b21 < 4 := byteLutEntry_lt b21
  have he22 : byteLutEntry b22 < 4 := byteLutEntry_lt b22
  have he23 : byteLutEntry b23 < 4 := byteLutEntry_lt b23
  have he24 : byteLutEntry b24 < 4 := byteLutEntry_lt b24
  have he25 : byteLutEntry b25 < 4 := byteLutEntry_lt b25
  have he26 : byteLutEntry b26 < 4 := byteLutEntry_lt b26
  have he27 : byteLutEntry b27 < 4 := byteLutEntry_lt b27
  have he28 : byteLutEntry b28 < 4 := byteLutEntry_lt b28
  have he29 : byteLutEntry b29 < 4 := byteLutEntry_lt b29
  have he30 : byteLutEntry b30 < 4 := byteLutEntry_lt b30
  have he31 : byteLutEntry b31 < 4 := byteLutEntry_lt b31
  have hblock : mulBlock [b0, b1, b2, b3, b4, b5, b6, b7, b8, b9, b10, b11, b12, b13, b14, b15, b16, b17, b18, b19, b20, b21, b22, b23, b24, b25, b26, b27, b28, b29, b30, b31]
      = packWord 8 [((b0 &&& 6) + 256 * (b1 &&& 6) + 65536 * (b2 &&& 6) + 16777216 * (b3 &&& 6)) * 8521760 % 4294967296 / 16777216 % 256, ((b4 &&& 6) + 256 * (b5 &&& 6) + 65536 * (b6 &&& 6) + 16777216 * (b7 &&& 6)) * 8521760 % 4294967296 / 16777216 % 256, ((b8 &&& 6) + 256 * (b9 &&& 6) + 65536 * (b10 &&& 6) + 16777216 * (b11 &&& 6)) * 8521760 % 4294967296 / 16777216 % 256, ((b12 &&& 6) + 256 * (b13 &&& 6) + 65536 * (b14 &&& 6) + 16777216 * (b15 &&& 6)) * 8521760 % 4294967296 / 16777216 % 256, 0, 0, 0, 0] |||
        packWord 8 [((b16 &&& 6) + 256 * (b17 &&& 6) + 65536 * (b18 &&& 6) + 16777216 * (b19 &&& 6)) * 8521760 % 4294967296 / 16777216 % 256, ((b20 &&& 6) + 256 * (b21 &&& 6) + 65536 * (b22 &&& 6) + 16777216 * (b23 &&& 6)) * 8521760 % 4294967296 / 16777216 % 256, ((b24 &&& 6) + 256 * (b25 &&& 6) + 65536 * (b26 &&& 6) + 16777216 * (b27 &&& 6)) * 8521760 % 4294967296 / 16777216 % 256, ((b28 &&& 6) + 256 * (b29 &&& 6) + 65536 * (b30 &&& 6) + 16777216 * (b31 &&& 6)) * 8521760 % 4294967296 / 16777216 % 256, 0, 0, 0, 0] <<< 32 := rfl
  have hcodes : codes4 [b0, b1, b2, b3, b4, b5, b6, b7, b8, b9, b10, b11, b12, b13, b14, b15, b16, b17, b18, b19, b20, b21, b22, b23, b24, b25, b26, b27, b28, b29, b30, b31] = [byteLutEntry b0, byteLutEntry b1, byteLutEntry b2, byteLutEntry b3, byteLutEntry b4, byteLutEntry b5, byteLutEntry b6, byteLutEntry b7, byteLutEntry b8, byteLutEntry b9, byteLutEntry b10, byteLutEntry b11, byteLutEntry b12, byteLutEntry b13, byteLutEntry b14, byteLutEntry b15, byteLutEntry b16, byteLutEntry b17, byteLutEntry b18, byteLutEntry b19, byteLutEntry b20, byteLutEntry b21, byteLutEntry b22, byteLutEntry b23, byteLutEntry b24, byteLutEntry b25, byteLutEntry b26, byteLutEntry b27, byteLutEntry b28, byteLutEntry b29, byteLutEntry b30, byteLutEntry b31] := rfl
  rw [hblock, hcodes]
  rw [alpha4_and6 b0 h0, alpha4_and6 b1 h1, alpha4_and6 b2 h2, alpha4_and6 b3 h3, alpha4_and6 b4 h4, alpha4_and6 b5 h5, alpha4_and6 b6 h6, alpha4_and6 b7 h7, alpha4_and6 b8 h8, alpha4_and6 b9 h9, alpha4_and6 b10 h10, alpha4_and6 b11 h11, alpha4_and6 b12 h12, alpha4_and6 b13 h13, alpha4_and6 b14 h14, alpha4_and6 b15 h15, alpha4_and6 b16 h16, alpha4_and6 b17 h17, alpha4_and6 b18 h18, alpha4_and6 b19 h19, alpha4_and6 b20 h20, alpha4_and6 b21 h21, alpha4_and6 b22 h22, alpha4_and6 b23 h23, alpha4_and6 b24 h24, alpha4_and6 b25 h25, alpha4_and6 b26 h26, alpha4_and6 b27 h27, alpha4_and6 b28 h28, alpha4_and6 b29 h29, alpha4_and6 b30 h30, alpha4_and6 b31 h31]
  have d0 : (2 * byteLutEntry b0 + 256 * (2 * byteLutEntry b1) + 65536 * (2 * byteLutEntry b2) + 16777216 * (2 * byteLutEntry b3)) * 8521760 % 4294967296 / 16777216 % 256 = byteLutEntry b0 + 4 * byteLutEntry b1 + 16 * byteLutEntry b2 + 64 * byteLutEntry b3 := mulGroup_digit _ he0 _ he1 _ he2 _ he3
  have d1 : (2 * byteLutEntry b4 + 256 * (2 * byteLutEntry b5) + 65536 * (2 * byteLutEntry b6) + 16777216 * (2 * byteLutEntry b7)) * 8521760 % 4294967296 / 16777216 % 256 = byteLutEntry b4 + 4 * byteLutEntry b5 + 16 * byteLutEntry b6 + 64 * byteLutEntry b7 := mulGroup_digit _ he4 _ he5 _ he6 _ he7
  have d2 : (2 * byteLutEntry b8 + 256 * (2 * byteLutEntry b9) + 65536 * (2 * byteLutEntry b10) + 16777216 * (2 * byteLutEntry b11)) * 8521760 % 4294967296 / 16777216 % 256 = byteLutEntry b8 + 4 * byteLutEntry b9 + 16 * byteLutEntry b10 + 64 * byteLutEntry b11 := mulGroup_digit _ he8 _ he9 _ he10 _ he11
  have d3 : (2 * byteLutEntry b12 + 256 * (2 * byteLutEntry b13) + 65536 * (2 * byteLutEntry b14) + 16777216 * (2 * byteLutEntry b15)) * 8521760 % 4294967296 / 16777216 % 256 = byteLutEntry b12 + 4 * byteLutEntry b13 + 16 * byteLutEntry b14 + 64 * byteLutEntry b15 := mulGroup_digit _ he12 _ he13 _ he14 _ he15
  have d4 : (2 * byteLutEntry b16 + 256 * (2 * byteLutEntry b17) + 65536 * (2 * byteLutEntry b18) + 16777216 * (2 * byteLutEntry b19)) * 8521760 % 4294967296 / 16777216 % 256 = byteLutEntry b16 + 4 * byteLutEntry b17 + 16 * byteLutEntry b18 + 64 * byteLutEntry b19 := mulGroup_digit _ he16 _ he17 _ he18 _ he19
  have d5 : (2 * byteLutEntry b20 + 256 * (2 * byteLutEntry b21) + 65536 * (2 * byteLutEntry b22) + 16777216 * (2 * byteLutEntry b23)) * 8521760 % 4294967296 / 16777216 % 256 = byteLutEntry b20 + 4 * byteLutEntry b21 + 16 * byteLutEntry b22 + 64 * byteLutEntry b23 := mulGroup_digit _ he20 _ he21 _ he22 _ he23
  have d6 : (2 * byteLutEntry b24 + 256 * (2 * byteLutEntry b25) + 65536 * (2 * byteLutEntry b26) + 16777216 * (2 * byteLutEntry b27)) * 8521760 % 4294967296 / 16777216 % 256 = byteLutEntry b24 + 4 * byteLutEntry b25 + 16 * byteLutEntry b26 + 64 * byteLutEntry b27 := mulGroup_digit _ he24 _ he25 _ he26 _ he27
  have d7 : (2 * byteLutEntry b28 + 256 * (2 * byteLutEntry b29) + 65536 * (2 * byteLutEntry b30) + 16777216 * (2 * byteLutEntry b31)) * 8521760 % 4294967296 / 16777216 % 256 = byteLutEntry b28 + 4 * byteLutEntry b29 + 16 * byteLutEntry b30 + 64 * byteLutEntry b31 := mulGroup_digit _ he28 _ he29 _ he30 _ he31
  rw [d0, d1, d2, d3, d4, d5, d6, d7]
  have hA : packWord 8 [byteLutEntry b0 + 4 * byteLutEntry b1 + 16 * byteLutEntry b2 + 64 * byteLutEntry b3, byteLutEntry b4 + 4 * byteLutEntry b5 + 16 * byteLutEntry b6 + 64 * byteLutEntry b7, byteLutEntry b8 + 4 * byteLutEntry b9 + 16 * byteLutEntry b10 + 64 * byteLutEntry b11, byteLutEntry b12 + 4 * byteLutEntry b13 + 16 * byteLutEntry b14 + 64 * byteLutEntry b15, 0, 0, 0, 0] < 2 ^ 32 := by
    simp only [packWord]
    have hp : (2:Nat) ^ 8 = 256 := by norm_num
    rw [hp]
    omega
  rw [Nat.shiftLeft_eq, lor_of_lt _ 32 hA]
  simp only [packWord]
  ring

/-- `n_to_bits_mul` agrees with `n_to_bits_lut` on any byte string drawn from
the recognized alphabet. -/
theorem n_to_bits_mul_eq (n : List Nat) (h : ∀ b ∈ n, isAlpha4 b) :
    n_to_bits_mul n = n_to_bits_lut n := by
  have h128 : ∀ b ∈ n, b < 128 := fun b hb => alpha4_lt (h b hb)
  rw [n_to_bits_lut_eq n h128, n_to_bits_mul]
  have hmain : ∀ i ∈ List.range (n.length >>> 5),
      mulBlock ((n.drop (32 * i)).take 32) = packWord 2 (((codes4 n).drop (32 * i)).take 32) := by
    intro i hi
    have hi' : i < n.length / 32 := by
      have := List.mem_range.mp hi
      rwa [shiftRight5] at this
    have hblen : ((n.drop (32 * i)).take 32).length = 32 := by
      rw [List.length_take, List.length_drop]
      omega
    rw [mulBlock_eq _ hblen (fun b hb => h b (List.mem_of_mem_drop (List.mem_of_mem_take hb)))]
    congr 1
    rw [codes4, codes4, List.map_take, List.map_drop]
  have hmapmain : (List.range (n.length >>> 5)).map (fun i => mulBlock ((n.drop (32 * i)).take 32))
      = (List.range (n.length / 32)).map
          (fun j => packWord 2 (((codes4 n).drop (32 * j)).take 32)) := by
    rw [shiftRight5] at hmain ⊢
    exact List.map_congr_left hmain
  by_cases h31 : n.length &&& 31 > 0
  · rw [if_pos h31]
    rw [and31] at h31
    have htail : n_to_bits_lut (n.drop (n.length >>> 5 <<< 5))
        = some (enc4words (n.drop (n.length >>> 5 <<< 5))) :=
      n_to_bits_lut_eq _ (fun b hb => alpha4_lt (h b (List.mem_of_mem_drop hb)))
    rw [htail]
    have hdlen : (n.drop (n.length >>> 5 <<< 5)).length = n.length % 32 := by
      rw [List.length_drop, shiftRight5, shiftLeft5]
      omega
    have htlen : (enc4words (n.drop (n.length >>> 5 <<< 5))).length = 1 := by
      rw [enc4words, List.length_map, List.length_range, hdlen]
      omega
    have h0 : (enc4words (n.drop (n.length >>> 5 <<< 5)))[0]?
        = some ((enc4words (n.drop (n.length >>> 5 <<< 5))).getD 0 0) := by
      rw [List.getElem?_eq_getElem (by omega), List.getD_eq_getElem _ _ (by omega)]
    simp only [Option.bind_eq_bind, Option.some_bind, h0, Option.pure_def]
    congr 1
    have hcount : (n.length + 31) / 32 = n.length / 32 + 1 := by omega
    have hlast : (enc4words (n.drop (n.length >>> 5 <<< 5))).getD 0 0
        = packWord 2 ((codes4 (n.drop (n.length >>> 5 <<< 5))).take 32) := by
      rw [enc4words, List.getD_eq_getElem _ _ (by rw [List.length_map, List.length_range, hdlen]; omega),
        List.getElem_map, List.getElem_range]
      norm_num
    have hdropc : codes4 (n.drop (n.length >>> 5 <<< 5)) = (codes4 n).drop (32 * (n.length / 32)) := by
      rw [codes4, codes4, List.map_drop, shiftRight5, shiftLeft5, Nat.mul_comm]
    rw [hlast, hdropc]
    conv_rhs => rw [enc4words, hcount, List.range_succ, List.map_append]
    rw [hmapmain, List.map_cons, List.map_nil]
  · rw [if_neg h31]
    rw [and31] at h31
    simp only [Option.pure_def]
    congr 1
    have hcount : (n.length + 31) / 32 = n.length / 32 := by omega
    rw [enc4words, hcount, hmapmain]

end NToBits
namespace Codec

theorem flattenBlocks_length (bs : List (List Nat)) (k : Nat)
    (h : ∀ b ∈ bs, b.length = k) : bs.flatten.length = k * bs.length := by
  induction bs with
  | nil => simp
  | cons b bs ih =>
    rw [List.flatten_cons, List.length_append, h b (by simp),
      ih (fun b hb => h b (by simp [hb])), List.length_cons]
    ring

theorem flattenBlocks_getD (bs : List (List Nat)) (k : Nat) (hk : 0 < k)
    (h : ∀ b ∈ bs, b.length = k) (p : Nat) :
    bs.flatten.getD p 0 = (bs.getD (p / k) []).getD (p % k) 0 := by
  induction bs generalizing p with
  | nil => simp [List.getD]
  | cons b bs ih =>
    rw [List.flatten_cons]
    by_cases hp : p < k
    · have hb : b.length = k := h b (by simp)
      rw [List.getD_append _ _ _ _ (by omega), Nat.div_eq_of_lt hp,
        Nat.mod_eq_of_lt hp]
      rfl
    · have hb : b.length = k := h b (by simp)
      rw [List.getD_append_right _ _ _ _ (by omega)]
      have hdiv : p / k = (p - b.length) / k + 1 := by
        rw [hb, Nat.div_eq_sub_div hk (by omega)]
      have hmod : p % k = (p - b.length) % k := by
        rw [hb, Nat.mod_eq_sub_mod (by omega)]
      rw [hdiv, hmod, ih (fun b hb => h b (by simp [hb]))]
      rfl

end Codec

namespace NToBits

open Codec

/-- One 32-byte output block of `bits_to_n_shuffle`: broadcast the word,
duplicate each byte four times, shift alternating 16-bit lanes right by 4,
mask two code bits per byte and look the codes up in the ASCII table. -/
def shuffleBlock (w : Nat) : List Nat :=
  let shuffle_mask := mm256_set_epi32 0x07070707 0x06060606 0x05050505 0x04040404
    0x03030303 0x02020202 0x01010101 0x00000000
  let lo_mask := mm256_set1_epi16 0b0000110000000011
  let lut_i32 := 65 ||| (67 <<< 8) ||| (84 <<< 16) ||| (71 <<< 24)
  let lut := mm256_set_epi32 71 84 67 lut_i32 71 84 67 lut_i32
  let v := mm256_set1_epi64x w
  let v1 := mm256_shuffle_epi8 v shuffle_mask
  let v2 := srli16 v1 4
  let v := blend16 v1 v2 0b10101010
  let v := vand v lo_mask
  mm256_shuffle_epi8 lut v

/-- `pub fn bits_to_n_shuffle`: panics (modelled `none`) when
`len > bits.len() << 5`; otherwise writes one 32-byte block per word and
returns the first `len` bytes. -/
def bits_to_n_shuffle (bits : List Nat) (len : Nat) : Option (List Nat) :=
  if len > bits.length <<< 5 then none
  else some (((bits.map shuffleBlock).flatten).take len)

/-- The capacity argument of `Vec::from_raw_parts` in `bits_to_n_shuffle`. -/
def bits_to_n_shuffle_cap (bits : List Nat) (len : Nat) : Nat := bits.length <<< 5

/-- One 32-byte output block of `bits_to_n_pdep`: four `_pdep_u64` scatters
with mask `0x0303030303030303`, then a byte-table lookup. -/
def pdepBlock (w : Nat) : List Nat :=
  let lut_i32 := 65 ||| (67 <<< 8) ||| (84 <<< 16) ||| (71 <<< 24)
  let lut := mm256_set_epi32 0 0 0 lut_i32 0 0 0 lut_i32
  let a := pdep w 0x0303030303030303
  let b := pdep (w >>> 16) 0x0303030303030303
  let c := pdep (w >>> 32) 0x0303030303030303
  let d := pdep (w >>> 48) 0x0303030303030303
  let v := mm256_set_epi64x d c b a
  mm256_shuffle_epi8 lut v

/-- `pub fn bits_to_n_pdep`. -/
def bits_to_n_pdep (bits : List Nat) (len : Nat) : Option (List Nat) :=
  if len > bits.length <<< 5 then none
  else some (((bits.map pdepBlock).flatten).take len)

/-- The capacity argument of `Vec::from_raw_parts` in `bits_to_n_pdep`. -/
def bits_to_n_pdep_cap (bits : List Nat) (len : Nat) : Nat := bits.length <<< 5

/-- One 32-byte output block of `bits_to_n_clmul` (two 16-byte stores):
spread the word's bytes to 32-bit chunks, shift the codes into place with two
carry-less multiplies per half, mask two bits per byte and look up bytes. -/
def clmulBlock (w : Nat) : List Nat :=
  let lo_shuffle_mask := mm_set_epi32 0xFFFFFF03 0xFFFFFF02 0xFFFFFF01 0xFFFFFF00
  let hi_shuffle_mask := mm_set_epi32 0xFFFFFF07 0xFFFFFF06 0xFFFFFF05 0xFFFFFF04
  let mul_mask := mm_set_epi64x 0 ((1 <<< (0 - 0)) ||| (1 <<< (8 - 2)) ||| (1 <<< (16 - 4)) |||
    (1 <<< (24 - 6)))
  let lo_mask := mm_set1_epi8 0b00000011
  let lut_i32 := 65 ||| (67 <<< 8) ||| (84 <<< 16) ||| (71 <<< 24)
  let lut := mm_set1_epi32 lut_i32
  let v := mm_set1_epi64x w
  let lo_v := pshufb v lo_shuffle_mask
  let hi_v := pshufb v hi_shuffle_mask
  let lo_v1 := mm_clmul lo_v mul_mask 0x00
  let lo_v2 := mm_clmul lo_v mul_mask 0x0F
  let hi_v1 := mm_clmul hi_v mul_mask 0x00
  let hi_v2 := mm_clmul hi_v mul_mask 0x0F
  let lo_v := mm_movelh lo_v1 lo_v2
  let hi_v := mm_movelh hi_v1 hi_v2
  let lo_v := vand lo_v lo_mask
  let hi_v := vand hi_v lo_mask
  pshufb lut lo_v ++ pshufb lut hi_v

/-- `pub fn bits_to_n_clmul`. -/
def bits_to_n_clmul (bits : List Nat) (len : Nat) : Option (List Nat) :=
  if len > bits.length <<< 5 then none
  else some (((bits.map clmulBlock).flatten).take len)

/-- The capacity argument of `Vec::from_raw_parts` in `bits_to_n_clmul`. -/
def bits_to_n_clmul_cap (bits : List Nat) (len : Nat) : Nat := bits.length <<< 5

end NToBits

namespace Codec

/-- Byte `g` (little-endian) of an integer. -/
def byteAt (x g : Nat) : Nat := x / 2 ^ (8 * g) % 256

theorem byteAt_lt (x g : Nat) : byteAt x g < 256 := Nat.mod_lt _ (by norm_num)

theorem byteAt_digit (x g s e : Nat) (hs : s < 4) (he : 4 * g + s = e) :
    byteAt x g / 4 ^ s % 4 = x / 4 ^ e % 4 := by
  subst he
  rw [byteAt]
  have h1 : (4:Nat) ^ (4 * g) = 2 ^ (8 * g) := by
    have h2 : (2:Nat) ^ (8 * g) = (2 ^ 2) ^ (4 * g) := by
      rw [← pow_mul]
      congr 1
      ring
    rw [h2]
    norm_num
  rcases (by omega : s = 0 ∨ s = 1 ∨ s = 2 ∨ s = 3) with rfl | rfl | rfl | rfl
  · rw [pow_zero, Nat.div_one,
      Nat.mod_mod_of_dvd _ (by norm_num : (4:Nat) ∣ 256), Nat.add_zero, ← h1]
  · rw [show (256:Nat) = 4 ^ 1 * 64 from by norm_num, Nat.mod_mul_right_div_self,
      Nat.mod_mod_of_dvd _ (by norm_num : (4:Nat) ∣ 64), Nat.div_div_eq_div_mul,
      pow_add, h1]
  · rw [show (256:Nat) = 4 ^ 2 * 16 from by norm_num, Nat.mod_mul_right_div_self,
      Nat.mod_mod_of_dvd _ (by norm_num : (4:Nat) ∣ 16), Nat.div_div_eq_div_mul,
      pow_add, h1]
  · rw [show (256:Nat) = 4 ^ 3 * 4 from by norm_num, Nat.mod_mul_right_div_self,
      Nat.mod_mod_of_dvd _ (by norm_num : (4:Nat) ∣ 4), Nat.div_div_eq_div_mul,
      pow_add, h1]

theorem getD_take (l : List Nat) (n j : Nat) (hj : j < n) :
    (l.take n).getD j 0 = l.getD j 0 := by
  by_cases hl : j < l.length
  · have ht : j < (l.take n).length := by
      rw [List.length_take]
      omega
    rw [List.getD_eq_getElem _ _ ht, List.getElem_take, List.getD_eq_getElem _ _ hl]
  · have h1 : (l.take n).length ≤ j := by
      rw [List.length_take]
      omega
    have e1 : (l.take n).getD j 0 = 0 := List.getD_eq_default _ _ h1
    have e2 : l.getD j 0 = 0 := List.getD_eq_default _ _ (by omega)
    rw [e1, e2]

end Codec

namespace NToBits

open Codec

/-- One byte of the decode lookup table held by the `lut` vector of
`bits_to_n_shuffle`, indexed by a masked code byte. -/
def lutByte4 (e : Nat) : Nat :=
  if 128 ≤ e % 256 then 0
  else [65, 67, 84, 71, 67, 0, 0, 0, 84, 0, 0, 0, 71, 0, 0, 0].getD (e % 16) 0

theorem lutByte4_shape0 : ∀ B < 256,
    lutByte4 ((B + 256 * B) % 256 &&& 3) = BITS_LUT.getD (B / 4 ^ 0 % 4) 0 := by
  decide

theorem lutByte4_shape1 : ∀ B < 256,
    lutByte4 ((B + 256 * B) / 256 % 256 &&& 12) = BITS_LUT.getD (B / 4 ^ 1 % 4) 0 := by
  decide

theorem lutByte4_shape2 : ∀ B < 256,
    lutByte4 (((B + 256 * B) / 2 ^ 4 % 256 + 256 * ((B + 256 * B) / 2 ^ 4 / 256 % 256)) % 256
      &&& 3) = BITS_LUT.getD (B / 4 ^ 2 % 4) 0 := by
  decide

theorem lutByte4_shape3 : ∀ B < 256,
    lutByte4 (((B + 256 * B) / 2 ^ 4 % 256 + 256 * ((B + 256 * B) / 2 ^ 4 / 256 % 256)) / 256
      % 256 &&& 12) = BITS_LUT.getD (B / 4 ^ 3 % 4) 0 := by
  decide

set_option maxHeartbeats 2000000 in
/-- Each 32-byte block written by `bits_to_n_shuffle` decodes its word's
2-bit fields through the ASCII table. -/
theorem shuffleBlock_eq (w : Nat) (hw : w < 2 ^ 64) :
    shuffleBlock w = (List.range 32).map fun r => BITS_LUT.getD (w / 4 ^ r % 4) 0 := by
  have hmod : w % 2 ^ 64 = w := Nat.mod_eq_of_lt hw
  have hb : shuffleBlock w = [lutByte4 ((byteAt (w % 2 ^ 64) 0 + 256 * byteAt (w % 2 ^ 64) 0) % 256 &&& 3), lutByte4 ((byteAt (w % 2 ^ 64) 0 + 256 * byteAt (w % 2 ^ 64) 0) / 256 % 256 &&& 12), lutByte4 (((byteAt (w % 2 ^ 64) 0 + 256 * byteAt (w % 2 ^ 64) 0) / 2 ^ 4 % 256 + 256 * ((byteAt (w % 2 ^ 64) 0 + 256 * byteAt (w % 2 ^ 64) 0) / 2 ^ 4 / 256 % 256)) % 256 &&& 3), lutByte4 (((byteAt (w % 2 ^ 64) 0 + 256 * byteAt (w % 2 ^ 64) 0) / 2 ^ 4 % 256 + 256 * ((byteAt (w % 2 ^ 64) 0 + 256 * byteAt (w % 2 ^ 64) 0) / 2 ^ 4 / 256 % 256)) / 256 % 256 &&& 12), lutByte4 ((byteAt (w % 2 ^ 64) 1 + 256 * byteAt (w % 2 ^ 64) 1) % 256 &&& 3), lutByte4 ((byteAt (w % 2 ^ 64) 1 + 256 * byteAt (w % 2 ^ 64) 1) / 256 % 256 &&& 12), lutByte4 (((byteAt (w % 2 ^ 64) 1 + 256 * byteAt (w % 2 ^ 64) 1) / 2 ^ 4 % 256 + 256 * ((byteAt (w % 2 ^ 64) 1 + 256 * byteAt (w % 2 ^ 64) 1) / 2 ^ 4 / 256 % 256)) % 256 &&& 3), lutByte4 (((byteAt (w % 2 ^ 64) 1 + 256 * byteAt (w % 2 ^ 64) 1) / 2 ^ 4 % 256 + 256 * ((byteAt (w % 2 ^ 64) 1 + 256 * byteAt (w % 2 ^ 64) 1) / 2 ^ 4 / 256 % 256)) / 256 % 256 &&& 12), lutByte4 ((byteAt (w % 2 ^ 64) 2 + 256 * byteAt (w % 2 ^ 64) 2) % 256 &&& 3), lutByte4 ((byteAt (w % 2 ^ 64) 2 + 256 * byteAt (w % 2 ^ 64) 2) / 256 % 256 &&& 12), lutByte4 (((byteAt (w % 2 ^ 64) 2 + 256 * byteAt (w % 2 ^ 64) 2) / 2 ^ 4 % 256 + 256 * ((byteAt (w % 2 ^ 64) 2 + 256 * byteAt (w % 2 ^ 64) 2) / 2 ^ 4 / 256 % 256)) % 256 &&& 3), lutByte4 (((byteAt (w % 2 ^ 64) 2 + 256 * byteAt (w % 2 ^ 64) 2) / 2 ^ 4 % 256 + 256 * ((byteAt (w % 2 ^ 64) 2 + 256 * byteAt (w % 2 ^ 64) 2) / 2 ^ 4 / 256 % 256)) / 256 % 256 &&& 12), lutByte4 ((byteAt (w % 2 ^ 64) 3 + 256 * byteAt (w % 2 ^ 64) 3) % 256 &&& 3), lutByte4 ((byteAt (w % 2 ^ 64) 3 + 256 * byteAt (w % 2 ^ 64) 3) / 256 % 256 &&& 12), lutByte4 (((byteAt (w % 2 ^ 64) 3 + 256 * byteAt (w % 2 ^ 64) 3) / 2 ^ 4 % 256 + 256 * ((byteAt (w % 2 ^ 64) 3 + 256 * byteAt (w % 2 ^ 64) 3) / 2 ^ 4 / 256 % 256)) % 256 &&& 3), lutByte4 (((byteAt (w % 2 ^ 64) 3 + 256 * byteAt (w % 2 ^ 64) 3) / 2 ^ 4 % 256 + 256 * ((byteAt (w % 2 ^ 64) 3 + 256 * byteAt (w % 2 ^ 64) 3) / 2 ^ 4 / 256 % 256)) / 256 % 256 &&& 12), lutByte4 ((byteAt (w % 2 ^ 64) 4 + 256 * byteAt (w % 2 ^ 64) 4) % 256 &&& 3), lutByte4 ((byteAt (w % 2 ^ 64) 4 + 256 * byteAt (w % 2 ^ 64) 4) / 256 % 256 &&& 12), lutByte4 (((byteAt (w % 2 ^ 64) 4 + 256 * byteAt (w % 2 ^ 64) 4) / 2 ^ 4 % 256 + 256 * ((byteAt (w % 2 ^ 64) 4 + 256 * byteAt (w % 2 ^ 64) 4) / 2 ^ 4 / 256 % 256)) % 256 &&& 3), lutByte4 (((byteAt (w % 2 ^ 64) 4 + 256 * byteAt (w % 2 ^ 64) 4) / 2 ^ 4 % 256 + 256 * ((byteAt (w % 2 ^ 64) 4 + 256 * byteAt (w % 2 ^ 64) 4) / 2 ^ 4 / 256 % 256)) / 256 % 256 &&& 12), lutByte4 ((byteAt (w % 2 ^ 64) 5 + 256 * byteAt (w % 2 ^ 64) 5) % 256 &&& 3), lutByte4 ((byteAt (w % 2 ^ 64) 5 + 256 * byteAt (w % 2 ^ 64) 5) / 256 % 256 &&& 12), lutByte4 (((byteAt (w % 2 ^ 64) 5 + 256 * byteAt (w % 2 ^ 64) 5) / 2 ^ 4 % 256 + 256 * ((byteAt (w % 2 ^ 64) 5 + 256 * byteAt (w % 2 ^ 64) 5) / 2 ^ 4 / 256 % 256)) % 256 &&& 3), lutByte4 (((byteAt (w % 2 ^ 64) 5 + 256 * byteAt (w % 2 ^ 64) 5) / 2 ^ 4 % 256 + 256 * ((byteAt (w % 2 ^ 64) 5 + 256 * byteAt (w % 2 ^ 64) 5) / 2 ^ 4 / 256 % 256)) / 256 % 256 &&& 12), lutByte4 ((byteAt (w % 2 ^ 64) 6 + 256 * byteAt (w % 2 ^ 64) 6) % 256 &&& 3), lutByte4 ((byteAt (w % 2 ^ 64) 6 + 256 * byteAt (w % 2 ^ 64) 6) / 256 % 256 &&& 12), lutByte4 (((byteAt (w % 2 ^ 64) 6 + 256 * byteAt (w % 2 ^ 64) 6) / 2 ^ 4 % 256 + 256 * ((byteAt (w % 2 ^ 64) 6 + 256 * byteAt (w % 2 ^ 64) 6) / 2 ^ 4 / 256 % 256)) % 256 &&& 3), lutByte4 (((byteAt (w % 2 ^ 64) 6 + 256 * byteAt (w % 2 ^ 64) 6) / 2 ^ 4 % 256 + 256 * ((byteAt (w % 2 ^ 64) 6 + 256 * byteAt (w % 2 ^ 64) 6) / 2 ^ 4 / 256 % 256)) / 256 % 256 &&& 12), lutByte4 ((byteAt (w % 2 ^ 64) 7 + 256 * byteAt (w % 2 ^ 64) 7) % 256 &&& 3), lutByte4 ((byteAt (w % 2 ^ 64) 7 + 256 * byteAt (w % 2 ^ 64) 7) / 256 % 256 &&& 12), lutByte4 (((byteAt (w % 2 ^ 64) 7 + 256 * byteAt (w % 2 ^ 64) 7) / 2 ^ 4 % 256 + 256 * ((byteAt (w % 2 ^ 64) 7 + 256 * byteAt (w % 2 ^ 64) 7) / 2 ^ 4 / 256 % 256)) % 256 &&& 3), lutByte4 (((byteAt (w % 2 ^ 64) 7 + 256 * byteAt (w % 2 ^ 64) 7) / 2 ^ 4 % 256 + 256 * ((byteAt (w % 2 ^ 64) 7 + 256 * byteAt (w % 2 ^ 64) 7) / 2 ^ 4 / 256 % 256)) / 256 % 256 &&& 12)] := rfl
  have hr : (List.range 32).map (fun r => BITS_LUT.getD (w / 4 ^ r % 4) 0) = [BITS_LUT.getD (w / 4 ^ 0 % 4) 0, BITS_LUT.getD (w / 4 ^ 1 % 4) 0, BITS_LUT.getD (w / 4 ^ 2 % 4) 0, BITS_LUT.getD (w / 4 ^ 3 % 4) 0, BITS_LUT.getD (w / 4 ^ 4 % 4) 0, BITS_LUT.getD (w / 4 ^ 5 % 4) 0, BITS_LUT.getD (w / 4 ^ 6 % 4) 0, BITS_LUT.getD (w / 4 ^ 7 % 4) 0, BITS_LUT.getD (w / 4 ^ 8 % 4) 0, BITS_LUT.getD (w / 4 ^ 9 % 4) 0, BITS_LUT.getD (w / 4 ^ 10 % 4) 0, BITS_LUT.getD (w / 4 ^ 11 % 4) 0, BITS_LUT.getD (w / 4 ^ 12 % 4) 0, BITS_LUT.getD (w / 4 ^ 13 % 4) 0, BITS_LUT.getD (w / 4 ^ 14 % 4) 0, BITS_LUT.getD (w / 4 ^ 15 % 4) 0, BITS_LUT.getD (w / 4 ^ 16 % 4) 0, BITS_LUT.getD (w / 4 ^ 17 % 4) 0, BITS_LUT.getD (w / 4 ^ 18 % 4) 0, BITS_LUT.getD (w / 4 ^ 19 % 4) 0, BITS_LUT.getD (w / 4 ^ 20 % 4) 0, BITS_LUT.getD (w / 4 ^ 21 % 4) 0, BITS_LUT.getD (w / 4 ^ 22 % 4) 0, BITS_LUT.getD (w / 4 ^ 23 % 4) 0, BITS_LUT.getD (w / 4 ^ 24 % 4) 0, BITS_LUT.getD (w / 4 ^ 25 % 4) 0, BITS_LUT.getD (w / 4 ^ 26 % 4) 0, BITS_LUT.getD (w / 4 ^ 27 % 4) 0, BITS_LUT.getD (w / 4 ^ 28 % 4) 0, BITS_LUT.getD (w / 4 ^ 29 % 4) 0, BITS_LUT.getD (w / 4 ^ 30 % 4) 0, BITS_LUT.getD (w / 4 ^ 31 % 4) 0] := rfl
  rw [hb, hmod, hr]
  rw [lutByte4_shape0 _ (byteAt_lt w 0), byteAt_digit w 0 0 0 (by norm_num) (by norm_num), lutByte4_shape1 _ (byteAt_lt w 0), byteAt_digit w 0 1 1 (by norm_num) (by norm_num), lutByte4_shape2 _ (byteAt_lt w 0), byteAt_digit w 0 2 2 (by norm_num) (by norm_num), lutByte4_shape3 _ (byteAt_lt w 0), byteAt_digit w 0 3 3 (by norm_num) (by norm_num), lutByte4_shape0 _ (byteAt_lt w 1), byteAt_digit w 1 0 4 (by norm_num) (by norm_num), lutByte4_shape1 _ (byteAt_lt w 1), byteAt_digit w 1 1 5 (by norm_num) (by norm_num), lutByte4_shape2 _ (byteAt_lt w 1), byteAt_digit w 1 2 6 (by norm_num) (by norm_num), lutByte4_shape3 _ (byteAt_lt w 1), byteAt_digit w 1 3 7 (by norm_num) (by norm_num), lutByte4_shape0 _ (byteAt_lt w 2), byteAt_digit w 2 0 8 (by norm_num) (by norm_num), lutByte4_shape1 _ (byteAt_lt w 2), byteAt_digit w 2 1 9 (by norm_num) (by norm_num), lutByte4_shape2 _ (byteAt_lt w 2), byteAt_digit w 2 2 10 (by norm_num) (by norm_num), lutByte4_shape3 _ (byteAt_lt w 2), byteAt_digit w 2 3 11 (by norm_num) (by norm_num), lutByte4_shape0 _ (byteAt_lt w 3), byteAt_digit w 3 0 12 (by norm_num) (by norm_num), lutByte4_shape1 _ (byteAt_lt w 3), byteAt_digit w 3 1 13 (by norm_num) (by norm_num), lutByte4_shape2 _ (byteAt_lt w 3), byteAt_digit w 3 2 14 (by norm_num) (by norm_num), lutByte4_shape3 _ (byteAt_lt w 3), byteAt_digit w 3 3 15 (by norm_num) (by norm_num), lutByte4_shape0 _ (byteAt_lt w 4), byteAt_digit w 4 0 16 (by norm_num) (by norm_num), lutByte4_shape1 _ (byteAt_lt w 4), byteAt_digit w 4 1 17 (by norm_num) (by norm_num), lutByte4_shape2 _ (byteAt_lt w 4), byteAt_digit w 4 2 18 (by norm_num) (by norm_num), lutByte4_shape3 _ (byteAt_lt w 4), byteAt_digit w 4 3 19 (by norm_num) (by norm_num), lutByte4_shape0 _ (byteAt_lt w 5), byteAt_digit w 5 0 20 (by norm_num) (by norm_num), lutByte4_shape1 _ (byteAt_lt w 5), byteAt_digit w 5 1 21 (by norm_num) (by norm_num), lutByte4_shape2 _ (byteAt_lt w 5), byteAt_digit w 5 2 22 (by norm_num) (by norm_num), lutByte4_shape3 _ (byteAt_lt w 5), byteAt_digit w 5 3 23 (by norm_num) (by norm_num), lutByte4_shape0 _ (byteAt_lt w 6), byteAt_digit w 6 0 24 (by norm_num) (by norm_num), lutByte4_shape1 _ (byteAt_lt w 6), byteAt_digit w 6 1 25 (by norm_num) (by norm_num), lutByte4_shape2 _ (byteAt_lt w 6), byteAt_digit w 6 2 26 (by norm_num) (by norm_num), lutByte4_shape3 _ (byteAt_lt w 6), byteAt_digit w 6 3 27 (by norm_num) (by norm_num), lutByte4_shape0 _ (byteAt_lt w 7), byteAt_digit w 7 0 28 (by norm_num) (by norm_num), lutByte4_shape1 _ (byteAt_lt w 7), byteAt_digit w 7 1 29 (by norm_num) (by norm_num), lutByte4_shape2 _ (byteAt_lt w 7), byteAt_digit w 7 2 30 (by norm_num) (by norm_num), lutByte4_shape3 _ (byteAt_lt w 7), byteAt_digit w 7 3 31 (by norm_num) (by norm_num)]

end NToBits
namespace NToBits

open Codec

/-- `bits_to_n_shuffle` agrees with `bits_to_n_lut` on every in-range
request over genuine `u64` words. -/
theorem bits_to_n_shuffle_eq (bits : List Nat) (len : Nat)
    (hw : ∀ w ∈ bits, w < 2 ^ 64) (hlen : len ≤ bits.length <<< 5) :
    bits_to_n_shuffle bits len = bits_to_n_lut bits len := by
  rw [bits_to_n_lut_eq bits len hlen, bits_to_n_shuffle, if_neg (by omega)]
  congr 1
  have hblocks : ∀ b ∈ bits.map shuffleBlock, b.length = 32 := by
    intro b hb
    rcases List.mem_map.mp hb with ⟨w, hwmem, rfl⟩
    rw [shuffleBlock_eq w (hw w hwmem), List.length_map, List.length_range]
  have hflen : (bits.map shuffleBlock).flatten.length = 32 * bits.length := by
    rw [flattenBlocks_length _ 32 hblocks, List.length_map]
  rw [shiftLeft5] at hlen
  apply eq_of_getD
  · rw [List.length_take, hflen, dec4, List.length_map, List.length_range]
    omega
  · intro j
    by_cases hj : j < len
    · rw [getD_take _ _ _ hj, flattenBlocks_getD _ 32 (by norm_num) hblocks]
      have hjb : j / 32 < bits.length := by omega
      have hmap : (bits.map shuffleBlock).getD (j / 32) []
          = shuffleBlock (bits.getD (j / 32) 0) := by
        rw [List.getD_eq_getElem _ _ (by rw [List.length_map]; exact hjb), List.getElem_map,
          List.getD_eq_getElem _ _ hjb]
      rw [hmap]
      have hwmem : bits.getD (j / 32) 0 ∈ bits := by
        rw [List.getD_eq_getElem _ _ hjb]
        exact List.getElem_mem hjb
      rw [shuffleBlock_eq _ (hw _ hwmem)]
      have hj32 : j % 32 < 32 := Nat.mod_lt _ (by norm_num)
      have houter : ((List.range 32).map fun r =>
            BITS_LUT.getD (bits.getD (j / 32) 0 / 4 ^ r % 4) 0).getD (j % 32) 0
          = BITS_LUT.getD (bits.getD (j / 32) 0 / 4 ^ (j % 32) % 4) 0 := by
        rw [List.getD_eq_getElem _ _ (by rw [List.length_map, List.length_range]; exact hj32),
          List.getElem_map, List.getElem_range]
      have hdecD : (dec4 bits len).getD j 0
          = BITS_LUT.getD (bits.getD (j >>> 5) 0 >>> ((j &&& 31) <<< 1) &&& 3) 0 := by
        rw [dec4, List.getD_eq_getElem _ _ (by rw [List.length_map, List.length_range]; exact hj),
          List.getElem_map, List.getElem_range]
      rw [houter, hdecD, shiftRight5, and31, shiftLeft1, Nat.shiftRight_eq_div_pow, and3]
      have hpow : (2:Nat) ^ (2 * (j % 32)) = 4 ^ (j % 32) := by
        rw [pow_mul]
        norm_num
      rw [hpow]
    · have hlen1 : ((bits.map shuffleBlock).flatten.take len).length = len := by
        rw [List.length_take, hflen]
        omega
      have hlen2 : (dec4 bits len).length = len := by
        rw [dec4, List.length_map, List.length_range]
      have e1 : ((bits.map shuffleBlock).flatten.take len).getD j 0 = 0 :=
        List.getD_eq_default _ _ (by rw [hlen1]; omega)
      have e2 : (dec4 bits len).getD j 0 = 0 :=
        List.getD_eq_default _ _ (by rw [hlen2]; omega)
      rw [e1, e2]

end NToBits

namespace Codec

theorem pdep_0303n (x : Nat) : pdep x 217020518514230019 =
    x % 4 + x / 4 % 4 * 256 + x / 16 % 4 * 65536 + x / 64 % 4 * 16777216 +
    x / 256 % 4 * 4294967296 + x / 1024 % 4 * 1099511627776 +
    x / 4096 % 4 * 281474976710656 + x / 16384 % 4 * 72057594037927936 := by
  rw [pdep_0303]
  norm_num

theorem sumByte0 (c0 c1 c2 c3 c4 c5 c6 c7 : Nat) (h0 : c0 < 4) (h1 : c1 < 4) (h2 : c2 < 4) (h3 : c3 < 4) (h4 : c4 < 4) (h5 : c5 < 4) (h6 : c6 < 4) (h7 : c7 < 4) :
    (c0 + c1 * 256 + c2 * 65536 + c3 * 16777216 + c4 * 4294967296 + c5 * 1099511627776 + c6 * 281474976710656 + c7 * 72057594037927936) % 18446744073709551616 / 1 % 256 = c0 := by
  omega
theorem sumByte1 (c0 c1 c2 c3 c4 c5 c6 c7 : Nat) (h0 : c0 < 4) (h1 : c1 < 4) (h2 : c2 < 4) (h3 : c3 < 4) (h4 : c4 < 4) (h5 : c5 < 4) (h6 : c6 < 4) (h7 : c7 < 4) :
    (c0 + c1 * 256 + c2 * 65536 + c3 * 16777216 + c4 * 4294967296 + c5 * 1099511627776 + c6 * 281474976710656 + c7 * 72057594037927936) % 18446744073709551616 / 256 % 256 = c1 := by
  omega
theorem sumByte2 (c0 c1 c2 c3 c4 c5 c6 c7 : Nat) (h0 : c0 < 4) (h1 : c1 < 4) (h2 : c2 < 4) (h3 : c3 < 4) (h4 : c4 < 4) (h5 : c5 < 4) (h6 : c6 < 4) (h7 : c7 < 4) :
    (c0 + c1 * 256 + c2 * 65536 + c3 * 16777216 + c4 * 4294967296 + c5 * 1099511627776 + c6 * 281474976710656 + c7 * 72057594037927936) % 18446744073709551616 / 65536 % 256 = c2 := by
  omega
theorem sumByte3 (c0 c1 c2 c3 c4 c5 c6 c7 : Nat) (h0 : c0 < 4) (h1 : c1 < 4) (h2 : c2 < 4) (h3 : c3 < 4) (h4 : c4 < 4) (h5 : c5 < 4) (h6 : c6 < 4) (h7 : c7 < 4) :
    (c0 + c1 * 256 + c2 * 65536 + c3 * 16777216 + c4 * 4294967296 + c5 * 1099511627776 + c6 * 281474976710656 + c7 * 72057594037927936) % 18446744073709551616 / 16777216 % 256 = c3 := by
  omega
theorem sumByte4 (c0 c1 c2 c3 c4 c5 c6 c7 : Nat) (h0 : c0 < 4) (h1 : c1 < 4) (h2 : c2 < 4) (h3 : c3 < 4) (h4 : c4 < 4) (h5 : c5 < 4) (h6 : c6 < 4) (h7 : c7 < 4) :
    (c0 + c1 * 256 + c2 * 65536 + c3 * 16777216 + c4 * 4294967296 + c5 * 1099511627776 + c6 * 281474976710656 + c7 * 72057594037927936) % 18446744073709551616 / 4294967296 % 256 = c4 := by
  omega
theorem sumByte5 (c0 c1 c2 c3 c4 c5 c6 c7 : Nat) (h0 : c0 < 4) (h1 : c1 < 4) (h2 : c2 < 4) (h3 : c3 < 4) (h4 : c4 < 4) (h5 : c5 < 4) (h6 : c6 < 4) (h7 : c7 < 4) :
    (c0 + c1 * 256 + c2 * 65536 + c3 * 16777216 + c4 * 4294967296 + c5 * 1099511627776 + c6 * 281474976710656 + c7 * 72057594037927936) % 18446744073709551616 / 1099511627776 % 256 = c5 := by
  omega
theorem sumByte6 (c0 c1 c2 c3 c4 c5 c6 c7 : Nat) (h0 : c0 < 4) (h1 : c1 < 4) (h2 : c2 < 4) (h3 : c3 < 4) (h4 : c4 < 4) (h5 : c5 < 4) (h6 : c6 < 4) (h7 : c7 < 4) :
    (c0 + c1 * 256 + c2 * 65536 + c3 * 16777216 + c4 * 4294967296 + c5 * 1099511627776 + c6 * 281474976710656 + c7 * 72057594037927936) % 18446744073709551616 / 281474976710656 % 256 = c6 := by
  omega
theorem sumByte7 (c0 c1 c2 c3 c4 c5 c6 c7 : Nat) (h0 : c0 < 4) (h1 : c1 < 4) (h2 : c2 < 4) (h3 : c3 < 4) (h4 : c4 < 4) (h5 : c5 < 4) (h6 : c6 < 4) (h7 : c7 < 4) :
    (c0 + c1 * 256 + c2 * 65536 + c3 * 16777216 + c4 * 4294967296 + c5 * 1099511627776 + c6 * 281474976710656 + c7 * 72057594037927936) % 18446744073709551616 / 72057594037927936 % 256 = c7 := by
  omega

end Codec

namespace NToBits

open Codec

/-- One byte of the decode lookup table held by the `lut` vector of
`bits_to_n_pdep`, indexed by a code byte. -/
def lutByte4p (e : Nat) : Nat :=
  if 128 ≤ e % 256 then 0
  else [65, 67, 84, 71, 0, 0, 0, 0, 0, 0, 0, 0, 0, 0, 0, 0].getD (e % 16) 0

theorem lutByte4p_code : ∀ c < 4, lutByte4p c = BITS_LUT.getD c 0 := by decide

set_option maxHeartbeats 2000000 in
/-- Each 32-byte block written by `bits_to_n_pdep` decodes its word's 2-bit
fields through the ASCII table (for any word value: only 64 bits are read). -/
theorem pdepBlock_eq (w : Nat) :
    pdepBlock w = (List.range 32).map fun r => BITS_LUT.getD (w / 4 ^ r % 4) 0 := by
  have hb : pdepBlock w = [lutByte4p (pdep w 217020518514230019 % 18446744073709551616 / 1 % 256), lutByte4p (pdep w 217020518514230019 % 18446744073709551616 / 256 % 256), lutByte4p (pdep w 217020518514230019 % 18446744073709551616 / 65536 % 256), lutByte4p (pdep w 217020518514230019 % 18446744073709551616 / 16777216 % 256), lutByte4p (pdep w 217020518514230019 % 18446744073709551616 / 4294967296 % 256), lutByte4p (pdep w 217020518514230019 % 18446744073709551616 / 1099511627776 % 256), lutByte4p (pdep w 217020518514230019 % 18446744073709551616 / 281474976710656 % 256), lutByte4p (pdep w 217020518514230019 % 18446744073709551616 / 72057594037927936 % 256), lutByte4p (pdep (w >>> 16) 217020518514230019 % 18446744073709551616 / 1 % 256), lutByte4p (pdep (w >>> 16) 217020518514230019 % 18446744073709551616 / 256 % 256), lutByte4p (pdep (w >>> 16) 217020518514230019 % 18446744073709551616 / 65536 % 256), lutByte4p (pdep (w >>> 16) 217020518514230019 % 18446744073709551616 / 16777216 % 256), lutByte4p (pdep (w >>> 16) 217020518514230019 % 18446744073709551616 / 4294967296 % 256), lutByte4p (pdep (w >>> 16) 217020518514230019 % 18446744073709551616 / 1099511627776 % 256), lutByte4p (pdep (w >>> 16) 217020518514230019 % 18446744073709551616 / 281474976710656 % 256), lutByte4p (pdep (w >>> 16) 217020518514230019 % 18446744073709551616 / 72057594037927936 % 256), lutByte4p (pdep (w >>> 32) 217020518514230019 % 18446744073709551616 / 1 % 256), lutByte4p (pdep (w >>> 32) 217020518514230019 % 18446744073709551616 / 256 % 256), lutByte4p (pdep (w >>> 32) 217020518514230019 % 18446744073709551616 / 65536 % 256), lutByte4p (pdep (w >>> 32) 217020518514230019 % 18446744073709551616 / 16777216 % 256), lutByte4p (pdep (w >>> 32) 217020518514230019 % 18446744073709551616 / 4294967296 % 256), lutByte4p (pdep (w >>> 32) 217020518514230019 % 18446744073709551616 / 1099511627776 % 256), lutByte4p (pdep (w >>> 32) 217020518514230019 % 18446744073709551616 / 281474976710656 % 256), lutByte4p (pdep (w >>> 32) 217020518514230019 % 18446744073709551616 / 72057594037927936 % 256), lutByte4p (pdep (w >>> 48) 217020518514230019 % 18446744073709551616 / 1 % 256), lutByte4p (pdep (w >>> 48) 217020518514230019 % 18446744073709551616 / 256 % 256), lutByte4p (pdep (w >>> 48) 217020518514230019 % 18446744073709551616 / 65536 % 256), lutByte4p (pdep (w >>> 48) 217020518514230019 % 18446744073709551616 / 16777216 % 256), lutByte4p (pdep (w >>> 48) 217020518514230019 % 18446744073709551616 / 4294967296 % 256), lutByte4p (pdep (w >>> 48) 217020518514230019 % 18446744073709551616 / 1099511627776 % 256), lutByte4p (pdep (w >>> 48) 217020518514230019 % 18446744073709551616 / 281474976710656 % 256), lutByte4p (pdep (w >>> 48) 217020518514230019 % 18446744073709551616 / 72057594037927936 % 256)] := rfl
  have hr : (List.range 32).map (fun r => BITS_LUT.getD (w / 4 ^ r % 4) 0) = [BITS_LUT.getD (w / 1 % 4) 0, BITS_LUT.getD (w / 4 % 4) 0, BITS_LUT.getD (w / 16 % 4) 0, BITS_LUT.getD (w / 64 % 4) 0, BITS_LUT.getD (w / 256 % 4) 0, BITS_LUT.getD (w / 1024 % 4) 0, BITS_LUT.getD (w / 4096 % 4) 0, BITS_LUT.getD (w / 16384 % 4) 0, BITS_LUT.getD (w / 65536 % 4) 0, BITS_LUT.getD (w / 262144 % 4) 0, BITS_LUT.getD (w / 1048576 % 4) 0, BITS_LUT.getD (w / 4194304 % 4) 0, BITS_LUT.getD (w / 16777216 % 4) 0, BITS_LUT.getD (w / 67108864 % 4) 0, BITS_LUT.getD (w / 268435456 % 4) 0, BITS_LUT.getD (w / 1073741824 % 4) 0, BITS_LUT.getD (w / 4294967296 % 4) 0, BITS_LUT.getD (w / 17179869184 % 4) 0, BITS_LUT.getD (w / 68719476736 % 4) 0, BITS_LUT.getD (w / 274877906944 % 4) 0, BITS_LUT.getD (w / 1099511627776 % 4) 0, BITS_LUT.getD (w / 4398046511104 % 4) 0, BITS_LUT.getD (w / 17592186044416 % 4) 0, BITS_LUT.getD (w / 70368744177664 % 4) 0, BITS_LUT.getD (w / 281474976710656 % 4) 0, BITS_LUT.getD (w / 1125899906842624 % 4) 0, BITS_LUT.getD (w / 4503599627370496 % 4) 0, BITS_LUT.getD (w / 18014398509481984 % 4) 0, BITS_LUT.getD (w / 72057594037927936 % 4) 0, BITS_LUT.getD (w / 288230376151711744 % 4) 0, BITS_LUT.getD (w / 1152921504606846976 % 4) 0, BITS_LUT.getD (w / 4611686018427387904 % 4) 0] := rfl
  have q0 : pdep w 217020518514230019 % 18446744073709551616 / 1 % 256 = w / 1 % 4 := by
    rw [pdep_0303n,
      sumByte0 (w % 4) (w / 4 % 4) (w / 16 % 4) (w / 64 % 4) (w / 256 % 4) (w / 1024 % 4) (w / 4096 % 4) (w / 16384 % 4) (by omega) (by omega) (by omega) (by omega) (by omega) (by omega) (by omega) (by omega),
      Nat.div_one]
  have q1 : pdep w 217020518514230019 % 18446744073709551616 / 256 % 256 = w / 4 % 4 := by
    rw [pdep_0303n]
    exact sumByte1 (w % 4) (w / 4 % 4) (w / 16 % 4) (w / 64 % 4) (w / 256 % 4) (w / 1024 % 4) (w / 4096 % 4) (w / 16384 % 4) (by omega) (by omega) (by omega) (by omega) (by omega) (by omega) (by omega) (by omega)
  have q2 : pdep w 217020518514230019 % 18446744073709551616 / 65536 % 256 = w / 16 % 4 := by
    rw [pdep_0303n]
    exact sumByte2 (w % 4) (w / 4 % 4) (w / 16 % 4) (w / 64 % 4) (w / 256 % 4) (w / 1024 % 4) (w / 4096 % 4) (w / 16384 % 4) (by omega) (by omega) (by omega) (by omega) (by omega) (by omega) (by omega) (by omega)
  have q3 : pdep w 217020518514230019 % 18446744073709551616 / 16777216 % 256 = w / 64 % 4 := by
    rw [pdep_0303n]
    exact sumByte3 (w % 4) (w / 4 % 4) (w / 16 % 4) (w / 64 % 4) (w / 256 % 4) (w / 1024 % 4) (w / 4096 % 4) (w / 16384 % 4) (by omega) (by omega) (by omega) (by omega) (by omega) (by omega) (by omega) (by omega)
  have q4 : pdep w 217020518514230019 % 18446744073709551616 / 4294967296 % 256 = w / 256 % 4 := by
    rw [pdep_0303n]
    exact sumByte4 (w % 4) (w / 4 % 4) (w / 16 % 4) (w / 64 % 4) (w / 256 % 4) (w / 1024 % 4) (w / 4096 % 4) (w / 16384 % 4) (by omega) (by omega) (by omega) (by omega) (by omega) (by omega) (by omega) (by omega)
  have q5 : pdep w 217020518514230019 % 18446744073709551616 / 1099511627776 % 256 = w / 1024 % 4 := by
    rw [pdep_0303n]
    exact sumByte5 (w % 4) (w / 4 % 4) (w / 16 % 4) (w / 64 % 4) (w / 256 % 4) (w / 1024 % 4) (w / 4096 % 4) (w / 16384 % 4) (by omega) (by omega) (by omega) (by omega) (by omega) (by omega) (by omega) (by omega)
  have q6 : pdep w 217020518514230019 % 18446744073709551616 / 281474976710656 % 256 = w / 4096 % 4 := by
    rw [pdep_0303n]
    exact sumByte6 (w % 4) (w / 4 % 4) (w / 16 % 4) (w / 64 % 4) (w / 256 % 4) (w / 1024 % 4) (w / 4096 % 4) (w / 16384 % 4) (by omega) (by omega) (by omega) (by omega) (by omega) (by omega) (by omega) (by omega)
  have q7 : pdep w 217020518514230019 % 18446744073709551616 / 72057594037927936 % 256 = w / 16384 % 4 := by
    rw [pdep_0303n]
    exact sumByte7 (w % 4) (w / 4 % 4) (w / 16 % 4) (w / 64 % 4) (w / 256 % 4) (w / 1024 % 4) (w / 4096 % 4) (w / 16384 % 4) (by omega) (by omega) (by omega) (by omega) (by omega) (by omega) (by omega) (by omega)
  have q8 : pdep (w >>> 16) 217020518514230019 % 18446744073709551616 / 1 % 256 = w / 65536 % 4 := by
    have hs : w >>> 16 = w / 65536 := by
      rw [Nat.shiftRight_eq_div_pow]
    rw [hs, pdep_0303n,
      sumByte0 ((w / 65536) % 4) ((w / 65536) / 4 % 4) ((w / 65536) / 16 % 4) ((w / 65536) / 64 % 4) ((w / 65536) / 256 % 4) ((w / 65536) / 1024 % 4) ((w / 65536) / 4096 % 4) ((w / 65536) / 16384 % 4) (by omega) (by omega) (by omega) (by omega) (by omega) (by omega) (by omega) (by omega)]
  have q9 : pdep (w >>> 16) 217020518514230019 % 18446744073709551616 / 256 % 256 = w / 262144 % 4 := by
    have hs : w >>> 16 = w / 65536 := by
      rw [Nat.shiftRight_eq_div_pow]
    rw [hs, pdep_0303n,
      sumByte1 ((w / 65536) % 4) ((w / 65536) / 4 % 4) ((w / 65536) / 16 % 4) ((w / 65536) / 64 % 4) ((w / 65536) / 256 % 4) ((w / 65536) / 1024 % 4) ((w / 65536) / 4096 % 4) ((w / 65536) / 16384 % 4) (by omega) (by omega) (by omega) (by omega) (by omega) (by omega) (by omega) (by omega)]
    rw [Nat.div_div_eq_div_mul]
  have q10 : pdep (w >>> 16) 217020518514230019 % 18446744073709551616 / 65536 % 256 = w / 1048576 % 4 := by
    have hs : w >>> 16 = w / 65536 := by
      rw [Nat.shiftRight_eq_div_pow]
    rw [hs, pdep_0303n,
      sumByte2 ((w / 65536) % 4) ((w / 65536) / 4 % 4) ((w / 65536) / 16 % 4) ((w / 65536) / 64 % 4) ((w / 65536) / 256 % 4) ((w / 65536) / 1024 % 4) ((w / 65536) / 4096 % 4) ((w / 65536) / 16384 % 4) (by omega) (by omega) (by omega) (by omega) (by omega) (by omega) (by omega) (by omega)]
    rw [Nat.div_div_eq_div_mul]
  have q11 : pdep (w >>> 16) 217020518514230019 % 18446744073709551616 / 16777216 % 256 = w / 4194304 % 4 := by
    have hs : w >>> 16 = w / 65536 := by
      rw [Nat.shiftRight_eq_div_pow]
    rw [hs, pdep_0303n,
      sumByte3 ((w / 65536) % 4) ((w / 65536) / 4 % 4) ((w / 65536) / 16 % 4) ((w / 65536) / 64 % 4) ((w / 65536) / 256 % 4) ((w / 65536) / 1024 % 4) ((w / 65536) / 4096 % 4) ((w / 65536) / 16384 % 4) (by omega) (by omega) (by omega) (by omega) (by omega) (by omega) (by omega) (by omega)]
    rw [Nat.div_div_eq_div_mul]
  have q12 : pdep (w >>> 16) 217020518514230019 % 18446744073709551616 / 4294967296 % 256 = w / 16777216 % 4 := by
    have hs : w >>> 16 = w / 65536 := by
      rw [Nat.shiftRight_eq_div_pow]
    rw [hs, pdep_0303n,
      sumByte4 ((w / 65536) % 4) ((w / 65536) / 4 % 4) ((w / 65536) / 16 % 4) ((w / 65536) / 64 % 4) ((w / 65536) / 256 % 4) ((w / 65536) / 1024 % 4) ((w / 65536) / 4096 % 4) ((w / 65536) / 16384 % 4) (by omega) (by omega) (by omega) (by omega) (by omega) (by omega) (by omega) (by omega)]
    rw [Nat.div_div_eq_div_mul]
  have q13 : pdep (w >>> 16) 217020518514230019 % 18446744073709551616 / 1099511627776 % 256 = w / 67108864 % 4 := by
    have hs : w >>> 16 = w / 65536 := by
      rw [Nat.shiftRight_eq_div_pow]
    rw [hs, pdep_0303n,
      sumByte5 ((w / 65536) % 4) ((w / 65536) / 4 % 4) ((w / 65536) / 16 % 4) ((w / 65536) / 64 % 4) ((w / 65536) / 256 % 4) ((w / 65536) / 1024 % 4) ((w / 65536) / 4096 % 4) ((w / 65536) / 16384 % 4) (by omega) (by omega) (by omega) (by omega) (by omega) (by omega) (by omega) (by omega)]
    rw [Nat.div_div_eq_div_mul]
  have q14 : pdep (w >>> 16) 217020518514230019 % 18446744073709551616 / 281474976710656 % 256 = w / 268435456 % 4 := by
    have hs : w >>> 16 = w / 65536 := by
      rw [Nat.shiftRight_eq_div_pow]
    rw [hs, pdep_0303n,
      sumByte6 ((w / 65536) % 4) ((w / 65536) / 4 % 4) ((w / 65536) / 16 % 4) ((w / 65536) / 64 % 4) ((w / 65536) / 256 % 4) ((w / 65536) / 1024 % 4) ((w / 65536) / 4096 % 4) ((w / 65536) / 16384 % 4) (by omega) (by omega) (by omega) (by omega) (by omega) (by omega) (by omega) (by omega)]
    rw [Nat.div_div_eq_div_mul]
  have q15 : pdep (w >>> 16) 217020518514230019 % 18446744073709551616 / 72057594037927936 % 256 = w / 1073741824 % 4 := by
    have hs : w >>> 16 = w / 65536 := by
      rw [Nat.shiftRight_eq_div_pow]
    rw [hs, pdep_0303n,
      sumByte7 ((w / 65536) % 4) ((w / 65536) / 4 % 4) ((w / 65536) / 16 % 4) ((w / 65536) / 64 % 4) ((w / 65536) / 256 % 4) ((w / 65536) / 1024 % 4) ((w / 65536) / 4096 % 4) ((w / 65536) / 16384 % 4) (by omega) (by omega) (by omega) (by omega) (by omega) (by omega) (by omega) (by omega)]
    rw [Nat.div_div_eq_div_mul]
  have q16 : pdep (w >>> 32) 217020518514230019 % 18446744073709551616 / 1 % 256 = w / 4294967296 % 4 := by
    have hs : w >>> 32 = w / 4294967296 := by
      rw [Nat.shiftRight_eq_div_pow]
    rw [hs, pdep_0303n,
      sumByte0 ((w / 4294967296) % 4) ((w / 4294967296) / 4 % 4) ((w / 4294967296) / 16 % 4) ((w / 4294967296) / 64 % 4) ((w / 4294967296) / 256 % 4) ((w / 4294967296) / 1024 % 4) ((w / 4294967296) / 4096 % 4) ((w / 4294967296) / 16384 % 4) (by omega) (by omega) (by omega) (by omega) (by omega) (by omega) (by omega) (by omega)]
  have q17 : pdep (w >>> 32) 217020518514230019 % 18446744073709551616 / 256 % 256 = w / 17179869184 % 4 := by
    have hs : w >>> 32 = w / 4294967296 := by
      rw [Nat.shiftRight_eq_div_pow]
    rw [hs, pdep_0303n,
      sumByte1 ((w / 4294967296) % 4) ((w / 4294967296) / 4 % 4) ((w / 4294967296) / 16 % 4) ((w / 4294967296) / 64 % 4) ((w / 4294967296) / 256 % 4) ((w / 4294967296) / 1024 % 4) ((w / 4294967296) / 4096 % 4) ((w / 4294967296) / 16384 % 4) (by omega) (by omega) (by omega) (by omega) (by omega) (by omega) (by omega) (by omega)]
    rw [Nat.div_div_eq_div_mul]
  have q18 : pdep (w >>> 32) 217020518514230019 % 18446744073709551616 / 65536 % 256 = w / 68719476736 % 4 := by
    have hs : w >>> 32 = w / 4294967296 := by
      rw [Nat.shiftRight_eq_div_pow]
    rw [hs, pdep_0303n,
      sumByte2 ((w / 4294967296) % 4) ((w / 4294967296) / 4 % 4) ((w / 4294967296) / 16 % 4) ((w / 4294967296) / 64 % 4) ((w / 4294967296) / 256 % 4) ((w / 4294967296) / 1024 % 4) ((w / 4294967296) / 4096 % 4) ((w / 4294967296) / 16384 % 4) (by omega) (by omega) (by omega) (by omega) (by omega) (by omega) (by omega) (by omega)]
    rw [Nat.div_div_eq_div_mul]
  have q19 : pdep (w >>> 32) 217020518514230019 % 18446744073709551616 / 16777216 % 256 = w / 274877906944 % 4 := by
    have hs : w >>> 32 = w / 4294967296 := by
      rw [Nat.shiftRight_eq_div_pow]
    rw [hs, pdep_0303n,
      sumByte3 ((w / 4294967296) % 4) ((w / 4294967296) / 4 % 4) ((w / 4294967296) / 16 % 4) ((w / 4294967296) / 64 % 4) ((w / 4294967296) / 256 % 4) ((w / 4294967296) / 1024 % 4) ((w / 4294967296) / 4096 % 4) ((w / 4294967296) / 16384 % 4) (by omega) (by omega) (by omega) (by omega) (by omega) (by omega) (by omega) (by omega)]
    rw [Nat.div_div_eq_div_mul]
  have q20 : pdep (w >>> 32) 217020518514230019 % 18446744073709551616 / 4294967296 % 256 = w / 1099511627776 % 4 := by
    have hs : w >>> 32 = w / 4294967296 := by
      rw [Nat.shiftRight_eq_div_pow]
    rw [hs, pdep_0303n,
      sumByte4 ((w / 4294967296) % 4) ((w / 4294967296) / 4 % 4) ((w / 4294967296) / 16 % 4) ((w / 4294967296) / 64 % 4) ((w / 4294967296) / 256 % 4) ((w / 4294967296) / 1024 % 4) ((w / 4294967296) / 4096 % 4) ((w / 4294967296) / 16384 % 4) (by omega) (by omega) (by omega) (by omega) (by omega) (by omega) (by omega) (by omega)]
    rw [Nat.div_div_eq_div_mul]
  have q21 : pdep (w >>> 32) 217020518514230019 % 18446744073709551616 / 1099511627776 % 256 = w / 4398046511104 % 4 := by
    have hs : w >>> 32 = w / 4294967296 := by
      rw [Nat.shiftRight_eq_div_pow]
    rw [hs, pdep_0303n,
      sumByte5 ((w / 4294967296) % 4) ((w / 4294967296) / 4 % 4) ((w / 4294967296) / 16 % 4) ((w / 4294967296) / 64 % 4) ((w / 4294967296) / 256 % 4) ((w / 4294967296) / 1024 % 4) ((w / 4294967296) / 4096 % 4) ((w / 4294967296) / 16384 % 4) (by omega) (by omega) (by omega) (by omega) (by omega) (by omega) (by omega) (by omega)]
    rw [Nat.div_div_eq_div_mul]
  have q22 : pdep (w >>> 32) 217020518514230019 % 18446744073709551616 / 281474976710656 % 256 = w / 17592186044416 % 4 := by
    have hs : w >>> 32 = w / 4294967296 := by
      rw [Nat.shiftRight_eq_div_pow]
    rw [hs, pdep_0303n,
      sumByte6 ((w / 4294967296) % 4) ((w / 4294967296) / 4 % 4) ((w / 4294967296) / 16 % 4) ((w / 4294967296) / 64 % 4) ((w / 4294967296) / 256 % 4) ((w / 4294967296) / 1024 % 4) ((w / 4294967296) / 4096 % 4) ((w / 4294967296) / 16384 % 4) (by omega) (by omega) (by omega) (by omega) (by omega) (by omega) (by omega) (by omega)]
    rw [Nat.div_div_eq_div_mul]
  have q23 : pdep (w >>> 32) 217020518514230019 % 18446744073709551616 / 72057594037927936 % 256 = w / 70368744177664 % 4 := by
    have hs : w >>> 32 = w / 4294967296 := by
      rw [Nat.shiftRight_eq_div_pow]
    rw [hs, pdep_0303n,
      sumByte7 ((w / 4294967296) % 4) ((w / 4294967296) / 4 % 4) ((w / 4294967296) / 16 % 4) ((w / 4294967296) / 64 % 4) ((w / 4294967296) / 256 % 4) ((w / 4294967296) / 1024 % 4) ((w / 4294967296) / 4096 % 4) ((w / 4294967296) / 16384 % 4) (by omega) (by omega) (by omega) (by omega) (by omega) (by omega) (by omega) (by omega)]
    rw [Nat.div_div_eq_div_mul]
  have q24 : pdep (w >>> 48) 217020518514230019 % 18446744073709551616 / 1 % 256 = w / 281474976710656 % 4 := by
    have hs : w >>> 48 = w / 281474976710656 := by
      rw [Nat.shiftRight_eq_div_pow]
    rw [hs, pdep_0303n,
      sumByte0 ((w / 281474976710656) % 4) ((w / 281474976710656) / 4 % 4) ((w / 281474976710656) / 16 % 4) ((w / 281474976710656) / 64 % 4) ((w / 281474976710656) / 256 % 4) ((w / 281474976710656) / 1024 % 4) ((w / 281474976710656) / 4096 % 4) ((w / 281474976710656) / 16384 % 4) (by omega) (by omega) (by omega) (by omega) (by omega) (by omega) (by omega) (by omega)]
  have q25 : pdep (w >>> 48) 217020518514230019 % 18446744073709551616 / 256 % 256 = w / 1125899906842624 % 4 := by
    have hs : w >>> 48 = w / 281474976710656 := by
      rw [Nat.shiftRight_eq_div_pow]
    rw [hs, pdep_0303n,
      sumByte1 ((w / 281474976710656) % 4) ((w / 281474976710656) / 4 % 4) ((w / 281474976710656) / 16 % 4) ((w / 281474976710656) / 64 % 4) ((w / 281474976710656) / 256 % 4) ((w / 281474976710656) / 1024 % 4) ((w / 281474976710656) / 4096 % 4) ((w / 281474976710656) / 16384 % 4) (by omega) (by omega) (by omega) (by omega) (by omega) (by omega) (by omega) (by omega)]
    rw [Nat.div_div_eq_div_mul]
  have q26 : pdep (w >>> 48) 217020518514230019 % 18446744073709551616 / 65536 % 256 = w / 4503599627370496 % 4 := by
    have hs : w >>> 48 = w / 281474976710656 := by
      rw [Nat.shiftRight_eq_div_pow]
    rw [hs, pdep_0303n,
      sumByte2 ((w / 281474976710656) % 4) ((w / 281474976710656) / 4 % 4) ((w / 281474976710656) / 16 % 4) ((w / 281474976710656) / 64 % 4) ((w / 281474976710656) / 256 % 4) ((w / 281474976710656) / 1024 % 4) ((w / 281474976710656) / 4096 % 4) ((w / 281474976710656) / 16384 % 4) (by omega) (by omega) (by omega) (by omega) (by omega) (by omega) (by omega) (by omega)]
    rw [Nat.div_div_eq_div_mul]
  have q27 : pdep (w >>> 48) 217020518514230019 % 18446744073709551616 / 16777216 % 256 = w / 18014398509481984 % 4 := by
    have hs : w >>> 48 = w / 281474976710656 := by
      rw [Nat.shiftRight_eq_div_pow]
    rw [hs, pdep_0303n,
      sumByte3 ((w / 281474976710656) % 4) ((w / 281474976710656) / 4 % 4) ((w / 281474976710656) / 16 % 4) ((w / 281474976710656) / 64 % 4) ((w / 281474976710656) / 256 % 4) ((w / 281474976710656) / 1024 % 4) ((w / 281474976710656) / 4096 % 4) ((w / 281474976710656) / 16384 % 4) (by omega) (by omega) (by omega) (by omega) (by omega) (by omega) (by omega) (by omega)]
    rw [Nat.div_div_eq_div_mul]
  have q28 : pdep (w >>> 48) 217020518514230019 % 18446744073709551616 / 4294967296 % 256 = w / 72057594037927936 % 4 := by
    have hs : w >>> 48 = w / 281474976710656 := by
      rw [Nat.shiftRight_eq_div_pow]
    rw [hs, pdep_0303n,
      sumByte4 ((w / 281474976710656) % 4) ((w / 281474976710656) / 4 % 4) ((w / 281474976710656) / 16 % 4) ((w / 281474976710656) / 64 % 4) ((w / 281474976710656) / 256 % 4) ((w / 281474976710656) / 1024 % 4) ((w / 281474976710656) / 4096 % 4) ((w / 281474976710656) / 16384 % 4) (by omega) (by omega) (by omega) (by omega) (by omega) (by omega) (by omega) (by omega)]
    rw [Nat.div_div_eq_div_mul]
  have q29 : pdep (w >>> 48) 217020518514230019 % 18446744073709551616 / 1099511627776 % 256 = w / 288230376151711744 % 4 := by
    have hs : w >>> 48 = w / 281474976710656 := by
      rw [Nat.shiftRight_eq_div_pow]
    rw [hs, pdep_0303n,
      sumByte5 ((w / 281474976710656) % 4) ((w / 281474976710656) / 4 % 4) ((w / 281474976710656) / 16 % 4) ((w / 281474976710656) / 64 % 4) ((w / 281474976710656) / 256 % 4) ((w / 281474976710656) / 1024 % 4) ((w / 281474976710656) / 4096 % 4) ((w / 281474976710656) / 16384 % 4) (by omega) (by omega) (by omega) (by omega) (by omega) (by omega) (by omega) (by omega)]
    rw [Nat.div_div_eq_div_mul]
  have q30 : pdep (w >>> 48) 217020518514230019 % 18446744073709551616 / 281474976710656 % 256 = w / 1152921504606846976 % 4 := by
    have hs : w >>> 48 = w / 281474976710656 := by
      rw [Nat.shiftRight_eq_div_pow]
    rw [hs, pdep_0303n,
      sumByte6 ((w / 281474976710656) % 4) ((w / 281474976710656) / 4 % 4) ((w / 281474976710656) / 16 % 4) ((w / 281474976710656) / 64 % 4) ((w / 281474976710656) / 256 % 4) ((w / 281474976710656) / 1024 % 4) ((w / 281474976710656) / 4096 % 4) ((w / 281474976710656) / 16384 % 4) (by omega) (by omega) (by omega) (by omega) (by omega) (by omega) (by omega) (by omega)]
    rw [Nat.div_div_eq_div_mul]
  have q31 : pdep (w >>> 48) 217020518514230019 % 18446744073709551616 / 72057594037927936 % 256 = w / 4611686018427387904 % 4 := by
    have hs : w >>> 48 = w / 281474976710656 := by
      rw [Nat.shiftRight_eq_div_pow]
    rw [hs, pdep_0303n,
      sumByte7 ((w / 281474976710656) % 4) ((w / 281474976710656) / 4 % 4) ((w / 281474976710656) / 16 % 4) ((w / 281474976710656) / 64 % 4) ((w / 281474976710656) / 256 % 4) ((w / 281474976710656) / 1024 % 4) ((w / 281474976710656) / 4096 % 4) ((w / 281474976710656) / 16384 % 4) (by omega) (by omega) (by omega) (by omega) (by omega) (by omega) (by omega) (by omega)]
    rw [Nat.div_div_eq_div_mul]
  rw [hb, hr, q0, q1, q2, q3, q4, q5, q6, q7, q8, q9, q10, q11, q12, q13, q14, q15, q16, q17, q18, q19, q20, q21, q22, q23, q24, q25, q26, q27, q28, q29, q30, q31]
  rw [lutByte4p_code _ (by omega : w / 1 % 4 < 4), lutByte4p_code _ (by omega : w / 4 % 4 < 4), lutByte4p_code _ (by omega : w / 16 % 4 < 4), lutByte4p_code _ (by omega : w / 64 % 4 < 4), lutByte4p_code _ (by omega : w / 256 % 4 < 4), lutByte4p_code _ (by omega : w / 1024 % 4 < 4), lutByte4p_code _ (by omega : w / 4096 % 4 < 4), lutByte4p_code _ (by omega : w / 16384 % 4 < 4), lutByte4p_code _ (by omega : w / 65536 % 4 < 4), lutByte4p_code _ (by omega : w / 262144 % 4 < 4), lutByte4p_code _ (by omega : w / 1048576 % 4 < 4), lutByte4p_code _ (by omega : w / 4194304 % 4 < 4), lutByte4p_code _ (by omega : w / 16777216 % 4 < 4), lutByte4p_code _ (by omega : w / 67108864 % 4 < 4), lutByte4p_code _ (by omega : w / 268435456 % 4 < 4), lutByte4p_code _ (by omega : w / 1073741824 % 4 < 4), lutByte4p_code _ (by omega : w / 4294967296 % 4 < 4), lutByte4p_code _ (by omega : w / 17179869184 % 4 < 4), lutByte4p_code _ (by omega : w / 68719476736 % 4 < 4), lutByte4p_code _ (by omega : w / 274877906944 % 4 < 4), lutByte4p_code _ (by omega : w / 1099511627776 % 4 < 4), lutByte4p_code _ (by omega : w / 4398046511104 % 4 < 4), lutByte4p_code _ (by omega : w / 17592186044416 % 4 < 4), lutByte4p_code _ (by omega : w / 70368744177664 % 4 < 4), lutByte4p_code _ (by omega : w / 281474976710656 % 4 < 4), lutByte4p_code _ (by omega : w / 1125899906842624 % 4 < 4), lutByte4p_code _ (by omega : w / 4503599627370496 % 4 < 4), lutByte4p_code _ (by omega : w / 18014398509481984 % 4 < 4), lutByte4p_code _ (by omega : w / 72057594037927936 % 4 < 4), lutByte4p_code _ (by omega : w / 288230376151711744 % 4 < 4), lutByte4p_code _ (by omega : w / 1152921504606846976 % 4 < 4), lutByte4p_code _ (by omega : w / 4611686018427387904 % 4 < 4)]

end NToBits

namespace NToBits

open Codec

/-- `bits_to_n_pdep` agrees with `bits_to_n_lut` on every in-range request. -/
theorem bits_to_n_pdep_eq (bits : List Nat) (len : Nat)
    (hlen : len ≤ bits.length <<< 5) :
    bits_to_n_pdep bits len = bits_to_n_lut bits len := by
  rw [bits_to_n_lut_eq bits len hlen, bits_to_n_pdep, if_neg (by omega)]
  congr 1
  have hblocks : ∀ b ∈ bits.map pdepBlock, b.length = 32 := by
    intro b hb
    rcases List.mem_map.mp hb with ⟨w, hwmem, rfl⟩
    rw [pdepBlock_eq w, List.length_map, List.length_range]
  have hflen : (bits.map pdepBlock).flatten.length = 32 * bits.length := by
    rw [flattenBlocks_length _ 32 hblocks, List.length_map]
  rw [shiftLeft5] at hlen
  apply eq_of_getD
  · rw [List.length_take, hflen, dec4, List.length_map, List.length_range]
    omega
  · intro j
    by_cases hj : j < len
    · rw [getD_take _ _ _ hj, flattenBlocks_getD _ 32 (by norm_num) hblocks]
      have hjb : j / 32 < bits.length := by omega
      have hmap : (bits.map pdepBlock).getD (j / 32) []
          = pdepBlock (bits.getD (j / 32) 0) := by
        rw [List.getD_eq_getElem _ _ (by rw [List.length_map]; exact hjb), List.getElem_map,
          List.getD_eq_getElem _ _ hjb]
      rw [hmap]
      rw [pdepBlock_eq _]
      have hj32 : j % 32 < 32 := Nat.mod_lt _ (by norm_num)
      have houter : ((List.range 32).map fun r =>
            BITS_LUT.getD (bits.getD (j / 32) 0 / 4 ^ r % 4) 0).getD (j % 32) 0
          = BITS_LUT.getD (bits.getD (j / 32) 0 / 4 ^ (j % 32) % 4) 0 := by
        rw [List.getD_eq_getElem _ _ (by rw [List.length_map, List.length_range]; exact hj32),
          List.getElem_map, List.getElem_range]
      have hdecD : (dec4 bits len).getD j 0
          = BITS_LUT.getD (bits.getD (j >>> 5) 0 >>> ((j &&& 31) <<< 1) &&& 3) 0 := by
        rw [dec4, List.getD_eq_getElem _ _ (by rw [List.length_map, List.length_range]; exact hj),
          List.getElem_map, List.getElem_range]
      rw [houter, hdecD, shiftRight5, and31, shiftLeft1, Nat.shiftRight_eq_div_pow, and3]
      have hpow : (2:Nat) ^ (2 * (j % 32)) = 4 ^ (j % 32) := by
        rw [pow_mul]
        norm_num
      rw [hpow]
    · have hlen1 : ((bits.map pdepBlock).flatten.take len).length = len := by
        rw [List.length_take, hflen]
        omega
      have hlen2 : (dec4 bits len).length = len := by
        rw [dec4, List.length_map, List.length_range]
      have e1 : ((bits.map pdepBlock).flatten.take len).getD j 0 = 0 :=
        List.getD_eq_default _ _ (by rw [hlen1]; omega)
      have e2 : (dec4 bits len).getD j 0 = 0 :=
        List.getD_eq_default _ _ (by rw [hlen2]; omega)
      rw [e1, e2]

end NToBits

namespace NToBits

open Codec

/-- One byte of the decode lookup table held by the `lut` vector of
`bits_to_n_clmul`, indexed by a masked code byte. -/
def lutByte4c (e : Nat) : Nat :=
  if 128 ≤ e % 256 then 0
  else [65, 67, 84, 71, 65, 67, 84, 71, 65, 67, 84, 71, 65, 67, 84, 71].getD (e % 16) 0

theorem clmulXor_lt : ∀ B < 256, clmulXor B [0, 6, 12, 18] < 4294967296 := by decide

theorem clmulByteS0 : ∀ B < 256,
    lutByte4c (clmulXor B [0, 6, 12, 18] / 1 % 256 &&& 3)
      = BITS_LUT.getD (B / 4 ^ 0 % 4) 0 := by
  decide
theorem clmulByteS1 : ∀ B < 256,
    lutByte4c (clmulXor B [0, 6, 12, 18] / 256 % 256 &&& 3)
      = BITS_LUT.getD (B / 4 ^ 1 % 4) 0 := by
  decide
theorem clmulByteS2 : ∀ B < 256,
    lutByte4c (clmulXor B [0, 6, 12, 18] / 65536 % 256 &&& 3)
      = BITS_LUT.getD (B / 4 ^ 2 % 4) 0 := by
  decide
theorem clmulByteS3 : ∀ B < 256,
    lutByte4c (clmulXor B [0, 6, 12, 18] / 16777216 % 256 &&& 3)
      = BITS_LUT.getD (B / 4 ^ 3 % 4) 0 := by
  decide

theorem clmulLow0 (x y : Nat) (hx : x < 4294967296) :
    (x + y * 2 ^ 32) / 1 % 256 = x / 1 % 256 := by
  have h32 : (2:Nat) ^ 32 = 4294967296 := by norm_num
  rw [h32]
  omega
theorem clmulHigh0 (x y : Nat) (hx : x < 4294967296) :
    (x + y * 2 ^ 32) / 4294967296 % 256 = y / 1 % 256 := by
  have h32 : (2:Nat) ^ 32 = 4294967296 := by norm_num
  rw [h32]
  omega
theorem clmulLow1 (x y : Nat) (hx : x < 4294967296) :
    (x + y * 2 ^ 32) / 256 % 256 = x / 256 % 256 := by
  have h32 : (2:Nat) ^ 32 = 4294967296 := by norm_num
  rw [h32]
  omega
theorem clmulHigh1 (x y : Nat) (hx : x < 4294967296) :
    (x + y * 2 ^ 32) / 1099511627776 % 256 = y / 256 % 256 := by
  have h32 : (2:Nat) ^ 32 = 4294967296 := by norm_num
  rw [h32]
  omega
theorem clmulLow2 (x y : Nat) (hx : x < 4294967296) :
    (x + y * 2 ^ 32) / 65536 % 256 = x / 65536 % 256 := by
  have h32 : (2:Nat) ^ 32 = 4294967296 := by norm_num
  rw [h32]
  omega
theorem clmulHigh2 (x y : Nat) (hx : x < 4294967296) :
    (x + y * 2 ^ 32) / 281474976710656 % 256 = y / 65536 % 256 := by
  have h32 : (2:Nat) ^ 32 = 4294967296 := by norm_num
  rw [h32]
  omega
theorem clmulLow3 (x y : Nat) (hx : x < 4294967296) :
    (x + y * 2 ^ 32) / 16777216 % 256 = x / 16777216 % 256 := by
  have h32 : (2:Nat) ^ 32 = 4294967296 := by norm_num
  rw [h32]
  omega
theorem clmulHigh3 (x y : Nat) (hx : x < 4294967296) :
    (x + y * 2 ^ 32) / 72057594037927936 % 256 = y / 16777216 % 256 := by
  have h32 : (2:Nat) ^ 32 = 4294967296 := by norm_num
  rw [h32]
  omega

/-- The 64-bit carry-less product of a two-byte operand splits into
independent 32-bit halves. -/
theorem clmul_split (B C : Nat) (hB : B < 256) (hC : C < 256) :
    clmulXor (packWord 8 [B, 0, 0, 0, C, 0, 0, 0]) [0, 6, 12, 18]
      = clmulXor B [0, 6, 12, 18] + clmulXor C [0, 6, 12, 18] * 2 ^ 32 := by
  have hp : packWord 8 [B, 0, 0, 0, C, 0, 0, 0] = B + C * 2 ^ 32 := by
    simp only [packWord]
    ring
  simp only [clmulXor, hp]
  have e0 : (B + C * 2 ^ 32) * 2 ^ 0 = B * 2 ^ 0 + C * 2 ^ 0 * 2 ^ 32 := by ring
  have e6 : (B + C * 2 ^ 32) * 2 ^ 6 = B * 2 ^ 6 + C * 2 ^ 6 * 2 ^ 32 := by ring
  have e12 : (B + C * 2 ^ 32) * 2 ^ 12 = B * 2 ^ 12 + C * 2 ^ 12 * 2 ^ 32 := by ring
  have e18 : (B + C * 2 ^ 32) * 2 ^ 18 = B * 2 ^ 18 + C * 2 ^ 18 * 2 ^ 32 := by ring
  rw [e0, e6, e12, e18, Nat.xor_zero, Nat.xor_zero, Nat.xor_zero]
  have b0 : B * 2 ^ 0 < 2 ^ 32 := by omega
  have b6 : B * 2 ^ 6 < 2 ^ 32 := by
    have : (2:Nat) ^ 6 = 64 := by norm_num
    rw [this]
    have : (2:Nat) ^ 32 = 4294967296 := by norm_num
    rw [this]
    omega
  have b12 : B * 2 ^ 12 < 2 ^ 32 := by
    have : (2:Nat) ^ 12 = 4096 := by norm_num
    rw [this]
    have : (2:Nat) ^ 32 = 4294967296 := by norm_num
    rw [this]
    omega
  have b18 : B * 2 ^ 18 < 2 ^ 32 := by
    have : (2:Nat) ^ 18 = 262144 := by norm_num
    rw [this]
    have : (2:Nat) ^ 32 = 4294967296 := by norm_num
    rw [this]
    omega
  rw [xor_split _ _ _ _ 32 b12 b18,
    xor_split _ _ _ _ 32 b6 (Nat.xor_lt_two_pow b12 b18),
    xor_split _ _ _ _ 32 b0 (Nat.xor_lt_two_pow b6 (Nat.xor_lt_two_pow b12 b18))]

end NToBits

namespace NToBits

open Codec

set_option maxHeartbeats 2000000 in
/-- Each 32-byte block written by `bits_to_n_clmul` decodes its word's 2-bit
fields through the ASCII table. -/
theorem clmulBlock_eq (w : Nat) (hw : w < 2 ^ 64) :
    clmulBlock w = (List.range 32).map fun r => BITS_LUT.getD (w / 4 ^ r % 4) 0 := by
  have hmod : w % 2 ^ 64 = w := Nat.mod_eq_of_lt hw
  have hb : clmulBlock w = [lutByte4c (clmulXor (packWord 8 [byteAt (w % 2 ^ 64) 0, 0, 0, 0, byteAt (w % 2 ^ 64) 1, 0, 0, 0]) [0, 6, 12, 18] / 1 % 256 &&& 3), lutByte4c (clmulXor (packWord 8 [byteAt (w % 2 ^ 64) 0, 0, 0, 0, byteAt (w % 2 ^ 64) 1, 0, 0, 0]) [0, 6, 12, 18] / 256 % 256 &&& 3), lutByte4c (clmulXor (packWord 8 [byteAt (w % 2 ^ 64) 0, 0, 0, 0, byteAt (w % 2 ^ 64) 1, 0, 0, 0]) [0, 6, 12, 18] / 65536 % 256 &&& 3), lutByte4c (clmulXor (packWord 8 [byteAt (w % 2 ^ 64) 0, 0, 0, 0, byteAt (w % 2 ^ 64) 1, 0, 0, 0]) [0, 6, 12, 18] / 16777216 % 256 &&& 3), lutByte4c (clmulXor (packWord 8 [byteAt (w % 2 ^ 64) 0, 0, 0, 0, byteAt (w % 2 ^ 64) 1, 0, 0, 0]) [0, 6, 12, 18] / 4294967296 % 256 &&& 3), lutByte4c (clmulXor (packWord 8 [byteAt (w % 2 ^ 64) 0, 0, 0, 0, byteAt (w % 2 ^ 64) 1, 0, 0, 0]) [0, 6, 12, 18] / 1099511627776 % 256 &&& 3), lutByte4c (clmulXor (packWord 8 [byteAt (w % 2 ^ 64) 0, 0, 0, 0, byteAt (w % 2 ^ 64) 1, 0, 0, 0]) [0, 6, 12, 18] / 281474976710656 % 256 &&& 3), lutByte4c (clmulXor (packWord 8 [byteAt (w % 2 ^ 64) 0, 0, 0, 0, byteAt (w % 2 ^ 64) 1, 0, 0, 0]) [0, 6, 12, 18] / 72057594037927936 % 256 &&& 3), lutByte4c (clmulXor (packWord 8 [byteAt (w % 2 ^ 64) 2, 0, 0, 0, byteAt (w % 2 ^ 64) 3, 0, 0, 0]) [0, 6, 12, 18] / 1 % 256 &&& 3), lutByte4c (clmulXor (packWord 8 [byteAt (w % 2 ^ 64) 2, 0, 0, 0, byteAt (w % 2 ^ 64) 3, 0, 0, 0]) [0, 6, 12, 18] / 256 % 256 &&& 3), lutByte4c (clmulXor (packWord 8 [byteAt (w % 2 ^ 64) 2, 0, 0, 0, byteAt (w % 2 ^ 64) 3, 0, 0, 0]) [0, 6, 12, 18] / 65536 % 256 &&& 3), lutByte4c (clmulXor (packWord 8 [byteAt (w % 2 ^ 64) 2, 0, 0, 0, byteAt (w % 2 ^ 64) 3, 0, 0, 0]) [0, 6, 12, 18] / 16777216 % 256 &&& 3), lutByte4c (clmulXor (packWord 8 [byteAt (w % 2 ^ 64) 2, 0, 0, 0, byteAt (w % 2 ^ 64) 3, 0, 0, 0]) [0, 6, 12, 18] / 4294967296 % 256 &&& 3), lutByte4c (clmulXor (packWord 8 [byteAt (w % 2 ^ 64) 2, 0, 0, 0, byteAt (w % 2 ^ 64) 3, 0, 0, 0]) [0, 6, 12, 18] / 1099511627776 % 256 &&& 3), lutByte4c (clmulXor (packWord 8 [byteAt (w % 2 ^ 64) 2, 0, 0, 0, byteAt (w % 2 ^ 64) 3, 0, 0, 0]) [0, 6, 12, 18] / 281474976710656 % 256 &&& 3), lutByte4c (clmulXor (packWord 8 [byteAt (w % 2 ^ 64) 2, 0, 0, 0, byteAt (w % 2 ^ 64) 3, 0, 0, 0]) [0, 6, 12, 18] / 72057594037927936 % 256 &&& 3), lutByte4c (clmulXor (packWord 8 [byteAt (w % 2 ^ 64) 4, 0, 0, 0, byteAt (w % 2 ^ 64) 5, 0, 0, 0]) [0, 6, 12, 18] / 1 % 256 &&& 3), lutByte4c (clmulXor (packWord 8 [byteAt (w % 2 ^ 64) 4, 0, 0, 0, byteAt (w % 2 ^ 64) 5, 0, 0, 0]) [0, 6, 12, 18] / 256 % 256 &&& 3), lutByte4c (clmulXor (packWord 8 [byteAt (w % 2 ^ 64) 4, 0, 0, 0, byteAt (w % 2 ^ 64) 5, 0, 0, 0]) [0, 6, 12, 18] / 65536 % 256 &&& 3), lutByte4c (clmulXor (packWord 8 [byteAt (w % 2 ^ 64) 4, 0, 0, 0, byteAt (w % 2 ^ 64) 5, 0, 0, 0]) [0, 6, 12, 18] / 16777216 % 256 &&& 3), lutByte4c (clmulXor (packWord 8 [byteAt (w % 2 ^ 64) 4, 0, 0, 0, byteAt (w % 2 ^ 64) 5, 0, 0, 0]) [0, 6, 12, 18] / 4294967296 % 256 &&& 3), lutByte4c (clmulXor (packWord 8 [byteAt (w % 2 ^ 64) 4, 0, 0, 0, byteAt (w % 2 ^ 64) 5, 0, 0, 0]) [0, 6, 12, 18] / 1099511627776 % 256 &&& 3), lutByte4c (clmulXor (packWord 8 [byteAt (w % 2 ^ 64) 4, 0, 0, 0, byteAt (w % 2 ^ 64) 5, 0, 0, 0]) [0, 6, 12, 18] / 281474976710656 % 256 &&& 3), lutByte4c (clmulXor (packWord 8 [byteAt (w % 2 ^ 64) 4, 0, 0, 0, byteAt (w % 2 ^ 64) 5, 0, 0, 0]) [0, 6, 12, 18] / 72057594037927936 % 256 &&& 3), lutByte4c (clmulXor (packWord 8 [byteAt (w % 2 ^ 64) 6, 0, 0, 0, byteAt (w % 2 ^ 64) 7, 0, 0, 0]) [0, 6, 12, 18] / 1 % 256 &&& 3), lutByte4c (clmulXor (packWord 8 [byteAt (w % 2 ^ 64) 6, 0, 0, 0, byteAt (w % 2 ^ 64) 7, 0, 0, 0]) [0, 6, 12, 18] / 256 % 256 &&& 3), lutByte4c (clmulXor (packWord 8 [byteAt (w % 2 ^ 64) 6, 0, 0, 0, byteAt (w % 2 ^ 64) 7, 0, 0, 0]) [0, 6, 12, 18] / 65536 % 256 &&& 3), lutByte4c (clmulXor (packWord 8 [byteAt (w % 2 ^ 64) 6, 0, 0, 0, byteAt (w % 2 ^ 64) 7, 0, 0, 0]) [0, 6, 12, 18] / 16777216 % 256 &&& 3), lutByte4c (clmulXor (packWord 8 [byteAt (w % 2 ^ 64) 6, 0, 0, 0, byteAt (w % 2 ^ 64) 7, 0, 0, 0]) [0, 6, 12, 18] / 4294967296 % 256 &&& 3), lutByte4c (clmulXor (packWord 8 [byteAt (w % 2 ^ 64) 6, 0, 0, 0, byteAt (w % 2 ^ 64) 7, 0, 0, 0]) [0, 6, 12, 18] / 1099511627776 % 256 &&& 3), lutByte4c (clmulXor (packWord 8 [byteAt (w % 2 ^ 64) 6, 0, 0, 0, byteAt (w % 2 ^ 64) 7, 0, 0, 0]) [0, 6, 12, 18] / 281474976710656 % 256 &&& 3), lutByte4c (clmulXor (packWord 8 [byteAt (w % 2 ^ 64) 6, 0, 0, 0, byteAt (w % 2 ^ 64) 7, 0, 0, 0]) [0, 6, 12, 18] / 72057594037927936 % 256 &&& 3)] := rfl
  have hr : (List.range 32).map (fun r => BITS_LUT.getD (w / 4 ^ r % 4) 0) = [BITS_LUT.getD (w / 4 ^ 0 % 4) 0, BITS_LUT.getD (w / 4 ^ 1 % 4) 0, BITS_LUT.getD (w / 4 ^ 2 % 4) 0, BITS_LUT.getD (w / 4 ^ 3 % 4) 0, BITS_LUT.getD (w / 4 ^ 4 % 4) 0, BITS_LUT.getD (w / 4 ^ 5 % 4) 0, BITS_LUT.getD (w / 4 ^ 6 % 4) 0, BITS_LUT.getD (w / 4 ^ 7 % 4) 0, BITS_LUT.getD (w / 4 ^ 8 % 4) 0, BITS_LUT.getD (w / 4 ^ 9 % 4) 0, BITS_LUT.getD (w / 4 ^ 10 % 4) 0, BITS_LUT.getD (w / 4 ^ 11 % 4) 0, BITS_LUT.getD (w / 4 ^ 12 % 4) 0, BITS_LUT.getD (w / 4 ^ 13 % 4) 0, BITS_LUT.getD (w / 4 ^ 14 % 4) 0, BITS_LUT.getD (w / 4 ^ 15 % 4) 0, BITS_LUT.getD (w / 4 ^ 16 % 4) 0, BITS_LUT.getD (w / 4 ^ 17 % 4) 0, BITS_LUT.getD (w / 4 ^ 18 % 4) 0, BITS_LUT.getD (w / 4 ^ 19 % 4) 0, BITS_LUT.getD (w / 4 ^ 20 % 4) 0, BITS_LUT.getD (w / 4 ^ 21 % 4) 0, BITS_LUT.getD (w / 4 ^ 22 % 4) 0, BITS_LUT.getD (w / 4 ^ 23 % 4) 0, BITS_LUT.getD (w / 4 ^ 24 % 4) 0, BITS_LUT.getD (w / 4 ^ 25 % 4) 0, BITS_LUT.getD (w / 4 ^ 26 % 4) 0, BITS_LUT.getD (w / 4 ^ 27 % 4) 0, BITS_LUT.getD (w / 4 ^ 28 % 4) 0, BITS_LUT.getD (w / 4 ^ 29 % 4) 0, BITS_LUT.getD (w / 4 ^ 30 % 4) 0, BITS_LUT.getD (w / 4 ^ 31 % 4) 0] := rfl
  rw [hb, hmod, hr]
  rw [clmul_split (byteAt w 0) (byteAt w 1) (byteAt_lt w 0) (byteAt_lt w 1), clmul_split (byteAt w 2) (byteAt w 3) (byteAt_lt w 2) (byteAt_lt w 3), clmul_split (byteAt w 4) (byteAt w 5) (byteAt_lt w 4) (byteAt_lt w 5), clmul_split (byteAt w 6) (byteAt w 7) (byteAt_lt w 6) (byteAt_lt w 7)]
  rw [clmulLow0 (clmulXor (byteAt w 0) [0, 6, 12, 18]) (clmulXor (byteAt w 1) [0, 6, 12, 18]) (clmulXor_lt _ (byteAt_lt w 0)), clmulLow1 (clmulXor (byteAt w 0) [0, 6, 12, 18]) (clmulXor (byteAt w 1) [0, 6, 12, 18]) (clmulXor_lt _ (byteAt_lt w 0)), clmulLow2 (clmulXor (byteAt w 0) [0, 6, 12, 18]) (clmulXor (byteAt w 1) [0, 6, 12, 18]) (clmulXor_lt _ (byteAt_lt w 0)), clmulLow3 (clmulXor (byteAt w 0) [0, 6, 12, 18]) (clmulXor (byteAt w 1) [0, 6, 12, 18]) (clmulXor_lt _ (byteAt_lt w 0)), clmulHigh0 (clmulXor (byteAt w 0) [0, 6, 12, 18]) (clmulXor (byteAt w 1) [0, 6, 12, 18]) (clmulXor_lt _ (byteAt_lt w 0)), clmulHigh1 (clmulXor (byteAt w 0) [0, 6, 12, 18]) (clmulXor (byteAt w 1) [0, 6, 12, 18]) (clmulXor_lt _ (byteAt_lt w 0)), clmulHigh2 (clmulXor (byteAt w 0) [0, 6, 12, 18]) (clmulXor (byteAt w 1) [0, 6, 12, 18]) (clmulXor_lt _ (byteAt_lt w 0)), clmulHigh3 (clmulXor (byteAt w 0) [0, 6, 12, 18]) (clmulXor (byteAt w 1) [0, 6, 12, 18]) (clmulXor_lt _ (byteAt_lt w 0)), clmulLow0 (clmulXor (byteAt w 2) [0, 6, 12, 18]) (clmulXor (byteAt w 3) [0, 6, 12, 18]) (clmulXor_lt _ (byteAt_lt w 2)), clmulLow1 (clmulXor (byteAt w 2) [0, 6, 12, 18]) (clmulXor (byteAt w 3) [0, 6, 12, 18]) (clmulXor_lt _ (byteAt_lt w 2)), clmulLow2 (clmulXor (byteAt w 2) [0, 6, 12, 18]) (clmulXor (byteAt w 3) [0, 6, 12, 18]) (clmulXor_lt _ (byteAt_lt w 2)), clmulLow3 (clmulXor (byteAt w 2) [0, 6, 12, 18]) (clmulXor (byteAt w 3) [0, 6, 12, 18]) (clmulXor_lt _ (byteAt_lt w 2)), clmulHigh0 (clmulXor (byteAt w 2) [0, 6, 12, 18]) (clmulXor (byteAt w 3) [0, 6, 12, 18]) (clmulXor_lt _ (byteAt_lt w 2)), clmulHigh1 (clmulXor (byteAt w 2) [0, 6, 12, 18]) (clmulXor (byteAt w 3) [0, 6, 12, 18]) (clmulXor_lt _ (byteAt_lt w 2)), clmulHigh2 (clmulXor (byteAt w 2) [0, 6, 12, 18]) (clmulXor (byteAt w 3) [0, 6, 12, 18]) (clmulXor_lt _ (byteAt_lt w 2)), clmulHigh3 (clmulXor (byteAt w 2) [0, 6, 12, 18]) (clmulXor (byteAt w 3) [0, 6, 12, 18]) (clmulXor_lt _ (byteAt_lt w 2)), clmulLow0 (clmulXor (byteAt w 4) [0, 6, 12, 18]) (clmulXor (byteAt w 5) [0, 6, 12, 18]) (clmulXor_lt _ (byteAt_lt w 4)), clmulLow1 (clmulXor (byteAt w 4) [0, 6, 12, 18]) (clmulXor (byteAt w 5) [0, 6, 12, 18]) (clmulXor_lt _ (byteAt_lt w 4)), clmulLow2 (clmulXor (byteAt w 4) [0, 6, 12, 18]) (clmulXor (byteAt w 5) [0, 6, 12, 18]) (clmulXor_lt _ (byteAt_lt w 4)), clmulLow3 (clmulXor (byteAt w 4) [0, 6, 12, 18]) (clmulXor (byteAt w 5) [0, 6, 12, 18]) (clmulXor_lt _ (byteAt_lt w 4)), clmulHigh0 (clmulXor (byteAt w 4) [0, 6, 12, 18]) (clmulXor (byteAt w 5) [0, 6, 12, 18]) (clmulXor_lt _ (byteAt_lt w 4)), clmulHigh1 (clmulXor (byteAt w 4) [0, 6, 12, 18]) (clmulXor (byteAt w 5) [0, 6, 12, 18]) (clmulXor_lt _ (byteAt_lt w 4)), clmulHigh2 (clmulXor (byteAt w 4) [0, 6, 12, 18]) (clmulXor (byteAt w 5) [0, 6, 12, 18]) (clmulXor_lt _ (byteAt_lt w 4)), clmulHigh3 (clmulXor (byteAt w 4) [0, 6, 12, 18]) (clmulXor (byteAt w 5) [0, 6, 12, 18]) (clmulXor_lt _ (byteAt_lt w 4)), clmulLow0 (clmulXor (byteAt w 6) [0, 6, 12, 18]) (clmulXor (byteAt w 7) [0, 6, 12, 18]) (clmulXor_lt _ (byteAt_lt w 6)), clmulLow1 (clmulXor (byteAt w 6) [0, 6, 12, 18]) (clmulXor (byteAt w 7) [0, 6, 12, 18]) (clmulXor_lt _ (byteAt_lt w 6)), clmulLow2 (clmulXor (byteAt w 6) [0, 6, 12, 18]) (clmulXor (byteAt w 7) [0, 6, 12, 18]) (clmulXor_lt _ (byteAt_lt w 6)), clmulLow3 (clmulXor (byteAt w 6) [0, 6, 12, 18]) (clmulXor (byteAt w 7) [0, 6, 12, 18]) (clmulXor_lt _ (byteAt_lt w 6)), clmulHigh0 (clmulXor (byteAt w 6) [0, 6, 12, 18]) (clmulXor (byteAt w 7) [0, 6, 12, 18]) (clmulXor_lt _ (byteAt_lt w 6)), clmulHigh1 (clmulXor (byteAt w 6) [0, 6, 12, 18]) (clmulXor (byteAt w 7) [0, 6, 12, 18]) (clmulXor_lt _ (byteAt_lt w 6)), clmulHigh2 (clmulXor (byteAt w 6) [0, 6, 12, 18]) (clmulXor (byteAt w 7) [0, 6, 12, 18]) (clmulXor_lt _ (byteAt_lt w 6)), clmulHigh3 (clmulXor (byteAt w 6) [0, 6, 12, 18]) (clmulXor (byteAt w 7) [0, 6, 12, 18]) (clmulXor_lt _ (byteAt_lt w 6))]
  rw [clmulByteS0 _ (byteAt_lt w 0), clmulByteS1 _ (byteAt_lt w 0), clmulByteS2 _ (byteAt_lt w 0), clmulByteS3 _ (byteAt_lt w 0), clmulByteS0 _ (byteAt_lt w 1), clmulByteS1 _ (byteAt_lt w 1), clmulByteS2 _ (byteAt_lt w 1), clmulByteS3 _ (byteAt_lt w 1), clmulByteS0 _ (byteAt_lt w 2), clmulByteS1 _ (byteAt_lt w 2), clmulByteS2 _ (byteAt_lt w 2), clmulByteS3 _ (byteAt_lt w 2), clmulByteS0 _ (byteAt_lt w 3), clmulByteS1 _ (byteAt_lt w 3), clmulByteS2 _ (byteAt_lt w 3), clmulByteS3 _ (byteAt_lt w 3), clmulByteS0 _ (byteAt_lt w 4), clmulByteS1 _ (byteAt_lt w 4), clmulByteS2 _ (byteAt_lt w 4), clmulByteS3 _ (byteAt_lt w 4), clmulByteS0 _ (byteAt_lt w 5), clmulByteS1 _ (byteAt_lt w 5), clmulByteS2 _ (byteAt_lt w 5), clmulByteS3 _ (byteAt_lt w 5), clmulByteS0 _ (byteAt_lt w 6), clmulByteS1 _ (byteAt_lt w 6), clmulByteS2 _ (byteAt_lt w 6), clmulByteS3 _ (byteAt_lt w 6), clmulByteS0 _ (byteAt_lt w 7), clmulByteS1 _ (byteAt_lt w 7), clmulByteS2 _ (byteAt_lt w 7), clmulByteS3 _ (byteAt_lt w 7)]
  rw [byteAt_digit w 0 0 0 (by norm_num) (by norm_num), byteAt_digit w 0 1 1 (by norm_num) (by norm_num), byteAt_digit w 0 2 2 (by norm_num) (by norm_num), byteAt_digit w 0 3 3 (by norm_num) (by norm_num), byteAt_digit w 1 0 4 (by norm_num) (by norm_num), byteAt_digit w 1 1 5 (by norm_num) (by norm_num), byteAt_digit w 1 2 6 (by norm_num) (by norm_num), byteAt_digit w 1 3 7 (by norm_num) (by norm_num), byteAt_digit w 2 0 8 (by norm_num) (by norm_num), byteAt_digit w 2 1 9 (by norm_num) (by norm_num), byteAt_digit w 2 2 10 (by norm_num) (by norm_num), byteAt_digit w 2 3 11 (by norm_num) (by norm_num), byteAt_digit w 3 0 12 (by norm_num) (by norm_num), byteAt_digit w 3 1 13 (by norm_num) (by norm_num), byteAt_digit w 3 2 14 (by norm_num) (by norm_num), byteAt_digit w 3 3 15 (by norm_num) (by norm_num), byteAt_digit w 4 0 16 (by norm_num) (by norm_num), byteAt_digit w 4 1 17 (by norm_num) (by norm_num), byteAt_digit w 4 2 18 (by norm_num) (by norm_num), byteAt_digit w 4 3 19 (by norm_num) (by norm_num), byteAt_digit w 5 0 20 (by norm_num) (by norm_num), byteAt_digit w 5 1 21 (by norm_num) (by norm_num), byteAt_digit w 5 2 22 (by norm_num) (by norm_num), byteAt_digit w 5 3 23 (by norm_num) (by norm_num), byteAt_digit w 6 0 24 (by norm_num) (by norm_num), byteAt_digit w 6 1 25 (by norm_num) (by norm_num), byteAt_digit w 6 2 26 (by norm_num) (by norm_num), byteAt_digit w 6 3 27 (by norm_num) (by norm_num), byteAt_digit w 7 0 28 (by norm_num) (by norm_num), byteAt_digit w 7 1 29 (by norm_num) (by norm_num), byteAt_digit w 7 2 30 (by norm_num) (by norm_num), byteAt_digit w 7 3 31 (by norm_num) (by norm_num)]

end NToBits

namespace NToBits

open Codec

/-- `bits_to_n_clmul` agrees with `bits_to_n_lut` on every in-range request
over genuine `u64` words. -/
theorem bits_to_n_clmul_eq (bits : List Nat) (len : Nat)
    (hw : ∀ w ∈ bits, w < 2 ^ 64) (hlen : len ≤ bits.length <<< 5) :
    bits_to_n_clmul bits len = bits_to_n_lut bits len := by
  rw [bits_to_n_lut_eq bits len hlen, bits_to_n_clmul, if_neg (by omega)]
  congr 1
  have hblocks : ∀ b ∈ bits.map clmulBlock, b.length = 32 := by
    intro b hb
    rcases List.mem_map.mp hb with ⟨w, hwmem, rfl⟩
    rw [clmulBlock_eq w (hw w hwmem), List.length_map, List.length_range]
  have hflen : (bits.map clmulBlock).flatten.length = 32 * bits.length := by
    rw [flattenBlocks_length _ 32 hblocks, List.length_map]
  rw [shiftLeft5] at hlen
  apply eq_of_getD
  · rw [List.length_take, hflen, dec4, List.length_map, List.length_range]
    omega
  · intro j
    by_cases hj : j < len
    · rw [getD_take _ _ _ hj, flattenBlocks_getD _ 32 (by norm_num) hblocks]
      have hjb : j / 32 < bits.length := by omega
      have hmap : (bits.map clmulBlock).getD (j / 32) []
          = clmulBlock (bits.getD (j / 32) 0) := by
        rw [List.getD_eq_getElem _ _ (by rw [List.length_map]; exact hjb), List.getElem_map,
          List.getD_eq_getElem _ _ hjb]
      rw [hmap]
      have hwmem : bits.getD (j / 32) 0 ∈ bits := by
        rw [List.getD_eq_getElem _ _ hjb]
        exact List.getElem_mem hjb
      rw [clmulBlock_eq _ (hw _ hwmem)]
      have hj32 : j % 32 < 32 := Nat.mod_lt _ (by norm_num)
      have houter : ((List.range 32).map fun r =>
            BITS_LUT.getD (bits.getD (j / 32) 0 / 4 ^ r % 4) 0).getD (j % 32) 0
          = BITS_LUT.getD (bits.getD (j / 32) 0 / 4 ^ (j % 32) % 4) 0 := by
        rw [List.getD_eq_getElem _ _ (by rw [List.length_map, List.length_range]; exact hj32),
          List.getElem_map, List.getElem_range]
      have hdecD : (dec4 bits len).getD j 0
          = BITS_LUT.getD (bits.getD (j >>> 5) 0 >>> ((j &&& 31) <<< 1) &&& 3) 0 := by
        rw [dec4, List.getD_eq_getElem _ _ (by rw [List.length_map, List.length_range]; exact hj),
          List.getElem_map, List.getElem_range]
      rw [houter, hdecD, shiftRight5, and31, shiftLeft1, Nat.shiftRight_eq_div_pow, and3]
      have hpow : (2:Nat) ^ (2 * (j % 32)) = 4 ^ (j % 32) := by
        rw [pow_mul]
        norm_num
      rw [hpow]
    · have hlen1 : ((bits.map clmulBlock).flatten.take len).length = len := by
        rw [List.length_take, hflen]
        omega
      have hlen2 : (dec4 bits len).length = len := by
        rw [dec4, List.length_map, List.length_range]
      have e1 : ((bits.map clmulBlock).flatten.take len).getD j 0 = 0 :=
        List.getD_eq_default _ _ (by rw [hlen1]; omega)
      have e2 : (dec4 bits len).getD j 0 = 0 :=
        List.getD_eq_default _ _ (by rw [hlen2]; omega)
      rw [e1, e2]

end NToBits
namespace NToBits

open Codec

end NToBits

open NToBits in
/-- C1: every accelerated Codec-4 implementation is bit-identical to the
scalar reference: the `pext` and `mul` encoders agree with `n_to_bits_lut`
on every byte string over the {A,C,G,T} alphabet (either case, any length),
and the `shuffle`, `pdep` and `clmul` decoders agree with `bits_to_n_lut`
on every `u64` word sequence and every requested length within capacity. -/
theorem claim_C1 (n : List Nat) (hn : ∀ b ∈ n, isAlpha4 b)
    (bits : List Nat) (len : Nat) (hw : ∀ w ∈ bits, w < 2 ^ 64)
    (hlen : len ≤ bits.length <<< 5) :
    (n_to_bits_pext n = n_to_bits_lut n ∧ n_to_bits_mul n = n_to_bits_lut n) ∧
    (bits_to_n_shuffle bits len = bits_to_n_lut bits len ∧
     bits_to_n_pdep bits len = bits_to_n_lut bits len ∧
     bits_to_n_clmul bits len = bits_to_n_lut bits len) :=
  ⟨⟨n_to_bits_pext_eq n hn, n_to_bits_mul_eq n hn⟩,
   bits_to_n_shuffle_eq bits len hw hlen, bits_to_n_pdep_eq bits len hlen,
   bits_to_n_clmul_eq bits len hw hlen⟩

open NToBits in
/-- C1 witness: a 7-byte mixed-case input (tail-only path) and a two-word
50-symbol decode. -/
theorem claim_C1_witness :
    (n_to_bits_pext [71, 65, 84, 84, 97, 99, 97] = n_to_bits_lut [71, 65, 84, 84, 97, 99, 97] ∧
     n_to_bits_mul [71, 65, 84, 84, 97, 99, 97] = n_to_bits_lut [71, 65, 84, 84, 97, 99, 97]) ∧
    (bits_to_n_shuffle [4060086272, 17] 50 = bits_to_n_lut [4060086272, 17] 50 ∧
     bits_to_n_pdep [4060086272, 17] 50 = bits_to_n_lut [4060086272, 17] 50 ∧
     bits_to_n_clmul [4060086272, 17] 50 = bits_to_n_lut [4060086272, 17] 50) :=
  claim_C1 [71, 65, 84, 84, 97, 99, 97] (by decide) [4060086272, 17] 50 (by decide) (by decide)
